import Mathlib

/-!
# Session tokens of the admin portal and the console

A shallow embedding of the token signer (`internal/auth`), of the two authentication
services (`adminportal/adminauth`, `console/consoleauth`), of the repositories of
`database`, of the middleware of the two servers and of the library calls they are built
from, followed by the properties proved about them.

Conventions of the embedding:

* a Go `[]byte` and a Go `string` are lists of bytes;
* a Go `error` result is an `Option GoError` (`none` is `nil`), a `(value, error)` pair is a
  product, and a `(*T, error)` result whose pointer is `nil` exactly on error is an `Except`;
* `time.Now()` is a parameter `now` of the function that reads the clock, and `uuid.New()`
  a parameter `id` of the function that draws the UUID;
* a library call of which only a part is embedded takes the library as a parameter for the
  rest: `decodeJSON` for `encoding/json` beyond plain objects, `mapUpper` for
  `strings.ToUpper` beyond ASCII;
* a database table is the list of its rows.
-/

/-- A Go byte. -/
abbrev Byte := Fin 256

namespace utf8

/-- Function `utf8.AppendRune` on an empty slice: the UTF-8 bytes of a character. -/
def EncodeRune (r : Char) : List Byte :=
  let n := r.toNat
  if n < 0x80 then [Fin.ofNat n]
  else if n < 0x800 then [Fin.ofNat (0xC0 ||| (n >>> 6)), Fin.ofNat (0x80 ||| (n &&& 0x3F))]
  else if n < 0x10000 then
    [Fin.ofNat (0xE0 ||| (n >>> 12)), Fin.ofNat (0x80 ||| ((n >>> 6) &&& 0x3F)),
     Fin.ofNat (0x80 ||| (n &&& 0x3F))]
  else
    [Fin.ofNat (0xF0 ||| (n >>> 18)), Fin.ofNat (0x80 ||| ((n >>> 12) &&& 0x3F)),
     Fin.ofNat (0x80 ||| ((n >>> 6) &&& 0x3F)), Fin.ofNat (0x80 ||| (n &&& 0x3F))]

end utf8

/-- Bytes of a string constant: its UTF-8 encoding, as Go holds a string. -/
def bytesOf (s : String) : List Byte := s.toList.flatMap utf8.EncodeRune

/-- An error value: the classes wrapped around it, outermost first, and its message.
An error made by `errors.New` or returned by a library carries no class. -/
structure GoError where
  classes : List String
  msg : String
deriving DecidableEq

namespace errs

/-- Method `Class.New`: a fresh error of class `cls`. -/
def New (cls : String) (msg : String) : GoError := { classes := [cls], msg := msg }

/-- Wrapping of a non-nil error by `Class.Wrap`: an error whose outermost class is already
`cls` is returned as it is; any other error gets `cls` as its new outermost class. -/
def wrap (cls : String) (e : GoError) : GoError :=
  if e.classes.head? = some cls then e else { e with classes := cls :: e.classes }

/-- Method `Class.Wrap`: `nil` stays `nil`, any other error is wrapped. -/
def Wrap (cls : String) : Option GoError → Option GoError
  | none => none
  | some e => some (wrap cls e)

/-- Method `Class.Has`: whether `err` is contained in the class. -/
def Has (cls : String) : Option GoError → Bool
  | none => false
  | some e => decide (cls ∈ e.classes)

end errs

namespace sha256

/-- Round constants of SHA-256 (the table `_K`), eight rounds to a row. -/
def K : List Nat :=
  [0x428a2f98, 0x71374491, 0xb5c0fbcf, 0xe9b5dba5, 0x3956c25b, 0x59f111f1, 0x923f82a4, 0xab1c5ed5] ++
  [0xd807aa98, 0x12835b01, 0x243185be, 0x550c7dc3, 0x72be5d74, 0x80deb1fe, 0x9bdc06a7, 0xc19bf174] ++
  [0xe49b69c1, 0xefbe4786, 0x0fc19dc6, 0x240ca1cc, 0x2de92c6f, 0x4a7484aa, 0x5cb0a9dc, 0x76f988da] ++
  [0x983e5152, 0xa831c66d, 0xb00327c8, 0xbf597fc7, 0xc6e00bf3, 0xd5a79147, 0x06ca6351, 0x14292967] ++
  [0x27b70a85, 0x2e1b2138, 0x4d2c6dfc, 0x53380d13, 0x650a7354, 0x766a0abb, 0x81c2c92e, 0x92722c85] ++
  [0xa2bfe8a1, 0xa81a664b, 0xc24b8b70, 0xc76c51a3, 0xd192e819, 0xd6990624, 0xf40e3585, 0x106aa070] ++
  [0x19a4c116, 0x1e376c08, 0x2748774c, 0x34b0bcb5, 0x391c0cb3, 0x4ed8aa4a, 0x5b9cca4f, 0x682e6ff3] ++
  [0x748f82ee, 0x78a5636f, 0x84c87814, 0x8cc70208, 0x90befffa, 0xa4506ceb, 0xbef9a3f7, 0xc67178f2]

/-- Initial chaining value (`init0` to `init7`). -/
def init : List Nat := [
  0x6a09e667, 0xbb67ae85, 0x3c6ef372, 0xa54ff53a, 0x510e527f, 0x9b05688c, 0x1f83d9ab, 0x5be0cd19]

/-- Block size of the hash in bytes (`sha256.BlockSize`). -/
def BlockSize : Nat := 64

/-- Wrap-around of a `uint32` result. -/
def u32 (x : Nat) : Nat := x % 2 ^ 32

/-- Rotation of a 32-bit word to the right by `n` (`bits.RotateLeft32(x, -n)`). -/
def rotr (x n : Nat) : Nat := u32 ((x >>> n) ||| (x <<< (32 - n)))

/-- Big-endian load of the message words of a chunk. -/
def loadWords : List Byte → List Nat
  | a :: b :: c :: d :: rest =>
    (a.val <<< 24 ||| b.val <<< 16 ||| c.val <<< 8 ||| d.val) :: loadWords rest
  | _ => []

/-- Message schedule: appends `w[i]` for `n` further indices `i`. -/
def extend : Nat → List Nat → List Nat
  | 0, w => w
  | n + 1, w =>
    let i := w.length
    let v1 := w.getD (i - 2) 0
    let t1 := rotr v1 17 ^^^ rotr v1 19 ^^^ (v1 >>> 10)
    let v2 := w.getD (i - 15) 0
    let t2 := rotr v2 7 ^^^ rotr v2 18 ^^^ (v2 >>> 3)
    extend n (w ++ [u32 (t1 + w.getD (i - 7) 0 + t2 + w.getD (i - 16) 0)])

/-- Working variables `a` to `h` of the compression loop. -/
structure Vars where
  a : Nat
  b : Nat
  c : Nat
  d : Nat
  e : Nat
  f : Nat
  g : Nat
  h : Nat
deriving DecidableEq

/-- One round of the compression loop, with round constant `k` and schedule word `w`. -/
def round (v : Vars) (k w : Nat) : Vars :=
  let t1 := u32 (v.h + (rotr v.e 6 ^^^ rotr v.e 11 ^^^ rotr v.e 25)
    + ((v.e &&& v.f) ^^^ ((v.e ^^^ 0xffffffff) &&& v.g)) + k + w)
  let t2 := u32 ((rotr v.a 2 ^^^ rotr v.a 13 ^^^ rotr v.a 22)
    + ((v.a &&& v.b) ^^^ (v.a &&& v.c) ^^^ (v.b &&& v.c)))
  { a := u32 (t1 + t2), b := v.a, c := v.b, d := v.c, e := u32 (v.d + t1),
    f := v.e, g := v.f, h := v.g }

/-- The rounds of one block, over the round constants paired with the schedule. -/
def rounds (v : Vars) : List (Nat × Nat) → Vars
  | [] => v
  | (k, w) :: rest => rounds (round v k w) rest

/-- Compression of one 64-byte chunk into the chaining value (`blockGeneric`). -/
def block (h : List Nat) (chunk : List Byte) : List Nat :=
  let w := extend 48 (loadWords chunk)
  let v0 : Vars := { a := h.getD 0 0, b := h.getD 1 0, c := h.getD 2 0, d := h.getD 3 0,
                     e := h.getD 4 0, f := h.getD 5 0, g := h.getD 6 0, h := h.getD 7 0 }
  let v := rounds v0 (K.zip w)
  [u32 (v0.a + v.a), u32 (v0.b + v.b), u32 (v0.c + v.c), u32 (v0.d + v.d),
   u32 (v0.e + v.e), u32 (v0.f + v.f), u32 (v0.g + v.g), u32 (v0.h + v.h)]

/-- Compression of `n` consecutive chunks of the padded message. -/
def blocks : Nat → List Nat → List Byte → List Nat
  | 0, h, _ => h
  | n + 1, h, p => blocks n (block h (p.take 64)) (p.drop 64)

/-- Big-endian bytes of an unsigned integer of `width` bytes. -/
def beBytes : Nat → Nat → List Byte
  | 0, _ => []
  | w + 1, x => Fin.ofNat (x >>> (8 * w)) :: beBytes w x

/-- Padding of `checkSum`: the byte `0x80`, zeros up to 56 modulo 64, the bit length. -/
def pad (msg : List Byte) : List Byte :=
  let len := msg.length
  let zeros := if len % 64 < 56 then 55 - len % 64 else 64 + 55 - len % 64
  msg ++ [(0x80 : Byte)] ++ List.replicate zeros (0 : Byte) ++ beBytes 8 ((len <<< 3) % 2 ^ 64)

/-- The 32-byte SHA-256 digest of `msg` (`sha256.Sum256`). -/
def Sum256 (msg : List Byte) : List Byte :=
  let p := pad msg
  (blocks (p.length / 64) init p).flatMap (beBytes 4)

end sha256

namespace hmac

/-- Key block of `hmac.New`: a key longer than the block size is hashed first, then the
key is copied into a zeroed block of `BlockSize` bytes. -/
def keyBlock (key : List Byte) : List Byte :=
  let k := if key.length > sha256.BlockSize then sha256.Sum256 key else key
  k ++ List.replicate (sha256.BlockSize - k.length) 0

/-- The MAC written by `hmac.New(sha256.New, key)`, `Write(msg)`, `Sum(nil)`. -/
def Sum (key msg : List Byte) : List Byte :=
  let kb := keyBlock key
  let ipad := kb.map (fun b => b ^^^ 0x36)
  let opad := kb.map (fun b => b ^^^ 0x5c)
  sha256.Sum256 (opad ++ sha256.Sum256 (ipad ++ msg))

end hmac

namespace base64

/-- Alphabet of `base64.URLEncoding`. -/
def encodeURL : List Byte :=
  bytesOf "ABCDEFGHIJKLMNOPQRSTUVWXYZabcdefghijklmnopqrstuvwxyz0123456789-_"

/-- Character of a six-bit value: `enc.encode[v & 0x3F]`. -/
def encode (v : Nat) : Byte := encodeURL.getD (v &&& 0x3F) 0

/-- Padding character of `base64.URLEncoding`. -/
def padChar : Byte := 61

/-- Text of `base64.URLEncoding.EncodeToString(src)`. -/
def EncodeToString : List Byte → List Byte
  | [] => []
  | [a] =>
    let val := a.val <<< 16
    [encode (val >>> 18), encode (val >>> 12), padChar, padChar]
  | [a, b] =>
    let val := a.val <<< 16 ||| b.val <<< 8
    [encode (val >>> 18), encode (val >>> 12), encode (val >>> 6), padChar]
  | a :: b :: c :: rest =>
    let val := a.val <<< 16 ||| b.val <<< 8 ||| c.val
    encode (val >>> 18) :: encode (val >>> 12) :: encode (val >>> 6) :: encode val
      :: EncodeToString rest

end base64

namespace subtle

/-- Function `ConstantTimeByteEq`: 1 if `x = y`, else 0, as `(uint32(x^y) - 1) >> 31`. -/
def ConstantTimeByteEq (x y : Byte) : Nat := (((x ^^^ y).val + 2 ^ 32 - 1) % 2 ^ 32) >>> 31

/-- Accumulator of `ConstantTimeCompare`: the OR of the XORs of corresponding bytes. -/
def orXor : Byte → List Byte → List Byte → Byte
  | v, a :: x, b :: y => orXor (v ||| (a ^^^ b)) x y
  | v, _, _ => v

/-- Function `ConstantTimeCompare`: 1 if the slices have equal contents, else 0; slices of
different lengths give 0 at once. -/
def ConstantTimeCompare (x y : List Byte) : Nat :=
  if x.length ≠ y.length then 0 else ConstantTimeByteEq (orXor 0 x y) 0

end subtle

namespace time

/-- Seconds in a minute. -/
def secondsPerMinute : Nat := 60

/-- Seconds in an hour. -/
def secondsPerHour : Nat := 60 * secondsPerMinute

/-- Seconds in a day. -/
def secondsPerDay : Nat := 24 * secondsPerHour

/-- Days in a 400-year cycle. -/
def daysPer400Years : Nat := 365 * 400 + 97

/-- Days in a century without its fourth leap day. -/
def daysPer100Years : Nat := 365 * 100 + 24

/-- Days in a 4-year cycle. -/
def daysPer4Years : Nat := 365 * 4 + 1

/-- Year of the absolute epoch of the internal calendar computations. -/
def absoluteZeroYear : Int := -292277022399

/-- Seconds from the absolute epoch to January 1 of year 1. -/
def internalToAbsolute : Int := 9223371966579724800

/-- Seconds from January 1 of year 1 to the Unix epoch. -/
def unixToInternal : Int := 62135596800

/-- A `time.Time` as far as this program observes it: the wall-clock instant as seconds
since January 1, year 1, 00:00:00 UTC (an `int64`) and nanoseconds within the second, and
the offset east of UTC, in seconds, that the value's `Location` has at that instant.
The monotonic clock reading is left out: it is not serialised, and a `Claims` decoded from
a token payload carries none, so every comparison in this program is on the wall clock. -/
structure Time where
  sec : Int
  nsec : Fin 1000000000
  offset : Int
deriving DecidableEq

/-- The range of the `int64` seconds field. -/
def Time.inRange (t : Time) : Prop := -(2 ^ 63) ≤ t.sec ∧ t.sec < 2 ^ 63

instance (t : Time) : Decidable t.inRange := by
  unfold Time.inRange
  exact inferInstance

/-- Method `Time.IsZero`: the zero instant, January 1, year 1, 00:00:00 UTC. -/
def Time.IsZero (t : Time) : Bool := decide (t.sec = 0) && decide (t.nsec = 0)

/-- Method `Time.Before` on the wall clock. -/
def Time.Before (t u : Time) : Bool :=
  decide (t.sec < u.sec) || (decide (t.sec = u.sec) && decide (t.nsec < u.nsec))

/-- Method `Time.abs`: local seconds since the absolute epoch, as a `uint64`. -/
def Time.abs (t : Time) : Nat := ((t.sec + t.offset + internalToAbsolute) % 2 ^ 64).toNat

/-- Days before each month in a non-leap year (`daysBefore`). -/
def daysBefore : List Nat := [0, 31, 59, 90, 120, 151, 181, 212, 243, 273, 304, 334, 365]

/-- Function `isLeap`. Divisibility does not depend on the rounding of `%`. -/
def isLeap (year : Int) : Bool := year % 4 == 0 && (year % 100 != 0 || year % 400 == 0)

/-- Result of `absDate`: year, month (1 to 12), day of the month, day of the year from 0. -/
structure YMD where
  year : Int
  month : Nat
  day : Nat
  yday : Nat
deriving DecidableEq

/-- Function `absDate(abs, true)`. -/
def absDate (abs : Nat) : YMD :=
  let d := abs / secondsPerDay
  let n := d / daysPer400Years
  let y := 400 * n
  let d := d - daysPer400Years * n
  let n := d / daysPer100Years
  let n := n - n >>> 2
  let y := y + 100 * n
  let d := d - daysPer100Years * n
  let n := d / daysPer4Years
  let y := y + 4 * n
  let d := d - daysPer4Years * n
  let n := d / 365
  let n := n - n >>> 2
  let y := y + n
  let d := d - 365 * n
  let year : Int := (y : Int) + absoluteZeroYear
  let yday := d
  if isLeap year && yday == 31 + 29 - 1 then
    { year := year, month := 2, day := 29, yday := yday }
  else
    let day := if isLeap year && yday > 31 + 29 - 1 then yday - 1 else yday
    let month := day / 31
    let e := daysBefore.getD (month + 1) 0
    let month1 := if day ≥ e then month + 1 else month
    let begin := if day ≥ e then e else daysBefore.getD month 0
    { year := year, month := month1 + 1, day := day - begin + 1, yday := yday }

/-- Result of `absClock`. -/
structure HMS where
  hour : Nat
  min : Nat
  sec : Nat
deriving DecidableEq

/-- Function `absClock`. -/
def absClock (abs : Nat) : HMS :=
  let sec := abs % secondsPerDay
  let hour := sec / secondsPerHour
  let sec := sec - hour * secondsPerHour
  let min := sec / secondsPerMinute
  let sec := sec - min * secondsPerMinute
  { hour := hour, min := min, sec := sec }

/-- Method `Time.Year`. -/
def Time.Year (t : Time) : Int := (absDate t.abs).year

/-- The ASCII digit of `n`. -/
def digit (n : Nat) : Byte := Fin.ofNat (48 + n)

/-- Decimal digits of `u`, least significant first, as `appendInt` assembles them in its
20-byte buffer. -/
def revDigits : Nat → Nat → List Byte
  | 0, _ => []
  | fuel + 1, u => if u ≥ 10 then digit (u % 10) :: revDigits fuel (u / 10) else [digit u]

/-- Function `appendInt`: the decimal form of `x`, zero-padded to `width`. -/
def appendInt (b : List Byte) (x : Int) (width : Nat) : List Byte :=
  let b := if x < 0 then b ++ [45] else b
  let ds := (revDigits 20 x.natAbs).reverse
  b ++ List.replicate (width - ds.length) 48 ++ ds

/-- The `k` low decimal digits of `u`, most significant first (the buffer of `formatNano`). -/
def nanoBuf : Nat → Nat → List Byte
  | 0, _ => []
  | k + 1, u => nanoBuf k (u / 10) ++ [digit (u % 10)]

/-- Removal of the trailing zero digits (the trim loop of `formatNano`). -/
def trimZeros : List Byte → List Byte
  | [] => []
  | c :: rest =>
    match trimZeros rest with
    | [] => if c = 48 then [] else [c]
    | r => c :: r

/-- Function `formatNano(b, nanosec, 9, true)`: the fraction of a second, trailing zeros
trimmed, nothing at all when it is zero. -/
def formatNano (b : List Byte) (nanosec : Nat) : List Byte :=
  let buf := trimZeros (nanoBuf 9 nanosec)
  if buf.length = 0 then b else b ++ [46] ++ buf

/-- The zone of the layout element `Z07:00`: `Z` for offset 0, else sign, hours, colon,
minutes, the offset first divided by 60 rounding to zero. -/
def appendZone (b : List Byte) (offset : Int) : List Byte :=
  if offset = 0 then b ++ [90]
  else
    let zone := Int.tdiv offset 60
    let b := if zone < 0 then b ++ [45] else b ++ [43]
    let zone := if zone < 0 then -zone else zone
    let b := appendInt b (Int.tdiv zone 60) 2
    let b := b ++ [58]
    appendInt b (Int.tmod zone 60) 2

/-- Text of `t.AppendFormat(b, time.RFC3339Nano)`. -/
def Time.AppendFormat (b : List Byte) (t : Time) : List Byte :=
  let abs := t.abs
  let date := absDate abs
  let clock := absClock abs
  let b := appendInt b date.year 4
  let b := b ++ [45]
  let b := appendInt b date.month 2
  let b := b ++ [45]
  let b := appendInt b date.day 2
  let b := b ++ [84]
  let b := appendInt b clock.hour 2
  let b := b ++ [58]
  let b := appendInt b clock.min 2
  let b := b ++ [58]
  let b := appendInt b clock.sec 2
  let b := formatNano b t.nsec.val
  appendZone b t.offset

/-- The number written by two ASCII digits, in the arithmetic of a `byte` (`num2` of
`appendStrictRFC3339`). -/
def num2 (b : List Byte) : Byte := 10 * (b.getD 0 0 - 48) + (b.getD 1 0 - 48)

/-- The checks of `appendStrictRFC3339` on the text `b`, of which the first `n0` bytes were
there before the time was written: the error for a text that is not valid RFC 3339, a year
that is not four digits wide or a zone of 24 hours or more. -/
def strictRFC3339Error (n0 : Nat) (b : List Byte) : Option GoError :=
  if b.getD (n0 + 4) 0 ≠ 45 then
    some { classes := [], msg := "year outside of range [0,9999]" }
  else if b.getLast? ≠ some 90 then
    let c := b.getD (b.length - 6) 0
    if (48 ≤ c.val ∧ c.val ≤ 57) ∨ (num2 (b.drop (b.length - 5))).val ≥ 24 then
      some { classes := [], msg := "timezone hour outside of range [0,23]" }
    else none
  else none

/-- Method `Time.appendStrictRFC3339`: the RFC 3339 text appended to `b`, and the error of
its checks. -/
def Time.appendStrictRFC3339 (b : List Byte) (t : Time) : List Byte × Option GoError :=
  let n0 := b.length
  let b := Time.AppendFormat b t
  (b, strictRFC3339Error n0 b)

/-- Method `Time.MarshalJSON`: the quoted RFC 3339 text, or the error of
`appendStrictRFC3339`. -/
def Time.MarshalJSON (t : Time) : Except GoError (List Byte) :=
  match Time.appendStrictRFC3339 [34] t with
  | (_, some err) => .error { classes := [], msg := "Time.MarshalJSON: " ++ err.msg }
  | (b, none) => .ok (b ++ [34])

/-- The error `errBad` of the parser. -/
def errBad : GoError := { classes := [], msg := "bad value for field" }

/-- The error `atoiError`. -/
def atoiError : GoError := { classes := [], msg := "time: invalid number" }

/-- An out-of-range field reported by `Parse`. -/
def rangeErr (what : String) : GoError := { classes := [], msg := what ++ " out of range" }

/-- Whether a byte is an ASCII digit. -/
def isDigit (c : Byte) : Bool := decide (48 ≤ c.val) && decide (c.val ≤ 57)

/-- Function `getnum`: a number of one or two digits, of exactly two when `fixed`. -/
def getnum : List Byte → Bool → Except GoError (Nat × List Byte)
  | [], _ => .error errBad
  | [a], fixed =>
    if !isDigit a then .error errBad
    else if fixed then .error errBad
    else .ok (a.val - 48, [])
  | a :: b :: rest, fixed =>
    if !isDigit a then .error errBad
    else if !isDigit b then
      if fixed then .error errBad else .ok (a.val - 48, b :: rest)
    else .ok ((a.val - 48) * 10 + (b.val - 48), rest)

/-- Function `leadingInt`: the leading digits as an `int64`, overflow being an error. -/
def leadingInt : List Byte → Nat → Except GoError (Nat × List Byte)
  | [], x => .ok (x, [])
  | c :: rest, x =>
    if !isDigit c then .ok (x, c :: rest)
    else if x > (2 ^ 63 - 1) / 10 then .error atoiError
    else if x * 10 + (c.val - 48) ≥ 2 ^ 63 then .error atoiError
    else leadingInt rest (x * 10 + (c.val - 48))

/-- Function `atoi`: an optional sign and digits up to the end of the text. -/
def atoi (s : List Byte) : Except GoError Int :=
  let neg := match s with
    | c :: _ => decide (c = 45)
    | [] => false
  let s1 := match s with
    | c :: rest => if c = 45 ∨ c = 43 then rest else s
    | [] => s
  match leadingInt s1 0 with
  | .error _ => .error atoiError
  | .ok (q, rem) =>
    if rem ≠ [] then .error atoiError
    else .ok (if neg then -(q : Int) else (q : Int))

/-- Function `skip` for a layout text of the single byte `c`. -/
def skip (c : Byte) : List Byte → Except GoError (List Byte)
  | [] => .error errBad
  | v :: rest => if v = c then .ok rest else .error errBad

/-- Function `commaOrPeriod`. -/
def commaOrPeriod (b : Byte) : Bool := b = 46 || b = 44

/-- Function `parseNanoseconds` on the first `nbytes` bytes of `value`, a separator and
digits: the digits after the ninth are dropped. -/
def parseNanoseconds (value : List Byte) (nbytes : Nat) : Except GoError Nat :=
  match value with
  | [] => .error errBad
  | c :: rest =>
    if !commaOrPeriod c then .error errBad
    else
      let nbytes := if nbytes > 10 then 10 else nbytes
      match atoi (rest.take (nbytes - 1)) with
      | .error e => .error e
      | .ok ns =>
        if ns < 0 then .error (rangeErr "fractional second")
        else .ok (ns.toNat * 10 ^ (10 - nbytes))

/-- Function `daysIn`. -/
def daysIn (m : Nat) (year : Int) : Nat :=
  if m = 2 ∧ isLeap year then 29
  else daysBefore.getD m 0 - daysBefore.getD (m - 1) 0

/-- Function `daysSinceEpoch`. -/
def daysSinceEpoch (year : Int) : Nat :=
  let y := ((year - absoluteZeroYear) % 2 ^ 64).toNat
  let n := y / 400
  let y := y - 400 * n
  let d := daysPer400Years * n
  let n := y / 100
  let y := y - 100 * n
  let d := d + daysPer100Years * n
  let n := y / 4
  let y := y - 4 * n
  let d := d + daysPer4Years * n
  d + 365 * y

/-- Function `Date` in UTC, on fields that `Parse` has already checked to be in range (so
that its normalisation steps change nothing). -/
def Date (year : Int) (month day hour min sec : Nat) (nsec : Fin 1000000000) : Time :=
  let d := daysSinceEpoch year
  let d := d + daysBefore.getD (month - 1) 0
  let d := if isLeap year ∧ month ≥ 3 then d + 1 else d
  let d := d + (day - 1)
  let abs := d * secondsPerDay + (hour * secondsPerHour + min * secondsPerMinute + sec)
  { sec := (abs : Int) - internalToAbsolute, nsec := nsec, offset := 0 }

/-- Length of the run of digits at the head of a text. -/
def digitRun : List Byte → Nat
  | [] => 0
  | c :: rest => if isDigit c then digitRun rest + 1 else 0

/-- The fractional second that `Parse` accepts after the seconds although the layout has
none: a dot or a comma followed by at least one digit. -/
def parseFrac (value : List Byte) : Except GoError (Nat × List Byte) :=
  match value with
  | c :: d :: _ =>
    if commaOrPeriod c ∧ isDigit d then
      let n := 1 + digitRun (value.drop 1)
      match parseNanoseconds value n with
      | .error e => .error e
      | .ok ns => .ok (ns, value.drop n)
    else .ok (0, value)
  | _ => .ok (0, value)

/-- The layout element `Z07:00`: `Z`, giving UTC (`none`), or a sign, two digits, a colon
and two digits, giving the offset in seconds. The hours may be 24 and the minutes 60, not
more. -/
def parseZone (value : List Byte) : Except GoError (Option Int × List Byte) :=
  match value with
  | 90 :: rest => .ok (none, rest)
  | _ =>
    if value.length < 6 then .error errBad
    else if value.getD 3 0 ≠ 58 then .error errBad
    else
      match getnum ((value.drop 1).take 2) true with
      | .error e => .error e
      | .ok (hr, _) =>
        match getnum ((value.drop 4).take 2) true with
        | .error e =>
          if hr > 24 then .error (rangeErr "time zone offset hour") else .error e
        | .ok (mm, _) =>
          if mm > 60 then .error (rangeErr "time zone offset minute")
          else if hr > 24 then .error (rangeErr "time zone offset hour")
          else
            let zoneOffset : Int := ((hr * 60 + mm) * 60 : Nat)
            if value.getD 0 0 = 43 then .ok (some zoneOffset, value.drop 6)
            else if value.getD 0 0 = 45 then .ok (some (-zoneOffset), value.drop 6)
            else .error errBad

/-- Function `Parse` for the RFC 3339 layout `2006-01-02T15:04:05Z07:00`, on a text between
double quotes, which are read here as part of the layout. A numeric zone gives a time in
the local zone or in a fixed zone, in both cases with the parsed offset. -/
def Parse (value : List Byte) : Except GoError Time :=
  match skip 34 value with
  | .error e => .error e
  | .ok value =>
  if value.length < 4 ∨ !isDigit (value.getD 0 0) then .error errBad else
  match atoi (value.take 4) with
  | .error e => .error e
  | .ok year =>
  match skip 45 (value.drop 4) with
  | .error e => .error e
  | .ok value =>
  match getnum value true with
  | .error e => .error e
  | .ok (month, value) =>
  if month = 0 ∨ 12 < month then .error (rangeErr "month") else
  match skip 45 value with
  | .error e => .error e
  | .ok value =>
  match getnum value true with
  | .error e => .error e
  | .ok (day, value) =>
  match skip 84 value with
  | .error e => .error e
  | .ok value =>
  match getnum value false with
  | .error e => .error e
  | .ok (hour, value) =>
  if 24 ≤ hour then .error (rangeErr "hour") else
  match skip 58 value with
  | .error e => .error e
  | .ok value =>
  match getnum value true with
  | .error e => .error e
  | .ok (min, value) =>
  if 60 ≤ min then .error (rangeErr "minute") else
  match skip 58 value with
  | .error e => .error e
  | .ok value =>
  match getnum value true with
  | .error e => .error e
  | .ok (sec, value) =>
  if 60 ≤ sec then .error (rangeErr "second") else
  match parseFrac value with
  | .error e => .error e
  | .ok (nsec, value) =>
  match parseZone value with
  | .error e => .error e
  | .ok (zone, value) =>
  match skip 34 value with
  | .error e => .error e
  | .ok value =>
  if value ≠ [] then .error { classes := [], msg := "extra text" } else
  if day < 1 ∨ day > daysIn month year then .error (rangeErr "day") else
  let t := Date year month day hour min sec (Fin.ofNat nsec)
  match zone with
  | none => .ok t
  | some zoneOffset => .ok { t with sec := t.sec - zoneOffset, offset := zoneOffset }

/-- Method `Time.UnmarshalJSON` on a JSON string (the quotes included): the text between
the quotes is parsed by `parseStrictRFC3339`, whose first attempt `parseRFC3339` reads a
text of the exact RFC 3339 shape to the time that `Parse` reads from it and leaves every
other text to `Parse`. -/
def Time.UnmarshalJSON (data : List Byte) : Except GoError Time := Parse data

end time

namespace uuid

/-- A UUID, an array of 16 bytes. -/
structure UUID where
  bytes : List Byte
  size : bytes.length = 16
deriving DecidableEq

/-- The zero UUID, the zero value of the array. -/
def Nil : UUID := { bytes := List.replicate 16 0, size := rfl }

/-- Digits of `hex.Encode`. -/
def hextable : List Byte := bytesOf "0123456789abcdef"

/-- High hexadecimal digit of a byte: `hextable[v>>4]`. -/
def hexHi (v : Byte) : Byte := hextable.getD (v.val >>> 4) 0

/-- Low hexadecimal digit of a byte: `hextable[v&0x0f]`. -/
def hexLo (v : Byte) : Byte := hextable.getD (v.val &&& 0x0f) 0

/-- Lower-case hexadecimal text of a byte slice (`hex.Encode`). -/
def hexEncode : List Byte → List Byte
  | [] => []
  | v :: rest => hexHi v :: hexLo v :: hexEncode rest

/-- Method `UUID.String` (and `MarshalText`): the form
`xxxxxxxx-xxxx-xxxx-xxxx-xxxxxxxxxxxx`. -/
def UUID.String (u : UUID) : List Byte :=
  hexEncode (u.bytes.take 4) ++ [45] ++ hexEncode ((u.bytes.drop 4).take 2) ++ [45]
    ++ hexEncode ((u.bytes.drop 6).take 2) ++ [45] ++ hexEncode ((u.bytes.drop 8).take 2)
    ++ [45] ++ hexEncode (u.bytes.drop 10)

/-- Value of a hexadecimal digit, 255 for any other byte (the table `xvalues`). -/
def xvalue (c : Byte) : Nat :=
  if 48 ≤ c.val ∧ c.val ≤ 57 then c.val - 48
  else if 65 ≤ c.val ∧ c.val ≤ 70 then c.val - 55
  else if 97 ≤ c.val ∧ c.val ≤ 102 then c.val - 87
  else 255

/-- Function `xtob`: the byte written by two hexadecimal digits. -/
def xtob (x1 x2 : Byte) : Option Byte :=
  let b1 := xvalue x1
  let b2 := xvalue x2
  if b1 ≠ 255 ∧ b2 ≠ 255 then some (Fin.ofNat ((b1 <<< 4) ||| b2)) else none

/-- The error of a malformed UUID text. -/
def invalidFormat : GoError := { classes := [], msg := "invalid UUID format" }

/-- Decoding of the digit pairs found at the given positions of `b`. -/
def decodeAt (b : List Byte) : List Nat → Option (List Byte)
  | [] => some []
  | x :: xs =>
    match xtob (b.getD x 0) (b.getD (x + 1) 0), decodeAt b xs with
    | some v, some vs => some (v :: vs)
    | _, _ => none

/-- The UUID of sixteen decoded bytes. -/
def ofBytes (l : List Byte) : Except GoError UUID :=
  if h : l.length = 16 then .ok { bytes := l, size := h } else .error invalidFormat

/-- The dashed form, common to the inputs of 36, 38 and 45 bytes of `ParseBytes`. -/
def parseDashed (b : List Byte) : Except GoError UUID :=
  if b.getD 8 0 ≠ 45 ∨ b.getD 13 0 ≠ 45 ∨ b.getD 18 0 ≠ 45 ∨ b.getD 23 0 ≠ 45 then
    .error invalidFormat
  else
    match decodeAt b [0, 2, 4, 6, 9, 11, 14, 16, 19, 21, 24, 26, 28, 30, 32, 34] with
    | some l => ofBytes l
    | none => .error invalidFormat

/-- Lower-casing of an ASCII byte. -/
def toLower (c : Byte) : Byte := if 65 ≤ c.val ∧ c.val ≤ 90 then Fin.ofNat (c.val + 32) else c

/-- Function `ParseBytes` (and `UnmarshalText`): the dashed form, bare, after `urn:uuid:`
or between braces, or 32 hexadecimal digits. -/
def ParseBytes (b : List Byte) : Except GoError UUID :=
  if b.length = 36 then parseDashed b
  else if b.length = 36 + 9 then
    if (b.take 9).map toLower ≠ bytesOf "urn:uuid:" then
      .error { classes := [], msg := "invalid urn prefix" }
    else parseDashed (b.drop 9)
  else if b.length = 36 + 2 then parseDashed (b.drop 1)
  else if b.length = 32 then
    match decodeAt b [0, 2, 4, 6, 8, 10, 12, 14, 16, 18, 20, 22, 24, 26, 28, 30] with
    | some l => ofBytes l
    | none => .error invalidFormat
  else .error { classes := [], msg := "invalid UUID length" }

end uuid

namespace auth

/-- Data signed by the server and used for authentication. -/
structure Claims where
  ID : uuid.UUID
  ExpiresAt : time.Time
deriving DecidableEq

/-- The zero value `Claims{}`. -/
def Claims.zero : Claims := { ID := uuid.Nil, ExpiresAt := { sec := 0, nsec := 0, offset := 0 } }

end auth

namespace json

/-- Text written by `json.NewEncoder(w).Encode(claims)`: the object with the members `id`
(the text of the UUID, which needs no escaping) and `expiresAt`, and a newline; or the
error of `Time.MarshalJSON`, in which case nothing is written. -/
def Encode (c : auth.Claims) : Except GoError (List Byte) :=
  match c.ExpiresAt.MarshalJSON with
  | .error e =>
    .error { classes := [],
             msg := "json: error calling MarshalJSON for type time.Time: " ++ e.msg }
  | .ok t =>
    .ok (bytesOf "\x7b\"id\":\"" ++ c.ID.String ++ bytesOf "\",\"expiresAt\":" ++ t
      ++ bytesOf "\x7d\n")

/-- White space of JSON. -/
def isSpace (c : Byte) : Bool := c = 32 || c = 9 || c = 13 || c = 10

/-- The input after its leading white space. -/
def skipSpace : List Byte → List Byte
  | [] => []
  | c :: rest => if isSpace c then skipSpace rest else c :: rest

/-- A syntax error of the scanner. -/
def syntaxError : GoError := { classes := [], msg := "json: syntax error" }

/-- The error of an input that ends inside a value. -/
def unexpectedEOF : GoError := { classes := [], msg := "unexpected EOF" }

/-- The mark that `decodeObject` leaves on an input outside the fragment of JSON that is
embedded here: an escape or a non-ASCII byte inside a string, a member value other than a
string or null, a top-level value other than an object. It is not a result: `Decode`
hands such an input to the decoder of the library. -/
def unmodelled : GoError := { classes := [], msg := "json: input outside the embedded fragment" }

/-- A string literal after its opening quote: its content and the input after the closing
quote. -/
def scanString : List Byte → Except GoError (List Byte × List Byte)
  | [] => .error unexpectedEOF
  | c :: rest =>
    if c = 34 then .ok ([], rest)
    else if c.val < 32 then .error syntaxError
    else if c = 92 ∨ c.val ≥ 128 then .error unmodelled
    else match scanString rest with
      | .ok (s, r) => .ok (c :: s, r)
      | .error e => .error e

/-- Folding of ASCII case by which an object key matches a field name `s`. -/
def equalFold : List Byte → List Byte → Bool
  | [], [] => true
  | sb :: s, tb :: t =>
    (sb = tb || (decide (65 ≤ (sb.val &&& 0xDF)) && decide ((sb.val &&& 0xDF) ≤ 90)
        && decide ((sb.val &&& 0xDF) = (tb.val &&& 0xDF)))) && equalFold s t
  | _, _ => false

/-- The field that an object key selects, 0 for `id` and 1 for `expiresAt`: an exact match
first, then a match up to case. -/
def fieldOf (key : List Byte) : Option Nat :=
  if key = bytesOf "id" then some 0
  else if key = bytesOf "expiresAt" then some 1
  else if equalFold (bytesOf "id") key then some 0
  else if equalFold (bytesOf "expiresAt") key then some 1
  else none

/-- Storing of a string member of content `s` into the selected field: `UnmarshalText` of
the UUID, `UnmarshalJSON` of the time; a member of an unknown key is dropped. -/
def storeString (c : auth.Claims) (field : Option Nat) (s : List Byte) :
    Except GoError auth.Claims :=
  match field with
  | some 0 =>
    match uuid.ParseBytes s with
    | .ok id => .ok { c with ID := id }
    | .error e => .error e
  | some _ =>
    match time.Time.UnmarshalJSON ([34] ++ s ++ [34]) with
    | .ok t => .ok { c with ExpiresAt := t }
    | .error e => .error e
  | none => .ok c

/-- One member value, a string or null, stored into `c`: the new claims and the input
after the value. -/
def storeValue (c : auth.Claims) (key value : List Byte) :
    Except GoError (auth.Claims × List Byte) :=
  match value with
  | [] => .error unexpectedEOF
  | v :: vrest =>
    if v = 34 then
      match scanString vrest with
      | .error e => .error e
      | .ok (s, after) =>
        match storeString c (fieldOf key) s with
        | .ok c1 => .ok (c1, after)
        | .error e => .error e
    else if value.take 4 = bytesOf "null" then .ok (c, value.drop 4)
    else .error unmodelled

/-- The members of an object, the input standing just after the opening brace or after a
comma. -/
def members : Nat → auth.Claims → List Byte → Except GoError auth.Claims
  | 0, _, _ => .error unexpectedEOF
  | fuel + 1, c, input =>
    match skipSpace input with
    | [] => .error unexpectedEOF
    | q :: rest =>
      if q ≠ 34 then .error syntaxError else
      match scanString rest with
      | .error e => .error e
      | .ok (key, rest) =>
        match skipSpace rest with
        | [] => .error unexpectedEOF
        | colon :: rest =>
          if colon ≠ 58 then .error syntaxError else
          match storeValue c key (skipSpace rest) with
          | .error e => .error e
          | .ok (c1, after) =>
            match skipSpace after with
            | [] => .error unexpectedEOF
            | d :: rest =>
              if d = 44 then members fuel c1 rest
              else if d = 125 then .ok c1
              else .error syntaxError

/-- The decoding of an input whose first JSON value is an object of the embedded fragment:
its members are stored in order; what follows the object is not read. An input outside
the fragment gives the mark `unmodelled`. -/
def decodeObject (data : List Byte) : Except GoError auth.Claims :=
  match skipSpace data with
  | [] => .error { classes := [], msg := "EOF" }
  | c :: rest =>
    if c ≠ 123 then .error unmodelled else
    match skipSpace rest with
    | [] => .error unexpectedEOF
    | d :: rest1 =>
      if d = 125 then .ok auth.Claims.zero
      else members data.length auth.Claims.zero (d :: rest1)

/-- Result of `json.NewDecoder(r).Decode(claims)` on a new `Claims`. On an input of the
embedded fragment (an object whose keys and string values are ASCII without escapes and
whose member values are strings or `null`) it is `decodeObject`, an error standing for
the error that the library returns there; on every other input it is the result of the
library itself, the parameter `decodeJSON`. -/
def Decode (decodeJSON : List Byte → Except GoError auth.Claims) (data : List Byte) :
    Except GoError auth.Claims :=
  match decodeObject data with
  | .ok claims => .ok claims
  | .error err => if err = unmodelled then decodeJSON data else .error err

end json

namespace auth

/-- Error class for auth errors. -/
def Error : String := "auth error"

/-- Error class for Claims errors. -/
def ErrClaims : String := "auth claims error"

/-- Error class for TokenSigner errors. -/
def TokenSignerError : String := "auth token signer error"

/-- Method `Claims.JSON`: the bytes of the buffer and the wrapped error of the encoder. -/
def Claims.JSON (c : Claims) : List Byte × Option GoError :=
  match json.Encode c with
  | .ok b => (b, errs.Wrap ErrClaims none)
  | .error e => ([], errs.Wrap ErrClaims (some e))

/-- Function `FromJSON`: the claims parsed from JSON. The decoder of `encoding/json` on
the inputs outside the embedded fragment is the parameter `decodeJSON`. -/
def FromJSON (decodeJSON : List Byte → Except GoError Claims) (data : List Byte) :
    Except GoError Claims :=
  match json.Decode decodeJSON data with
  | .error err => .error (errs.wrap ErrClaims err)
  | .ok claims => .ok claims

/-- Modelled from the spec: the type `auth.Token`, whose declaration is not among the
sources. The wire artifact exchanged with the client: `Payload`, the serialized claims,
and `Signature`, the message authentication code computed over the payload. -/
structure Token where
  Payload : List Byte
  Signature : List Byte
deriving DecidableEq

/-- The zero value `Token{}`. -/
def Token.zero : Token := { Payload := [], Signature := [] }

/-- The signer of auth tokens, based on HMAC-SHA256. -/
structure TokenSigner where
  secret : List Byte
deriving DecidableEq

/-- Function `NewTokenSigner`. -/
def NewTokenSigner (secret : List Byte) : TokenSigner := { secret := secret }

/-- Method `TokenSigner.SignToken`: the token after the call and the returned error.
The `Write` of a hash never returns an error. -/
def TokenSigner.SignToken (a : TokenSigner) (token : Token) : Token × Option GoError :=
  let encoded := base64.EncodeToString token.Payload
  let err : Option GoError := none
  match err with
  | some e => (token, errs.Wrap TokenSignerError (some e))
  | none => ({ token with Signature := hmac.Sum a.secret encoded }, none)

/-- Method `TokenSigner.CreateToken`. -/
def TokenSigner.CreateToken (a : TokenSigner) (claims : Claims) : Token × Option GoError :=
  match claims.JSON with
  | (_, some err) => (Token.zero, errs.Wrap TokenSignerError (some err))
  | (json, none) =>
    match a.SignToken { Payload := json, Signature := [] } with
    | (_, some err) => (Token.zero, errs.Wrap TokenSignerError (some err))
    | (token, none) => (token, none)

/-- The values that package `auth` keeps in a request context: under `keyToken` a token,
under `keyClaims` the claims or an error. -/
structure Context where
  token : Option (List Byte) := none
  claims : Option (Except GoError Claims) := none

/-- Function `SetClaims`. -/
def SetClaims (ctx : Context) (claims : Claims) : Context := { ctx with claims := some (.ok claims) }

/-- Function `GetClaims`. -/
def GetClaims (ctx : Context) : Claims × Option GoError :=
  match ctx.claims with
  | some (.ok c) => (c, none)
  | some (.error err) => (Claims.zero, errs.Wrap Error (some err))
  | none => (Claims.zero, some (errs.New Error "could not get auth or error from context"))

/-- Function `SetToken`. -/
def SetToken (ctx : Context) (key : List Byte) : Context := { ctx with token := some key }

/-- Function `GetToken`. -/
def GetToken (ctx : Context) : List Byte × Option GoError :=
  match ctx.token with
  | some key => (key, none)
  | none => ([], some (errs.New Error "could not take token from context"))

end auth

namespace managers

/-- Error class of the managers service. -/
def Error : String := "managers service error"

/-- Error class that indicates that a manager does not exist. -/
def ErrNoManager : String := "manager does not exist"

/-- The manager entity. -/
structure Manager where
  ID : uuid.UUID
  FirstName : List Byte
  LastName : List Byte
  Email : List Byte
  PasswordHash : List Byte
  CreatedAt : time.Time
deriving DecidableEq

/-- The zero value `Manager{}`. -/
def Manager.zero : Manager :=
  { ID := uuid.Nil, FirstName := [], LastName := [], Email := [], PasswordHash := [],
    CreatedAt := { sec := 0, nsec := 0, offset := 0 } }

end managers

namespace clients

/-- Error class of the clients service. -/
def Error : String := "clients service error"

/-- Error class that indicates that a client does not exist. -/
def ErrNotExist : String := "client does not exist"

/-- The client entity. -/
structure Client where
  ID : uuid.UUID
  Email : List Byte
  Phone : List Byte
  FirstName : List Byte
  LastName : List Byte
  CreatedAt : time.Time
deriving DecidableEq

/-- The zero value `Client{}`. -/
def Client.zero : Client :=
  { ID := uuid.Nil, Email := [], Phone := [], FirstName := [], LastName := [],
    CreatedAt := { sec := 0, nsec := 0, offset := 0 } }

end clients

namespace database

/-- Error class of the managers repository. -/
def ErrManagersDB : String := "ManagersDB error"

/-- Error class of the clients repository. -/
def ErrClientsBD : String := "ClientsDB error"

/-- The error `sql.ErrNoRows`. -/
def ErrNoRows : GoError := { classes := [], msg := "sql: no rows in result set" }

/-- A row of the table `managers`. -/
structure ManagerRow where
  id : uuid.UUID
  first_name : List Byte
  last_name : List Byte
  email : List Byte
  email_normalized : List Byte
  password_hash : List Byte
  created_at : time.Time
deriving DecidableEq

/-- A row of the table `clients`. -/
structure ClientRow where
  id : uuid.UUID
  phone : List Byte
  first_name : List Byte
  last_name : List Byte
  email : List Byte
  created_at : time.Time
deriving DecidableEq

/-- The managers repository: the table `managers` behind the connection. -/
structure managersdb where
  rows : List ManagerRow
deriving DecidableEq

/-- The clients repository: the table `clients` behind the connection. -/
structure clientsdb where
  rows : List ClientRow
deriving DecidableEq

/-- Method `managersdb.Get`: the row selected by `WHERE id = $1`, scanned into a manager;
`ErrNoManager` when the query has no row. -/
def managersdb.Get (repository : managersdb) (id : uuid.UUID) :
    managers.Manager × Option GoError :=
  match repository.rows.find? (fun r => decide (r.id = id)) with
  | some r =>
    ({ ID := id, PasswordHash := r.password_hash, FirstName := r.first_name,
       LastName := r.last_name, Email := r.email, CreatedAt := r.created_at }, none)
  | none => (managers.Manager.zero, errs.Wrap managers.ErrNoManager (some ErrNoRows))

/-- Method `clientsdb.Get`: the row selected by `WHERE id = $1`, scanned into a client;
`ErrNotExist` when the query has no row. -/
def clientsdb.Get (repository : clientsdb) (id : uuid.UUID) :
    clients.Client × Option GoError :=
  match repository.rows.find? (fun r => decide (r.id = id)) with
  | some r =>
    ({ ID := id, Phone := r.phone, FirstName := r.first_name, LastName := r.last_name,
       Email := r.email, CreatedAt := { sec := 0, nsec := 0, offset := 0 } }, none)
  | none => (clients.Client.zero, errs.Wrap clients.ErrNotExist (some ErrNoRows))

end database

namespace managers

/-- The managers service. -/
structure Service where
  db : database.managersdb
deriving DecidableEq

/-- Method `Service.Get`: the manager by ID. -/
def Service.Get (service : Service) (id : uuid.UUID) : Manager × Option GoError :=
  let (manager, err) := service.db.Get id
  (manager, errs.Wrap Error err)

end managers

namespace clients

/-- The clients service. -/
structure Service where
  db : database.clientsdb
deriving DecidableEq

/-- Method `Service.Get`: the client by ID. -/
def Service.Get (clients : Service) (clientID : uuid.UUID) : Client × Option GoError :=
  let (client, err) := clients.db.Get clientID
  (client, errs.Wrap Error err)

end clients

namespace adminauth

/-- Error class of the admin service. -/
def Error : String := "admin service error"

/-- The service of the managers portal. -/
structure Service where
  signer : auth.TokenSigner
  managers : managers.Service
deriving DecidableEq

/-- Method `Service.authenticate`: validates the token signature. -/
def Service.authenticate (decodeJSON : List Byte → Except GoError auth.Claims)
    (service : Service) (token : auth.Token) : Except GoError auth.Claims :=
  let signature := token.Signature
  match service.signer.SignToken token with
  | (_, some err) => .error err
  | (token, none) =>
    if subtle.ConstantTimeCompare signature token.Signature ≠ 1 then
      .error (errs.New Error "incorrect signature")
    else auth.FromJSON decodeJSON token.Payload

/-- Method `Service.authorize`: checks the claims. The named result `err` is still `nil`
where the expiry branch returns it wrapped. -/
def Service.authorize (service : Service) (now : time.Time) (claims : auth.Claims) :
    Option GoError :=
  let err : Option GoError := none
  if !claims.ExpiresAt.IsZero && claims.ExpiresAt.Before now then errs.Wrap Error err
  else
    let (_, err) := service.managers.Get claims.ID
    errs.Wrap Error err

/-- Method `Service.Authorize`: validates the token of the context and returns the
claims. `FromBase64URLString`, the decoder of the wire form of a token, is not among the
sources and is a parameter. -/
def Service.Authorize (decodeJSON : List Byte → Except GoError auth.Claims)
    (FromBase64URLString : List Byte → auth.Token × Option GoError)
    (service : Service) (now : time.Time) (ctx : auth.Context) : auth.Claims × Option GoError :=
  match auth.GetToken ctx with
  | (_, some err) => (auth.Claims.zero, errs.Wrap Error (some err))
  | (tokenS, none) =>
    match FromBase64URLString tokenS with
    | (_, some err) => (auth.Claims.zero, errs.Wrap Error (some err))
    | (token, none) =>
      match service.authenticate decodeJSON token with
      | .error err => (auth.Claims.zero, errs.Wrap Error (some err))
      | .ok claims =>
        match service.authorize now claims with
        | some err => (auth.Claims.zero, errs.Wrap Error (some err))
        | none => (claims, none)

end adminauth

namespace consoleauth

/-- Error class of the console auth service. -/
def Error : String := "console authentication error"

/-- The service of the console authentication rules. -/
structure Service where
  clients : clients.Service
  signer : auth.TokenSigner
deriving DecidableEq

/-- Method `Service.Authenticate`: validates the token signature. -/
def Service.Authenticate (decodeJSON : List Byte → Except GoError auth.Claims)
    (service : Service) (token : auth.Token) : Except GoError auth.Claims :=
  let signature := token.Signature
  match service.signer.SignToken token with
  | (_, some err) => .error err
  | (token, none) =>
    if subtle.ConstantTimeCompare signature token.Signature ≠ 1 then
      .error (errs.New Error "incorrect signature")
    else
      match auth.FromJSON decodeJSON token.Payload with
      | .error err => .error err
      | .ok claims => .ok claims

/-- Method `Service.authorize`: checks the claims. The named result `err` is still `nil`
where the expiry branch returns it wrapped. -/
def Service.authorize (service : Service) (now : time.Time) (claims : auth.Claims) :
    Option GoError :=
  let err : Option GoError := none
  if !claims.ExpiresAt.IsZero && claims.ExpiresAt.Before now then errs.Wrap Error err
  else
    match service.clients.Get claims.ID with
    | (_, some err) => errs.Wrap Error (some err)
    | (_, none) => none

/-- Method `Service.Authorize`: validates the token of the context and returns the
claims. `FromBase64URLString`, the decoder of the wire form of a token, is not among the
sources and is a parameter. -/
def Service.Authorize (decodeJSON : List Byte → Except GoError auth.Claims)
    (FromBase64URLString : List Byte → auth.Token × Option GoError)
    (service : Service) (now : time.Time) (ctx : auth.Context) : auth.Claims × Option GoError :=
  match auth.GetToken ctx with
  | (_, some err) => (auth.Claims.zero, errs.Wrap Error (some err))
  | (tokenBytes, none) =>
    match FromBase64URLString tokenBytes with
    | (_, some err) => (auth.Claims.zero, errs.Wrap Error (some err))
    | (token, none) =>
      match service.Authenticate decodeJSON token with
      | .error err => (auth.Claims.zero, errs.Wrap Error (some err))
      | .ok claims =>
        match service.authorize now claims with
        | some err => (auth.Claims.zero, err)
        | none => (claims, none)

end consoleauth

/-! ## Definitions used in the proofs -/

namespace time

/-- Years since the absolute epoch at `d` days since the absolute epoch: the variable `y`
of `absDate` after its four cycle steps. -/
def cycleYears (d : Nat) : Nat :=
  let n400 := d / daysPer400Years
  let d1 := d - daysPer400Years * n400
  let n100 := d1 / daysPer100Years
  let n100 := n100 - n100 >>> 2
  let d2 := d1 - daysPer100Years * n100
  let n4 := d2 / daysPer4Years
  let d3 := d2 - daysPer4Years * n4
  let n1 := d3 / 365
  let n1 := n1 - n1 >>> 2
  400 * n400 + 100 * n100 + 4 * n4 + n1

/-- Day of the year at `d` days since the absolute epoch: the variable `d` of `absDate`
after its four cycle steps. -/
def cycleDay (d : Nat) : Nat :=
  let n400 := d / daysPer400Years
  let d1 := d - daysPer400Years * n400
  let n100 := d1 / daysPer100Years
  let n100 := n100 - n100 >>> 2
  let d2 := d1 - daysPer100Years * n100
  let n4 := d2 / daysPer4Years
  let d3 := d2 - daysPer4Years * n4
  let n1 := d3 / 365
  let n1 := n1 - n1 >>> 2
  d3 - 365 * n1

/-- Month and day of the month of a day of the year: the last part of `absDate`. -/
def monthDay (leap : Bool) (yday : Nat) : Nat × Nat :=
  if leap && yday == 31 + 29 - 1 then (2, 29)
  else
    let day := if leap && yday > 31 + 29 - 1 then yday - 1 else yday
    let month := day / 31
    let e := daysBefore.getD (month + 1) 0
    let month1 := if day ≥ e then month + 1 else month
    let begin := if day ≥ e then e else daysBefore.getD month 0
    (month1 + 1, day - begin + 1)

/-- Days from the absolute epoch to the first day of the year that is `y` years after
it: the sum computed by `daysSinceEpoch`. -/
def cycleDays (y : Nat) : Nat :=
  let n := y / 400
  let y := y - 400 * n
  let d := daysPer400Years * n
  let n := y / 100
  let y := y - 100 * n
  let d := d + daysPer100Years * n
  let n := y / 4
  let y := y - 4 * n
  let d := d + daysPer4Years * n
  d + 365 * y

end time

namespace time

/-- The number that `leadingInt` accumulates over a text of digits, from `x`. -/
def digitsAcc : List Byte → Nat → Nat
  | [], x => x
  | c :: rest, x => digitsAcc rest (x * 10 + (c.val - 48))

end time

namespace json

/-- A byte that a string literal holds as it is: printable ASCII other than the double
quote and the backslash. -/
def plain (c : Byte) : Prop := c ≠ 34 ∧ 32 ≤ c.val ∧ c ≠ 92 ∧ c.val < 128

instance (c : Byte) : Decidable (plain c) := by
  unfold plain
  exact inferInstance

end json

namespace hmac

/-- The text that the outer hash of the MAC reads: the key block under the outer pad,
followed by the digest of the inner hash. -/
def outer (key msg : List Byte) : List Byte :=
  let kb := keyBlock key
  kb.map (fun b => b ^^^ 0x5c) ++ sha256.Sum256 (kb.map (fun b => b ^^^ 0x36) ++ msg)

end hmac

/-! ## Fixtures -/

namespace fixture

/-- A signing secret. -/
def secret : List Byte := bytesOf "secret"

/-- The ID of the principal of the fixtures. -/
def id : uuid.UUID :=
  { bytes := [0x12, 0x34, 0x56, 0x78, 0x9a, 0xbc, 0xde, 0xf0, 1, 2, 3, 4, 5, 6, 7, 255],
    size := rfl }

/-- The current time of the fixtures, 2020-09-13T12:26:40Z. -/
def now : time.Time := { sec := 63735596800, nsec := 0, offset := 0 }

/-- Claims that expired one second before `now`. -/
def expired : auth.Claims :=
  { ID := id, ExpiresAt := { sec := 63735596799, nsec := 0, offset := 0 } }

/-- Claims that expire one second after `now`. -/
def fresh : auth.Claims :=
  { ID := id, ExpiresAt := { sec := 63735596801, nsec := 0, offset := 0 } }

/-- Claims with the zero expiry. -/
def forever : auth.Claims := { ID := id, ExpiresAt := { sec := 0, nsec := 0, offset := 0 } }

/-- A managers table that holds the principal. -/
def managersTable : database.managersdb :=
  { rows := [{ id := id, first_name := bytesOf "Aslan", last_name := bytesOf "Maslan",
               email := bytesOf "am@qwe.com", email_normalized := bytesOf "AM@QWE.COM",
               password_hash := bytesOf "qwerty123", created_at := now }] }

/-- A clients table that holds the principal. -/
def clientsTable : database.clientsdb :=
  { rows := [{ id := id, phone := bytesOf "228", first_name := [], last_name := [],
               email := [], created_at := now }] }

/-- An admin service whose store holds the principal. -/
def admin : adminauth.Service :=
  { signer := auth.NewTokenSigner secret, managers := { db := managersTable } }

/-- A console service whose store holds the principal. -/
def console : consoleauth.Service :=
  { clients := { db := clientsTable }, signer := auth.NewTokenSigner secret }

/-- An admin service with an empty store. -/
def adminEmpty : adminauth.Service :=
  { signer := auth.NewTokenSigner secret, managers := { db := { rows := [] } } }

/-- A console service with an empty store. -/
def consoleEmpty : consoleauth.Service :=
  { clients := { db := { rows := [] } }, signer := auth.NewTokenSigner secret }

/-- The token that the signer of the fixtures creates for `claims`. -/
def tokenOf (claims : auth.Claims) : auth.Token :=
  ((auth.NewTokenSigner secret).CreateToken claims).1

/-- A wire decoder that yields `token` for every text. -/
def decodeTo (token : auth.Token) : List Byte → auth.Token × Option GoError :=
  fun _ => (token, none)

/-- A request context that carries a token text. -/
def ctx : auth.Context := { token := some (bytesOf "token") }

/-- A stand-in for the decoder of `encoding/json` in the examples. Their payloads lie in
the embedded fragment, so that it is never consulted; it fails on every text. -/
def decodeJSON : List Byte → Except GoError auth.Claims :=
  fun _ => .error { classes := [], msg := "json: stand-in" }

/-- Claims that expire at `now` in a zone 25 hours east of UTC. -/
def faraway : auth.Claims :=
  { ID := id, ExpiresAt := { sec := 63735596800, nsec := 0, offset := 90000 } }

end fixture

namespace fixture

/-- A second signing secret, with another HMAC key block than `secret`. -/
def otherSecret : List Byte := bytesOf "console"

/-- The secret `secret` followed by one zero byte: another secret with the same HMAC key
block. -/
def paddedSecret : List Byte := secret ++ [0]

/-- An admin service that holds `otherSecret`. -/
def adminOther : adminauth.Service :=
  { signer := auth.NewTokenSigner otherSecret, managers := { db := managersTable } }

/-- A console service that holds `otherSecret`. -/
def consoleOther : consoleauth.Service :=
  { clients := { db := clientsTable }, signer := auth.NewTokenSigner otherSecret }

/-- An admin service that holds `paddedSecret`. -/
def adminPadded : adminauth.Service :=
  { signer := auth.NewTokenSigner paddedSecret, managers := { db := managersTable } }

/-- A console service that holds `paddedSecret`. -/
def consolePadded : consoleauth.Service :=
  { clients := { db := clientsTable }, signer := auth.NewTokenSigner paddedSecret }

/-- The token of `claims` with one more byte at the end of its signature. -/
def tampered (claims : auth.Claims) : auth.Token :=
  { tokenOf claims with Signature := (tokenOf claims).Signature ++ [0] }

end fixture

namespace fixture

/-- Claims that expire at 10000-01-01T00:00:00Z, the first instant of the year 10000. -/
def beyond : auth.Claims :=
  { ID := id, ExpiresAt := { sec := 315537897600, nsec := 0, offset := 0 } }

/-- Claims that expire at `now`, in a zone that is 30 seconds east of UTC. -/
def skewed : auth.Claims :=
  { ID := id, ExpiresAt := { sec := 63735596800, nsec := 0, offset := 30 } }

/-- Claims that expire one nanosecond before 2021, in a zone 5 hours 30 minutes west. -/
def western : auth.Claims :=
  { ID := id, ExpiresAt := { sec := 63745055999, nsec := 999999999, offset := -19800 } }

end fixture
/-! ## Stores and logins

The repositories of `database` over the tables `managers` and `clients`, and the login
operations of the two services. A statement that writes returns the table after it.
Only the errors that the statements raise by themselves are in the embedding: no row for
a query, and a violated `PRIMARY KEY` or `UNIQUE` constraint of `CreateSchema`.
-/

namespace time

/-- The durations `Nanosecond`, `Second` and `Hour`, in nanoseconds. -/
def Nanosecond : Int := 1

/-- The duration `Second`. -/
def Second : Int := 1000000000 * Nanosecond

/-- The duration `Hour`. -/
def Hour : Int := 3600 * Second

/-- Wrap-around of the `int64` seconds field under `+=`. -/
def wrap64 (x : Int) : Int := (x + 2 ^ 63) % 2 ^ 64 - 2 ^ 63

/-- Method `Time.Add`: the time `t + d`. The seconds are added without a check for
overflow. -/
def Time.Add (t : Time) (d : Int) : Time :=
  let dsec := Int.tdiv d 1000000000
  let nsec := (t.nsec.val : Int) + Int.tmod d 1000000000
  let dsec1 := if nsec ≥ 1000000000 then dsec + 1 else if nsec < 0 then dsec - 1 else dsec
  let nsec1 :=
    if nsec ≥ 1000000000 then nsec - 1000000000 else if nsec < 0 then nsec + 1000000000
    else nsec
  { sec := wrap64 (t.sec + dsec1), nsec := Fin.ofNat nsec1.toNat, offset := t.offset }

/-- Method `Time.UTC`: the same instant with the location set to UTC. -/
def Time.UTC (t : Time) : Time := { t with offset := 0 }

end time

namespace strings

/-- Function `strings.ToUpper`. A string of ASCII bytes is mapped byte by byte; for any
other string the result is `Map(unicode.ToUpper, s)`, which is the parameter `mapUpper`. -/
def ToUpper (mapUpper : List Byte → List Byte) (s : List Byte) : List Byte :=
  let isASCII := s.all (fun c => decide (c.val < 128))
  let hasLower := s.any (fun c => decide (97 ≤ c.val ∧ c.val ≤ 122))
  if isASCII then
    if !hasLower then s
    else s.map (fun c => if 97 ≤ c.val ∧ c.val ≤ 122 then c - 32 else c)
  else mapUpper s

end strings

namespace uuid

/-- Method `UUID.Scan` on the bytes of a column: no bytes leave `u` as it is, 16 bytes
are the UUID itself, any other text is parsed. -/
def UUID.Scan (u : UUID) (src : List Byte) : Except GoError UUID :=
  if src.length = 0 then .ok u
  else if h : src.length = 16 then .ok { bytes := src, size := h }
  else ParseBytes src

end uuid

namespace database

/-- The error of the driver for an `INSERT` that breaks a `PRIMARY KEY` or `UNIQUE`
constraint. -/
def ErrDuplicateKey : GoError :=
  { classes := [], msg := "pq: duplicate key value violates unique constraint" }

/-- Function `normalizeEmail`. -/
def normalizeEmail (mapUpper : List Byte → List Byte) (email : List Byte) : List Byte :=
  strings.ToUpper mapUpper email

/-- Method `managersdb.GetByEmail`: the row selected by `WHERE email_normalized = $1`.
The column `id` holds the text of the UUID, which `uuid.ParseBytes` reads back. -/
def managersdb.GetByEmail (mapUpper : List Byte → List Byte) (repository : managersdb)
    (email : List Byte) : managers.Manager × Option GoError :=
  match repository.rows.find?
      (fun r => decide (r.email_normalized = normalizeEmail mapUpper email)) with
  | none => (managers.Manager.zero, errs.Wrap managers.ErrNoManager (some ErrNoRows))
  | some r =>
    match uuid.ParseBytes r.id.String with
    | .error err => (managers.Manager.zero, errs.Wrap ErrManagersDB (some err))
    | .ok id =>
      ({ ID := id, Email := email, FirstName := r.first_name, LastName := r.last_name,
         PasswordHash := r.password_hash, CreatedAt := r.created_at }, none)

/-- Method `managersdb.Update`: the statement sets `password_hash`, `first_name`,
`last_name` and `email` of the rows `WHERE id = $5`; `email_normalized` is not among the
columns it sets. The new version of a row is written after the other rows, the order in
which `TestAccounts` reads the table back. -/
def managersdb.Update (repository : managersdb) (manager : managers.Manager) :
    managersdb × Option GoError :=
  let hit := repository.rows.filter (fun r => decide (r.id = manager.ID))
  let rest := repository.rows.filter (fun r => !decide (r.id = manager.ID))
  let written := hit.map (fun r =>
    { r with password_hash := manager.PasswordHash, first_name := manager.FirstName,
             last_name := manager.LastName, email := manager.Email })
  ({ rows := rest ++ written }, errs.Wrap ErrManagersDB none)

/-- Method `managersdb.Add`: the `INSERT` of a row with the normalized email and the
current time in UTC; it fails when a row has the same `id` or the same
`email_normalized`. -/
def managersdb.Add (mapUpper : List Byte → List Byte) (repository : managersdb)
    (now : time.Time) (manager : managers.Manager) : managersdb × Option GoError :=
  let row : ManagerRow :=
    { id := manager.ID, password_hash := manager.PasswordHash,
      first_name := manager.FirstName, last_name := manager.LastName,
      email := manager.Email, email_normalized := normalizeEmail mapUpper manager.Email,
      created_at := now.UTC }
  if repository.rows.any
      (fun r => decide (r.id = row.id) || decide (r.email_normalized = row.email_normalized))
  then (repository, errs.Wrap ErrManagersDB (some ErrDuplicateKey))
  else ({ rows := repository.rows ++ [row] }, errs.Wrap ErrManagersDB none)

/-- Method `clientsdb.Register`: the `INSERT` of a row with the phone and empty names
and email; `uuid.New()` is the parameter `id`. It fails when a row has the same `id` or
the same `phone`, and returns the id in either case. -/
def clientsdb.Register (repository : clientsdb) (id : uuid.UUID) (now : time.Time)
    (phone : List Byte) : clientsdb × uuid.UUID × Option GoError :=
  let row : ClientRow :=
    { id := id, email := [], phone := phone, first_name := [], last_name := [],
      created_at := now.UTC }
  if repository.rows.any (fun r => decide (r.id = row.id) || decide (r.phone = row.phone))
  then (repository, id, errs.Wrap ErrClientsBD (some ErrDuplicateKey))
  else ({ rows := repository.rows ++ [row] }, id, errs.Wrap ErrClientsBD none)

/-- Method `clientsdb.GetByPhone`: the row selected by `WHERE phone = $1`, scanned into
a client that already carries the phone. The error of `Scan`, `sql.ErrNoRows` when the
query has no row, is wrapped in `ErrClientsBD`. -/
def clientsdb.GetByPhone (repository : clientsdb) (phone : List Byte) :
    clients.Client × Option GoError :=
  let client : clients.Client := { clients.Client.zero with Phone := phone }
  match repository.rows.find? (fun r => decide (r.phone = phone)) with
  | none => (client, errs.Wrap ErrClientsBD (some ErrNoRows))
  | some r =>
    match client.ID.Scan r.id.String with
    | .error err => (client, errs.Wrap ErrClientsBD (some err))
    | .ok id =>
      ({ client with ID := id, Email := r.email, FirstName := r.first_name,
                     LastName := r.last_name }, errs.Wrap ErrClientsBD none)

/-- The constraints of `CreateSchema` on the table `managers`: `PRIMARY KEY(id)` and
`UNIQUE (email_normalized)`. -/
def managersdb.constrained (repository : managersdb) : Prop :=
  repository.rows.Pairwise
    (fun a b => a.id ≠ b.id ∧ a.email_normalized ≠ b.email_normalized)

instance (repository : managersdb) : Decidable repository.constrained := by
  unfold managersdb.constrained
  exact inferInstance

/-- The constraints of `CreateSchema` on the rows of the table `clients`:
`PRIMARY KEY(id)` and `UNIQUE (phone)`. -/
def clientsdb.constrained (repository : clientsdb) : Prop :=
  repository.rows.Pairwise (fun a b => a.id ≠ b.id ∧ a.phone ≠ b.phone)

instance (repository : clientsdb) : Decidable repository.constrained := by
  unfold clientsdb.constrained
  exact inferInstance

end database
namespace managers

/-- Method `Service.GetByEmail`: the manager by email. -/
def Service.GetByEmail (mapUpper : List Byte → List Byte) (service : Service)
    (email : List Byte) : Manager × Option GoError :=
  let (manager, err) := service.db.GetByEmail mapUpper email
  (manager, errs.Wrap Error err)

end managers

namespace clients

/-- Method `Service.Register`: registers an account for the phone. -/
def Service.Register (clients : Service) (id : uuid.UUID) (now : time.Time)
    (phone : List Byte) : Service × uuid.UUID × Option GoError :=
  match clients.db.Register id now phone with
  | (db, id, err) => ({ db := db }, id, errs.Wrap Error err)

/-- Method `Service.GetByPhone`: the client by phone number. -/
def Service.GetByPhone (clients : Service) (phone : List Byte) : Client × Option GoError :=
  let (client, err) := clients.db.GetByPhone phone
  (client, errs.Wrap Error err)

end clients

namespace adminauth

/-- Method `Service.Token`: authenticates a manager by credentials and returns the auth
token. `bcrypt.CompareHashAndPassword` is the parameter `CompareHashAndPassword`: `nil`
when the password matches the hash, an error otherwise. -/
def Service.Token (mapUpper : List Byte → List Byte)
    (CompareHashAndPassword : List Byte → List Byte → Option GoError)
    (service : Service) (now : time.Time) (email password : List Byte) :
    auth.Token × Option GoError :=
  match service.managers.GetByEmail mapUpper email with
  | (_, some err) => (auth.Token.zero, errs.Wrap Error (some err))
  | (manager, none) =>
    match CompareHashAndPassword manager.PasswordHash password with
    | some err => (auth.Token.zero, errs.Wrap Error (some err))
    | none =>
      let claims : auth.Claims :=
        { ID := manager.ID, ExpiresAt := now.Add (time.Hour * 24) }
      let (token, err) := service.signer.CreateToken claims
      (token, errs.Wrap Error err)

end adminauth

namespace consoleauth

/-- The constant `AuthTokenDuration`: the expiration duration of an auth token. -/
def AuthTokenDuration : Int := 24 * time.Hour

/-- Method `Service.Login`: the service after the call, the token and the error. The
argument `token`, kept for the external check that is still to be written, is not read.
`uuid.New()` of `Register` is the parameter `id`, and the clock that `Register` reads for
`created_at` shows `now` as well. -/
def Service.Login (service : Service) (now : time.Time) (id : uuid.UUID)
    (token phone : List Byte) : Service × auth.Token × Option GoError :=
  let _ := token
  let sign (service : Service) (client : clients.Client) :
      Service × auth.Token × Option GoError :=
    let claims : auth.Claims :=
      { ID := client.ID, ExpiresAt := now.Add AuthTokenDuration }
    let (authToken, err) := service.signer.CreateToken claims
    (service, authToken, errs.Wrap Error err)
  match service.clients.GetByPhone phone with
  | (client, none) => sign service client
  | (client, some err) =>
    if !errs.Has clients.ErrNotExist (some err) then
      (service, auth.Token.zero, errs.Wrap Error (some err))
    else
      match service.clients.Register id now phone with
      | (clients1, _, some err) =>
        ({ service with clients := clients1 }, auth.Token.zero, errs.Wrap Error (some err))
      | (clients1, id, none) =>
        sign { service with clients := clients1 } { client with ID := id }

end consoleauth
/-! ## The middleware of the two servers

The part of `net/http` that the middleware touches: a request is its method, its header
fields, the cookies of its `Cookie` fields and the values that package `auth` keeps in its
context; a `ResponseWriter` is the header fields, the status and the body written so far.
-/

namespace http

/-- The status codes used. -/
def StatusMovedPermanently : Nat := 301

/-- The status `401 Unauthorized`. -/
def StatusUnauthorized : Nat := 401

/-- Function `http.StatusText`, at the codes that the servers use. -/
def StatusText (code : Nat) : String :=
  if code = 301 then "Moved Permanently"
  else if code = 400 then "Bad Request"
  else if code = 401 then "Unauthorized"
  else if code = 500 then "Internal Server Error"
  else ""

/-- The method `GET`. -/
def MethodGet : String := "GET"

/-- The error `http.ErrNoCookie`. -/
def ErrNoCookie : GoError := { classes := [], msg := "http: named cookie not present" }

/-- The mode `SameSiteStrictMode` of the attribute `SameSite` (the modes `Default`, `Lax`,
`Strict` and `None` are 1 to 4, and 0 is the attribute left unset). -/
def SameSiteStrictMode : Nat := 3

/-- A cookie: its name and its value, which are all that a request carries, and the
attributes that this program sets on a response. -/
structure Cookie where
  Name : List Byte
  Value : List Byte
  Path : List Byte := []
  Expires : time.Time := { sec := 0, nsec := 0, offset := 0 }
  HttpOnly : Bool := false
  SameSite : Nat := 0
deriving DecidableEq

/-- A request: beside the method, the header fields, the cookies and the context, the
bytes of its body, and the form that `ParseForm` reads from its URL and its body, with the
error of `ParseForm`. -/
structure Request where
  Method : String
  Header : List (String × List (List Byte))
  cookies : List Cookie
  ctx : auth.Context
  Body : List Byte := []
  Form : List (String × List (List Byte)) := []
  formErr : Option GoError := none

/-- Method `Header.Get` at a key in canonical form: the first value of the key, or the
empty string. -/
def Request.HeaderGet (r : Request) (key : String) : List Byte :=
  match r.Header.find? (fun kv => decide (kv.1 = key)) with
  | some (_, v :: _) => v
  | _ => []

/-- Method `Request.Cookie`: the first cookie of that name, or `ErrNoCookie`. -/
def Request.Cookie (r : Request) (name : List Byte) : Except GoError Cookie :=
  match r.cookies.find? (fun c => decide (c.Name = name)) with
  | some c => .ok c
  | none => .error ErrNoCookie

/-- Method `Request.Clone`: a copy of the request with the context `ctx`. -/
def Request.Clone (r : Request) (ctx : auth.Context) : Request := { r with ctx := ctx }

/-- The state of a `ResponseWriter`: header fields, the status once it is written, and
the body. -/
structure ResponseWriter where
  header : List (String × List Byte)
  status : Option Nat
  body : List Byte
deriving DecidableEq

/-- A writer on which nothing is written yet. -/
def ResponseWriter.fresh : ResponseWriter := { header := [], status := none, body := [] }

/-- Method `Header.Set` of the header of a writer. -/
def ResponseWriter.Set (w : ResponseWriter) (key : String) (value : List Byte) :
    ResponseWriter :=
  { w with header := w.header.filter (fun kv => !decide (kv.1 = key)) ++ [(key, value)] }

/-- Method `Header.Add` of the header of a writer: one more value of the key. -/
def ResponseWriter.Add (w : ResponseWriter) (key : String) (value : List Byte) :
    ResponseWriter :=
  { w with header := w.header ++ [(key, value)] }

/-- Method `WriteHeader`: the first status written stays. -/
def ResponseWriter.WriteHeader (w : ResponseWriter) (code : Nat) : ResponseWriter :=
  match w.status with
  | some _ => w
  | none => { w with status := some code }

/-- Method `Write`: writes the status `200` when none is written, then the bytes. -/
def ResponseWriter.Write (w : ResponseWriter) (b : List Byte) : ResponseWriter :=
  let w := w.WriteHeader 200
  { w with body := w.body ++ b }

/-- Function `http.Error`: replies with the error message, as one line of plain text,
and the code. -/
def Error (w : ResponseWriter) (error : String) (code : Nat) : ResponseWriter :=
  let w := w.Set "Content-Type" (bytesOf "text/plain; charset=utf-8")
  let w := w.Set "X-Content-Type-Options" (bytesOf "nosniff")
  let w := w.WriteHeader code
  w.Write (bytesOf error ++ [10])

/-- Function `http.Redirect` to a url that is an absolute, clean path of ASCII letters,
which the steps that resolve, clean and escape the url leave as it is. -/
def Redirect (w : ResponseWriter) (r : Request) (url : String) (code : Nat) :
    ResponseWriter :=
  let hadCT := w.header.any (fun kv => decide (kv.1 = "Content-Type"))
  let w := w.Set "Location" (bytesOf url)
  let w :=
    if !hadCT && (r.Method == "GET" || r.Method == "HEAD") then
      w.Set "Content-Type" (bytesOf "text/html; charset=utf-8")
    else w
  let w := w.WriteHeader code
  if !hadCT && r.Method == "GET" then
    w.Write (bytesOf "<a href=" ++ [34] ++ bytesOf url ++ [34] ++ bytesOf ">"
      ++ bytesOf (StatusText code) ++ bytesOf "</a>." ++ [10] ++ [10])
  else w

/-- A handler: the writer after `ServeHTTP`, from the writer before it and the request. -/
abbrev Handler := ResponseWriter → Request → ResponseWriter

/-- The state of an `http.Server`: whether `Close` has been called on it. -/
structure Server where
  closed : Bool := false
deriving DecidableEq

/-- Method `Server.Close`: closes the listeners and the connections. The error of closing
the listeners is the parameter `err`. -/
def Server.Close (srv : Server) (err : Option GoError) : Server × Option GoError :=
  ({ srv with closed := true }, err)

end http

namespace auth

/-- The settings of the cookie: its name and its path. -/
structure CookieSettings where
  Name : List Byte
  Path : List Byte
deriving DecidableEq

/-- The cookie authorization. -/
structure Cookie where
  settings : CookieSettings
deriving DecidableEq

/-- Function `NewCookie`. -/
def NewCookie (settings : CookieSettings) : Cookie := { settings := settings }

/-- Method `Cookie.GetToken`: the token of the request, the value of the cookie. -/
def Cookie.GetToken (cookieAuth : Cookie) (r : http.Request) : List Byte × Option GoError :=
  match r.Cookie cookieAuth.settings.Name with
  | .error err => ([], some err)
  | .ok cookie => (cookie.Value, none)

end auth

namespace server

/-- The console server: the services behind its endpoints and its `http.Server`. -/
structure Server where
  clients : clients.Service
  auth : consoleauth.Service
  server : http.Server := {}

/-- Method `Server.authenticate`: the middleware of the console, around `handler`. -/
def Server.authenticate (decodeJSON : List Byte → Except GoError auth.Claims)
    (FromBase64URLString : List Byte → auth.Token × Option GoError)
    (server : Server) (now : time.Time) (handler : http.Handler) : http.Handler :=
  fun w r =>
    let token := r.HeaderGet "Authorization"
    if token.length = 0 then
      http.Error w (http.StatusText http.StatusUnauthorized) http.StatusUnauthorized
    else
      let ctx := auth.SetToken r.ctx token
      match server.auth.Authorize decodeJSON FromBase64URLString now ctx with
      | (_, some _) =>
        http.Error w (http.StatusText http.StatusUnauthorized) http.StatusUnauthorized
      | (authorization, none) =>
        let ctx := auth.SetClaims ctx authorization
        handler w (r.Clone ctx)

end server

namespace adminportalweb

/-- The admin portal server: the services behind its endpoints, the cookie authorization
and its `http.Server`. -/
structure Server where
  managers : managers.Service
  clients : clients.Service
  service : adminauth.Service
  cookieAuth : auth.Cookie
  server : http.Server := {}

/-- Function `NewServer`: the server with the cookie settings of the portal. -/
def NewServer (authService : adminauth.Service) (clients : clients.Service)
    (managers : managers.Service) : Server :=
  { managers := managers, clients := clients, service := authService,
    cookieAuth := auth.NewCookie
      { Name := bytesOf "cleanmasters_manager_cookie", Path := bytesOf "/" } }

/-- Method `Server.withAuth`: the middleware of the admin portal, around `handler`. -/
def Server.withAuth (decodeJSON : List Byte → Except GoError auth.Claims)
    (FromBase64URLString : List Byte → auth.Token × Option GoError)
    (server : Server) (now : time.Time) (handler : http.Handler) : http.Handler :=
  fun w r =>
    let ctx := r.ctx
    match server.cookieAuth.GetToken r with
    | (_, some _) =>
      let r := r.Clone ctx
      let r := { r with Method := http.MethodGet }
      http.Redirect w r "/authorize" http.StatusMovedPermanently
    | (token, none) =>
      let ctx := auth.SetToken ctx token
      match server.service.Authorize decodeJSON FromBase64URLString now ctx with
      | (_, some _) =>
        let r := r.Clone ctx
        let r := { r with Method := http.MethodGet }
        http.Redirect w r "/authorize" http.StatusMovedPermanently
      | (authorization, none) =>
        let ctx := auth.SetClaims ctx authorization
        handler w (r.Clone ctx)

end adminportalweb
/-! ## More of the repositories and the services over them -/

namespace database

/-- Method `managersdb.Remove`: the `DELETE` of the rows `WHERE id = $1`. -/
def managersdb.Remove (repository : managersdb) (id : uuid.UUID) :
    managersdb × Option GoError :=
  ({ rows := repository.rows.filter (fun r => !decide (r.id = id)) },
   errs.Wrap ErrManagersDB none)

/-- Method `clientsdb.Delete`: the `DELETE` of the rows `WHERE id = $1`. -/
def clientsdb.Delete (repository : clientsdb) (id : uuid.UUID) :
    clientsdb × Option GoError :=
  ({ rows := repository.rows.filter (fun r => !decide (r.id = id)) },
   errs.Wrap ErrClientsBD none)

/-- Method `clientsdb.Update`: the statement sets `phone`, `first_name`, `last_name` and
`email` of the rows `WHERE id = $5`; it fails when another row has the new phone. The new
version of a row is written after the other rows. -/
def clientsdb.Update (repository : clientsdb) (client : clients.Client) :
    clientsdb × Option GoError :=
  let hit := repository.rows.filter (fun r => decide (r.id = client.ID))
  let rest := repository.rows.filter (fun r => !decide (r.id = client.ID))
  let written := hit.map (fun r =>
    { r with phone := client.Phone, first_name := client.FirstName,
             last_name := client.LastName, email := client.Email })
  if !hit.isEmpty && (rest.any (fun r => decide (r.phone = client.Phone))
      || decide (1 < hit.length)) then
    (repository, errs.Wrap ErrClientsBD (some ErrDuplicateKey))
  else ({ rows := rest ++ written }, errs.Wrap ErrClientsBD none)

end database

namespace clients

/-- Method `Service.Update`: updates a client. The client read by ID is not used after
its fields are set; the client written is `newClient`. -/
def Service.Update (clients : Service) (newClient : Client) : Service × Option GoError :=
  match clients.db.Get newClient.ID with
  | (_, some err) => (clients, errs.Wrap Error (some err))
  | (client, none) =>
    let client := { client with LastName := newClient.LastName }
    let client := { client with FirstName := newClient.FirstName }
    let client := { client with Email := newClient.Email }
    let _ := { client with Phone := newClient.Phone }
    let (db, err) := clients.db.Update newClient
    ({ db := db }, errs.Wrap Error err)

end clients

namespace managers

/-- Error class of an incorrect input or an invalid entity. -/
def ValidationError : String := "managers service validation error"

/-- The fields that can be updated in a manager. -/
structure ManagerUpdateFields where
  FirstName : List Byte
  LastName : List Byte
  Email : List Byte
  Password : List Byte
deriving DecidableEq

/-- Method `Service.Create`: creates a manager. `bcrypt.GenerateFromPassword` at the
default cost is the parameter `GenerateFromPassword`, and `uuid.New()` the parameter
`id`; the clock, read for `CreatedAt` and once more by `Add`, shows `now` both times. -/
def Service.Create (mapUpper : List Byte → List Byte)
    (GenerateFromPassword : List Byte → List Byte × Option GoError)
    (service : Service) (now : time.Time) (id : uuid.UUID)
    (password firstName lastName email : List Byte) : Service × Option GoError :=
  if password = [] then (service, some (errs.New ValidationError "password is incorrect"))
  else
    match GenerateFromPassword password with
    | (_, some err) => (service, errs.Wrap Error (some err))
    | (passwordHash, none) =>
      let manager : Manager :=
        { ID := id, FirstName := firstName, LastName := lastName, Email := email,
          PasswordHash := passwordHash, CreatedAt := now.UTC }
      let (db, err) := service.db.Add mapUpper now manager
      ({ db := db }, errs.Wrap Error err)

/-- Method `Service.Update`: updates the names and the email of a manager. -/
def Service.Update (service : Service) (id : uuid.UUID) (fields : ManagerUpdateFields) :
    Service × Option GoError :=
  match service.db.Get id with
  | (_, some err) => (service, errs.Wrap Error (some err))
  | (manager, none) =>
    let manager := { manager with LastName := fields.LastName }
    let manager := { manager with FirstName := fields.FirstName }
    let manager := { manager with Email := fields.Email }
    let (db, err) := service.db.Update manager
    ({ db := db }, errs.Wrap Error err)

end managers
/-! ## The auth cookie -/

namespace time

/-- The names of the days, from Sunday. -/
def days : List String :=
  ["Sunday", "Monday", "Tuesday", "Wednesday", "Thursday", "Friday", "Saturday"]

/-- The names of the months. -/
def months : List String :=
  ["January", "February", "March", "April", "May", "June", "July", "August", "September",
   "October", "November", "December"]

/-- The number of seconds of a week. -/
def secondsPerWeek : Nat := 7 * secondsPerDay

/-- Function `absWeekday`: the day of the week, 0 for Sunday; day 0 of the absolute epoch
is a Monday. -/
def absWeekday (abs : Nat) : Nat :=
  let sec := ((abs + 1 * secondsPerDay) % 2 ^ 64) % secondsPerWeek
  sec / secondsPerDay

/-- Result of `t.AppendFormat(b, http.TimeFormat)`, the layout
`Mon, 02 Jan 2006 15:04:05 GMT`. -/
def Time.AppendTimeFormat (b : List Byte) (t : Time) : List Byte :=
  let abs := t.abs
  let date := absDate abs
  let clock := absClock abs
  let b := b ++ (bytesOf (days.getD (absWeekday abs) "")).take 3
  let b := b ++ bytesOf ", "
  let b := appendInt b date.day 2
  let b := b ++ bytesOf " "
  let b := b ++ (bytesOf (months.getD (date.month - 1) "")).take 3
  let b := b ++ bytesOf " "
  let b := appendInt b date.year 4
  let b := b ++ bytesOf " "
  let b := appendInt b clock.hour 2
  let b := b ++ bytesOf ":"
  let b := appendInt b clock.min 2
  let b := b ++ bytesOf ":"
  let b := appendInt b clock.sec 2
  b ++ bytesOf " GMT"

end time

namespace http

/-- Function `httpguts.IsTokenRune` on the rune that a byte of the name decodes to: a
character of a token of RFC 7230. A byte from 0x80 on is part of a rune that is none. -/
def IsTokenRune (b : Byte) : Bool :=
  let n := b.val
  decide (48 ≤ n ∧ n ≤ 57) || decide (65 ≤ n ∧ n ≤ 90) || decide (97 ≤ n ∧ n ≤ 122)
    || decide (n ∈ [33, 35, 36, 37, 38, 39, 42, 43, 45, 46, 94, 95, 96, 124, 126])

/-- Function `isCookieNameValid`: a non-empty token. -/
def isCookieNameValid (raw : List Byte) : Bool :=
  !raw.isEmpty && raw.all IsTokenRune

/-- Function `validCookieValueByte`. -/
def validCookieValueByte (b : Byte) : Bool :=
  decide (0x20 ≤ b.val) && decide (b.val < 0x7f) && b != 34 && b != 59 && b != 92

/-- Function `validCookiePathByte`. -/
def validCookiePathByte (b : Byte) : Bool :=
  decide (0x20 ≤ b.val) && decide (b.val < 0x7f) && b != 59

/-- Function `sanitizeOrWarn`: the string without its invalid bytes. -/
def sanitizeOrWarn (valid : Byte → Bool) (v : List Byte) : List Byte :=
  if v.all valid then v else v.filter valid

/-- Function `sanitizeCookieValue`: the valid bytes of the value, in double quotes when
a space or a comma is among them. -/
def sanitizeCookieValue (v : List Byte) : List Byte :=
  let v := sanitizeOrWarn validCookieValueByte v
  if v.length = 0 then v
  else if v.contains 32 || v.contains 44 then [34] ++ v ++ [34]
  else v

/-- Function `sanitizeCookiePath`. -/
def sanitizeCookiePath (v : List Byte) : List Byte := sanitizeOrWarn validCookiePathByte v

/-- Function `validCookieExpires`: the year is 1601 or later. -/
def validCookieExpires (t : time.Time) : Bool := decide (t.Year ≥ 1601)

/-- Method `Cookie.String`: the serialization of the cookie for a `Set-Cookie` field, the
empty string for an invalid name. The attributes that this program leaves unset (`Domain`,
`MaxAge`, `Secure`) write nothing. -/
def Cookie.String (c : Cookie) : List Byte :=
  if !isCookieNameValid c.Name then []
  else
    let b := c.Name ++ [61] ++ sanitizeCookieValue c.Value
    let b :=
      if c.Path.length > 0 then b ++ bytesOf "; Path=" ++ sanitizeCookiePath c.Path
      else b
    let b :=
      if validCookieExpires c.Expires then
        b ++ bytesOf "; Expires=" ++ c.Expires.UTC.AppendTimeFormat []
      else b
    let b := if c.HttpOnly then b ++ bytesOf "; HttpOnly" else b
    if c.SameSite = 4 then b ++ bytesOf "; SameSite=None"
    else if c.SameSite = 2 then b ++ bytesOf "; SameSite=Lax"
    else if c.SameSite = 3 then b ++ bytesOf "; SameSite=Strict"
    else b

/-- Function `http.SetCookie`: adds a `Set-Cookie` field with the serialization of the
cookie, unless it is empty. -/
def SetCookie (w : ResponseWriter) (cookie : Cookie) : ResponseWriter :=
  let v := cookie.String
  if v ≠ [] then w.Add "Set-Cookie" v else w

end http

namespace auth

/-- The variable `cookieDuration`: the expiration of the cookie. -/
def cookieDuration : Int := time.Hour * 24

/-- Method `Cookie.SetToken`: sets the token cookie, not accessible from scripts. -/
def Cookie.SetToken (cookieAuth : Cookie) (w : http.ResponseWriter) (now : time.Time)
    (token : List Byte) : http.ResponseWriter :=
  http.SetCookie w
    { Name := cookieAuth.settings.Name,
      Value := token,
      Path := cookieAuth.settings.Path,
      Expires := now.Add cookieDuration,
      HttpOnly := true,
      SameSite := http.SameSiteStrictMode }

end auth
/-! ## The peer, the schema names and the controllers -/

namespace server

/-- Error class of the console web server. -/
def Error : String := "console web server error"

/-- Method `Server.Close`: closes the server and the underlying listener. -/
def Server.Close (server : Server) (err : Option GoError) : Server × Option GoError :=
  let (srv, err) := server.server.Close err
  ({ server with server := srv }, errs.Wrap Error err)

end server

namespace adminportalweb

/-- Error class of the admin http server. -/
def Error : String := "admin server error"

/-- Method `Server.Close`: closes the server and the underlying listener. -/
def Server.Close (server : Server) (err : Option GoError) : Server × Option GoError :=
  let (srv, err) := server.server.Close err
  ({ server with server := srv }, errs.Wrap Error err)

end adminportalweb

namespace cleanmasters

/-- The field `Console` of a peer, as far as `Close` reads it: the endpoint, `none` for a
`nil` pointer. -/
structure PeerConsole where
  Endpoint : Option server.Server

/-- The field `AdminPortal` of a peer, as far as `Close` reads it. -/
structure PeerAdminPortal where
  Endpoint : Option adminportalweb.Server

/-- The peer, as far as `Close` reads it. -/
structure Peer where
  Console : PeerConsole
  AdminPortal : PeerAdminPortal

/-- Method `Peer.Close`: the peer after the call and the returned error. The errors with
which the two `http.Server` close their listeners are the parameters. -/
def Peer.Close (peer : Peer) (consoleErr adminErr : Option GoError) :
    Peer × Option GoError :=
  match peer.Console.Endpoint with
  | some endpoint =>
    let (endpoint, err) := endpoint.Close consoleErr
    ({ peer with Console := { Endpoint := some endpoint } }, err)
  | none =>
    match peer.AdminPortal.Endpoint with
    | some endpoint =>
      let (endpoint, err) := endpoint.Close adminErr
      ({ peer with AdminPortal := { Endpoint := some endpoint } }, err)
    | none => (peer, none)

end cleanmasters

namespace strings

/-- The loop of `strings.Replace` for a non-empty `old` and no limit: the next instance
of `old` is replaced, the bytes before it are kept. -/
def replaceLoop : Nat → List Byte → List Byte → List Byte → List Byte
  | 0, s, _, _ => s
  | _ + 1, [], _, _ => []
  | fuel + 1, c :: rest, old, new =>
    if old.isPrefixOf (c :: rest) then
      new ++ replaceLoop fuel ((c :: rest).drop old.length) old new
    else c :: replaceLoop fuel rest old new

/-- Function `strings.Replace(s, old, new, -1)` for a non-empty `old`, which is how this
program calls it. (For an empty `old` the library inserts `new` between the characters;
here the result is `s`, and nothing is proved from it.) -/
def Replace (s old new : List Byte) : List Byte :=
  if old = new ∨ old = [] then s else replaceLoop s.length s old new

end strings

namespace tempdb

/-- Function `QuoteSchema`: quotes a schema name for use in an interpolated SQL string. -/
def QuoteSchema (ident : List Byte) : List Byte :=
  let s := strings.Replace ident [0] []
  [34] ++ strings.Replace s [34] [34, 34] ++ [34]

/-- The quoted form of an identifier, without the outer quotes: the identifier with its
NUL bytes removed and every double quote doubled. -/
def doubled (ident : List Byte) : List Byte :=
  (ident.filter (fun c => c != 0)).flatMap (fun c => if c = 34 then [34, 34] else [c])

/-- Un-doubling of a quoted interior: every pair of double quotes becomes one double
quote; there is no result when a double quote is not paired. -/
def undouble : List Byte → Option (List Byte)
  | [] => some []
  | c :: rest =>
    if c = 34 then
      match rest with
      | [] => none
      | d :: rest1 => if d = 34 then (undouble rest1).map (fun l => 34 :: l) else none
    else (undouble rest).map (fun l => c :: l)

end tempdb
/-! ## The controllers -/

/-- Method `Error` of an error value: the classes and the message, joined by `: `; an
empty class and an empty message write nothing. -/
def GoError.Error (e : GoError) : String :=
  e.classes.foldr
    (fun cls text =>
      if cls = "" then text else if text.length > 0 then cls ++ ": " ++ text else cls)
    e.msg

namespace json

/-- A character inside a string written by an `Encoder`, which escapes for HTML. -/
def escape (c : Char) : List Byte :=
  let n := c.toNat
  if n = 34 ∨ n = 92 then [92, Fin.ofNat n]
  else if n = 10 then bytesOf "\\n"
  else if n = 13 then bytesOf "\\r"
  else if n = 9 then bytesOf "\\t"
  else if n < 0x20 ∨ n = 60 ∨ n = 62 ∨ n = 38 then
    bytesOf "\\u00" ++ [uuid.hextable.getD (n >>> 4) 0, uuid.hextable.getD (n &&& 0xF) 0]
  else if n = 0x2028 then bytesOf "\\u2028"
  else if n = 0x2029 then bytesOf "\\u2029"
  else utf8.EncodeRune c

/-- Text written by `json.NewEncoder(w).Encode(response)` for the response of
`serveError`, a struct with the one field `error`. -/
def EncodeError (text : String) : List Byte :=
  bytesOf "\x7b\"error\":\"" ++ text.toList.flatMap escape ++ bytesOf "\"\x7d\n"

end json

namespace http

/-- The status `400 Bad Request`. -/
def StatusBadRequest : Nat := 400

/-- The status `500 Internal Server Error`. -/
def StatusInternalServerError : Nat := 500

/-- The method `POST`. -/
def MethodPost : String := "POST"

/-- The values of a key of the form, `r.Form[key]`: none for a key that the form lacks. -/
def Request.FormValues (r : Request) (key : String) : List (List Byte) :=
  match r.Form.find? (fun kv => decide (kv.1 = key)) with
  | some (_, values) => values
  | none => []

/-- What a handler call comes to: it returns, with the writer as it leaves it, or it
panics before it returns. -/
inductive Outcome where
  | returned (w : ResponseWriter)
  | panicked (msg : String)
deriving DecidableEq

end http

namespace server

/-- Error class of the clients controller. -/
def ErrClients : String := "clients controller error"

/-- The clients controller of the console. -/
structure Clients where
  clients : clients.Service

/-- The data needed to update a client. -/
structure UpdateClientRequest where
  FirstName : List Byte
  LastName : List Byte
  Email : List Byte
  Phone : List Byte
deriving DecidableEq

/-- Method `Clients.serveError`: sets the status and sends the error as JSON. -/
def Clients.serveError (w : http.ResponseWriter) (status : Nat) (err : GoError) :
    http.ResponseWriter :=
  let w := w.WriteHeader status
  w.Write (json.EncodeError err.Error)

/-- Method `Clients.UpdatePersonalData`: the controller and the writer after the call.
The decoding of the request body into an `UpdateClientRequest` by `encoding/json` is the
parameter `decode`. -/
def Clients.UpdatePersonalData (decode : List Byte → UpdateClientRequest × Option GoError)
    (controller : Clients) (w : http.ResponseWriter) (r : http.Request) :
    Clients × http.ResponseWriter :=
  let ctx := r.ctx
  let w := w.Add "Content-Type" (bytesOf "application/json")
  match auth.GetClaims ctx with
  | (_, some err) =>
    (controller, Clients.serveError w http.StatusUnauthorized (errs.wrap ErrClients err))
  | (claims, none) =>
    match decode r.Body with
    | (_, some err) =>
      (controller, Clients.serveError w http.StatusBadRequest (errs.wrap ErrClients err))
    | (request, none) =>
      match controller.clients.Update
          { ID := claims.ID, FirstName := request.FirstName, LastName := request.LastName,
            Email := request.Email, Phone := request.Phone,
            CreatedAt := { sec := 0, nsec := 0, offset := 0 } } with
      | (clients1, some err) =>
        ({ clients := clients1 },
         Clients.serveError w http.StatusInternalServerError (errs.wrap ErrClients err))
      | (clients1, none) => ({ clients := clients1 }, w)

end server

namespace adminportalweb

/-- The auth controller of the admin portal. -/
structure Auth where
  authentication : adminauth.Service
  cookieAuth : auth.Cookie

/-- Method `Auth.Authorize`: the endpoint that authorizes a manager and sets the auth
cookie. The execution of the page template, the method `Token.String` (which is not among
the sources) and the library calls of `Token` are parameters. A slice indexed at a
position that it does not have panics. -/
def Auth.Authorize (mapUpper : List Byte → List Byte)
    (CompareHashAndPassword : List Byte → List Byte → Option GoError)
    (TokenString : auth.Token → List Byte)
    (Execute : http.ResponseWriter → http.ResponseWriter × Option GoError)
    (controller : Auth) (now : time.Time) (w : http.ResponseWriter) (r : http.Request) :
    http.Outcome :=
  let ctx := r.ctx
  if r.Method = http.MethodGet then
    match Execute w with
    | (w, some _) =>
      .returned (http.Error w (http.StatusText http.StatusInternalServerError)
        http.StatusInternalServerError)
    | (w, none) => .returned w
  else if r.Method = http.MethodPost then
    match r.formErr with
    | some _ =>
      .returned (http.Error w (http.StatusText http.StatusBadRequest) http.StatusBadRequest)
    | none =>
      let email := r.FormValues "email"
      let password := r.FormValues "password"
      match email with
      | [] => .panicked "runtime error: index out of range [0] with length 0"
      | email0 :: _ =>
        match password with
        | [] => .panicked "runtime error: index out of range [0] with length 0"
        | password0 :: _ =>
          match controller.authentication.Token mapUpper CompareHashAndPassword now
              email0 password0 with
          | (_, some _) =>
            .returned (http.Error w (http.StatusText http.StatusInternalServerError)
              http.StatusInternalServerError)
          | (response, none) =>
            let w := controller.cookieAuth.SetToken w now (TokenString response)
            let r := r.Clone ctx
            let r := { r with Method := http.MethodGet }
            .returned (http.Redirect w r "/managers" http.StatusMovedPermanently)
  else .returned w

end adminportalweb
namespace fixture

/-- A stand-in for `Map(unicode.ToUpper, s)` in the examples, whose emails are ASCII and
never reach it. -/
def mapUpper : List Byte → List Byte := fun s => s

/-- The manager of `managersTable`, as `TestAccounts` adds it. -/
def manager : managers.Manager :=
  { ID := id, FirstName := bytesOf "Aslan", LastName := bytesOf "Maslan",
    Email := bytesOf "am@qwe.com", PasswordHash := bytesOf "qwerty123", CreatedAt := now }

/-- The ID of a second principal. -/
def id2 : uuid.UUID :=
  { bytes := [0xa0, 0xa1, 0xa2, 0xa3, 0xa4, 0xa5, 0xa6, 0xa7, 8, 9, 10, 11, 12, 13, 14, 15],
    size := rfl }

/-- A second manager. -/
def manager2 : managers.Manager :=
  { ID := id2, FirstName := bytesOf "Baslan", LastName := bytesOf "Haslan",
    Email := bytesOf "bh@qwe.com", PasswordHash := bytesOf "qwerty123", CreatedAt := now }

/-- The first manager with another first name and the same email, as `TestAccounts`
updates it. -/
def renamed : managers.Manager :=
  { manager with FirstName := bytesOf "QWERTT" }

/-- The first manager with another first name and another email. -/
def moved : managers.Manager :=
  { manager with FirstName := bytesOf "QWERTT", Email := bytesOf "new@qwe.com" }

/-- A stand-in for `bcrypt.CompareHashAndPassword` in the examples: the hash of a
password is the password itself. -/
def compare : List Byte → List Byte → Option GoError :=
  fun hashedPassword password =>
    if hashedPassword = password then none
    else some { classes := [],
                msg := "crypto/bcrypt: hashedPassword is not the hash of the given password" }

/-- The current time of the fixtures in a zone that is 30 seconds east of UTC. -/
def nowSkewed : time.Time := { now with offset := 30 }

/-- An ID that `uuid.New()` returns in the examples. -/
def newID : uuid.UUID :=
  { bytes := [0xb0, 0xb1, 0xb2, 0xb3, 0xb4, 0xb5, 0xb6, 0xb7, 8, 9, 10, 11, 12, 13, 14, 15],
    size := rfl }

/-- Another ID that `uuid.New()` returns in the examples. -/
def newID2 : uuid.UUID :=
  { bytes := [0xc0, 0xc1, 0xc2, 0xc3, 0xc4, 0xc5, 0xc6, 0xc7, 8, 9, 10, 11, 12, 13, 14, 15],
    size := rfl }

end fixture
namespace fixture

/-- A console server over the service whose store holds the principal. -/
def consoleServer : server.Server := { clients := console.clients, auth := console }

/-- A console server over the service with an empty store. -/
def consoleServerEmpty : server.Server :=
  { clients := consoleEmpty.clients, auth := consoleEmpty }

/-- The admin portal server over the service whose store holds the principal. -/
def portal : adminportalweb.Server :=
  adminportalweb.NewServer admin console.clients admin.managers

/-- A request with no `Authorization` field and no cookie. -/
def bare : http.Request := { Method := "POST", Header := [], cookies := [], ctx := {} }

/-- A request whose `Authorization` field and whose auth cookie carry a token text. -/
def bearing : http.Request :=
  { Method := "POST", Header := [("Authorization", [bytesOf "token"])],
    cookies := [{ Name := bytesOf "cleanmasters_manager_cookie", Value := bytesOf "token" }],
    ctx := {} }

/-- A handler that writes `served`. -/
def handler : http.Handler := fun w _ => w.Write (bytesOf "served")

/-- A wire decoder that fails on every text. -/
def decodeFails : List Byte → auth.Token × Option GoError :=
  fun _ => (auth.Token.zero, some { classes := [], msg := "illegal base64 data" })

/-- A validly signed token whose payload is not the JSON of claims: its `id` is not a
UUID. -/
def garbled : auth.Token :=
  ((auth.NewTokenSigner secret).SignToken
    { Payload := bytesOf "\x7b\"id\":\"zz\"\x7d", Signature := [] }).1

end fixture
namespace fixture

/-- A managers table with the two managers of `TestAccounts`. -/
def twoManagers : database.managersdb :=
  (managersTable.Add mapUpper now manager2).1

/-- A clients table with two clients. -/
def twoClients : database.clientsdb :=
  { rows := [{ id := id, phone := bytesOf "228", first_name := [], last_name := [],
               email := [], created_at := now },
             { id := id2, phone := bytesOf "0930000000", first_name := bytesOf "Aslan",
               last_name := bytesOf "Maslan", email := bytesOf "am@qwe.com",
               created_at := now }] }

/-- Claims that expire exactly at `now`. -/
def due : auth.Claims := { ID := id, ExpiresAt := now }

/-- The current time of the fixtures and half a second. -/
def nowAndHalf : time.Time := { now with nsec := 500000000 }

/-- A peer whose two endpoints are set. -/
def peer : cleanmasters.Peer :=
  { Console := { Endpoint := some consoleServer }, AdminPortal := { Endpoint := some portal } }

/-- A stand-in for `bcrypt.GenerateFromPassword` in the examples: the hash of a password
is the password itself, as for `compare`. -/
def generate : List Byte → List Byte × Option GoError := fun password => (password, none)

/-- A stand-in for the decoding of a request body in the examples: the body is the first
name, and the other fields are fixed. -/
def decodeBody : List Byte → server.UpdateClientRequest × Option GoError :=
  fun body =>
    ({ FirstName := body, LastName := bytesOf "Maslanovich",
       Email := bytesOf "new_poshta_am@qwe.com", Phone := bytesOf "5051228" }, none)

/-- The clients controller over the table of two clients. -/
def controller : server.Clients := { clients := { db := twoClients } }

/-- A request with a body and, in its context, the claims `fresh` of the principal. -/
def authorized (body : List Byte) : http.Request :=
  { Method := "PATCH", Header := [], cookies := [], ctx := auth.SetClaims {} fresh,
    Body := body }

/-- The auth controller of the admin portal of the fixtures. -/
def authController : adminportalweb.Auth :=
  { authentication := admin, cookieAuth := portal.cookieAuth }

/-- A stand-in for `Token.String` in the examples: the payload of the token. -/
def tokenString : auth.Token → List Byte := fun token => token.Payload

/-- A stand-in for the execution of the page template in the examples. -/
def execute : http.ResponseWriter → http.ResponseWriter × Option GoError :=
  fun w => (w.Write (bytesOf "<html></html>"), none)

/-- A `POST` request whose form has the field `password` only. -/
def postWithoutEmail : http.Request :=
  { Method := "POST", Header := [], cookies := [], ctx := {},
    Form := [("password", [bytesOf "qwerty123"])] }

/-- A `POST` request whose form has the field `email` only. -/
def postWithoutPassword : http.Request :=
  { Method := "POST", Header := [], cookies := [], ctx := {},
    Form := [("email", [bytesOf "am@qwe.com"])] }

end fixture

namespace fixture

/-- The managers service over the table of two managers. -/
def managersService : managers.Service := { db := twoManagers }

/-- Fields of an update that carry a password as well. -/
def fields : managers.ManagerUpdateFields :=
  { FirstName := bytesOf "QWERTT", LastName := bytesOf "Maslanov",
    Email := bytesOf "new@qwe.com", Password := bytesOf "another-password" }

end fixture

/-! # Properties -/

/-! ## Constant-time comparison -/

theorem byte_xor_val (a b : Byte) : (a ^^^ b).val = a.val ^^^ b.val := by
  have h : a.val ^^^ b.val < 2 ^ 8 := Nat.xor_lt_two_pow a.isLt b.isLt
  show (a.val ^^^ b.val) % 256 = _
  exact Nat.mod_eq_of_lt h

theorem byte_or_val (a b : Byte) : (a ||| b).val = a.val ||| b.val := by
  have h : a.val ||| b.val < 2 ^ 8 := Nat.or_lt_two_pow a.isLt b.isLt
  show (a.val ||| b.val) % 256 = _
  exact Nat.mod_eq_of_lt h

theorem nat_or_eq_zero (a b : Nat) : a ||| b = 0 ↔ a = 0 ∧ b = 0 := by
  constructor
  · intro h
    have key : ∀ i, a.testBit i = false ∧ b.testBit i = false := by
      intro i
      have := congrArg (fun n => n.testBit i) h
      simpa [Nat.testBit_or] using this
    exact ⟨Nat.eq_of_testBit_eq (fun i => by simp [(key i).1]),
           Nat.eq_of_testBit_eq (fun i => by simp [(key i).2])⟩
  · rintro ⟨rfl, rfl⟩; rfl

theorem byte_xor_eq_zero (a b : Byte) : a ^^^ b = 0 ↔ a = b := by
  rw [Fin.ext_iff, byte_xor_val, Fin.ext_iff]
  exact Nat.xor_eq_zero

theorem byte_or_eq_zero (a b : Byte) : a ||| b = 0 ↔ a = 0 ∧ b = 0 := by
  rw [Fin.ext_iff, byte_or_val, Fin.ext_iff, Fin.ext_iff]
  exact nat_or_eq_zero _ _

set_option maxRecDepth 100000 in
theorem ConstantTimeByteEq_zero : ∀ v : Byte, subtle.ConstantTimeByteEq v 0 = 1 ↔ v = 0 := by
  decide

theorem orXor_eq_zero : ∀ (x y : List Byte) (v : Byte), x.length = y.length →
    (subtle.orXor v x y = 0 ↔ v = 0 ∧ x = y)
  | [], [], v, _ => by simp [subtle.orXor]
  | [], _ :: _, _, h => by simp at h
  | _ :: _, [], _, h => by simp at h
  | a :: x, b :: y, v, h => by
    have hl : x.length = y.length := by simpa using h
    rw [subtle.orXor, orXor_eq_zero x y _ hl, byte_or_eq_zero, byte_xor_eq_zero]
    simp [and_assoc]

/-- The comparison answers 1 exactly on slices of equal contents. -/
theorem ConstantTimeCompare_eq_one (x y : List Byte) :
    subtle.ConstantTimeCompare x y = 1 ↔ x = y := by
  unfold subtle.ConstantTimeCompare
  by_cases h : x.length = y.length
  · simp only [h, ne_eq, not_true_eq_false, if_false, ConstantTimeByteEq_zero,
      orXor_eq_zero x y 0 h, true_and]
  · have hne : x ≠ y := fun e => h (by rw [e])
    simp [h, hne]

/-! ## Signing and signature validation -/

theorem SignToken_eq (a : auth.TokenSigner) (token : auth.Token) :
    a.SignToken token =
      ({ Payload := token.Payload,
         Signature := hmac.Sum a.secret (base64.EncodeToString token.Payload) }, none) := rfl

/-- The admin service accepts a token exactly when its signature is the recomputed one,
and then hands the payload to `FromJSON`. -/
theorem adminauth_authenticate_eq (decodeJSON : List Byte → Except GoError auth.Claims)
    (service : adminauth.Service) (token : auth.Token) :
    service.authenticate decodeJSON token =
      if token.Signature
          = hmac.Sum service.signer.secret (base64.EncodeToString token.Payload) then
        auth.FromJSON decodeJSON token.Payload
      else .error (errs.New adminauth.Error "incorrect signature") := by
  simp only [adminauth.Service.authenticate, SignToken_eq, ne_eq, ConstantTimeCompare_eq_one]
  split <;> simp_all

/-- The console service accepts a token exactly when its signature is the recomputed one,
and then hands the payload to `FromJSON`. -/
theorem consoleauth_Authenticate_eq (decodeJSON : List Byte → Except GoError auth.Claims)
    (service : consoleauth.Service) (token : auth.Token) :
    service.Authenticate decodeJSON token =
      if token.Signature
          = hmac.Sum service.signer.secret (base64.EncodeToString token.Payload) then
        auth.FromJSON decodeJSON token.Payload
      else .error (errs.New consoleauth.Error "incorrect signature") := by
  simp only [consoleauth.Service.Authenticate, SignToken_eq, ne_eq, ConstantTimeCompare_eq_one]
  by_cases h : token.Signature
      = hmac.Sum service.signer.secret (base64.EncodeToString token.Payload)
  · simp only [h, not_true_eq_false, if_false, if_true]
    cases auth.FromJSON decodeJSON token.Payload <;> rfl
  · simp only [h, not_false_eq_true, if_true, if_false]

/-! ## Round trip of the UUID text -/

theorem list_length_16 (l : List Byte) (h : l.length = 16) :
    ∃ b0 b1 b2 b3 b4 b5 b6 b7 b8 b9 b10 b11 b12 b13 b14 b15,
      l = [b0, b1, b2, b3, b4, b5, b6, b7, b8, b9, b10, b11, b12, b13, b14, b15] := by
  match l, h with
  | [b0, b1, b2, b3, b4, b5, b6, b7, b8, b9, b10, b11, b12, b13, b14, b15], _ =>
    exact ⟨b0, b1, b2, b3, b4, b5, b6, b7, b8, b9, b10, b11, b12, b13, b14, b15, rfl⟩

set_option maxRecDepth 100000 in
theorem xtob_hex : ∀ b : Byte, uuid.xtob (uuid.hexHi b) (uuid.hexLo b) = some b := by
  decide

theorem String_explicit (b0 b1 b2 b3 b4 b5 b6 b7 b8 b9 b10 b11 b12 b13 b14 b15 : Byte)
    (h : [b0, b1, b2, b3, b4, b5, b6, b7, b8, b9, b10, b11, b12, b13, b14, b15].length = 16) :
    uuid.UUID.String ⟨[b0, b1, b2, b3, b4, b5, b6, b7, b8, b9, b10, b11, b12, b13, b14, b15], h⟩
      = [uuid.hexHi b0, uuid.hexLo b0, uuid.hexHi b1, uuid.hexLo b1, uuid.hexHi b2, uuid.hexLo b2, uuid.hexHi b3, uuid.hexLo b3, 45,
         uuid.hexHi b4, uuid.hexLo b4, uuid.hexHi b5, uuid.hexLo b5, 45, uuid.hexHi b6, uuid.hexLo b6, uuid.hexHi b7, uuid.hexLo b7, 45,
         uuid.hexHi b8, uuid.hexLo b8, uuid.hexHi b9, uuid.hexLo b9, 45, uuid.hexHi b10, uuid.hexLo b10, uuid.hexHi b11, uuid.hexLo b11,
         uuid.hexHi b12, uuid.hexLo b12, uuid.hexHi b13, uuid.hexLo b13, uuid.hexHi b14, uuid.hexLo b14, uuid.hexHi b15,
         uuid.hexLo b15] := rfl

theorem parseDashed_explicit (b0 b1 b2 b3 b4 b5 b6 b7 b8 b9 b10 b11 b12 b13 b14 b15 : Byte)
    (h : [b0, b1, b2, b3, b4, b5, b6, b7, b8, b9, b10, b11, b12, b13, b14, b15].length = 16) :
    uuid.parseDashed [uuid.hexHi b0, uuid.hexLo b0, uuid.hexHi b1, uuid.hexLo b1, uuid.hexHi b2, uuid.hexLo b2, uuid.hexHi b3, uuid.hexLo b3, 45,
         uuid.hexHi b4, uuid.hexLo b4, uuid.hexHi b5, uuid.hexLo b5, 45, uuid.hexHi b6, uuid.hexLo b6, uuid.hexHi b7, uuid.hexLo b7, 45,
         uuid.hexHi b8, uuid.hexLo b8, uuid.hexHi b9, uuid.hexLo b9, 45, uuid.hexHi b10, uuid.hexLo b10, uuid.hexHi b11, uuid.hexLo b11,
         uuid.hexHi b12, uuid.hexLo b12, uuid.hexHi b13, uuid.hexLo b13, uuid.hexHi b14, uuid.hexLo b14, uuid.hexHi b15,
         uuid.hexLo b15]
      = .ok ⟨[b0, b1, b2, b3, b4, b5, b6, b7, b8, b9, b10, b11, b12, b13, b14, b15], h⟩ := by
  unfold uuid.parseDashed
  have hd : uuid.decodeAt [uuid.hexHi b0, uuid.hexLo b0, uuid.hexHi b1, uuid.hexLo b1, uuid.hexHi b2, uuid.hexLo b2, uuid.hexHi b3, uuid.hexLo b3, 45,
         uuid.hexHi b4, uuid.hexLo b4, uuid.hexHi b5, uuid.hexLo b5, 45, uuid.hexHi b6, uuid.hexLo b6, uuid.hexHi b7, uuid.hexLo b7, 45,
         uuid.hexHi b8, uuid.hexLo b8, uuid.hexHi b9, uuid.hexLo b9, 45, uuid.hexHi b10, uuid.hexLo b10, uuid.hexHi b11, uuid.hexLo b11,
         uuid.hexHi b12, uuid.hexLo b12, uuid.hexHi b13, uuid.hexLo b13, uuid.hexHi b14, uuid.hexLo b14, uuid.hexHi b15,
         uuid.hexLo b15] [0, 2, 4, 6, 9, 11, 14, 16, 19, 21, 24, 26, 28, 30, 32, 34]
      = some [b0, b1, b2, b3, b4, b5, b6, b7, b8, b9, b10, b11, b12, b13, b14, b15] := by
    simp only [uuid.decodeAt, List.getD_cons_succ, List.getD_cons_zero, xtob_hex]
  rw [hd]
  simp only [List.getD_cons_succ, List.getD_cons_zero, ne_eq, not_true_eq_false, or_self,
    if_false, uuid.ofBytes]
  simp

/-- Parsing the text of a UUID gives the UUID back. -/
theorem ParseBytes_String (u : uuid.UUID) : uuid.ParseBytes u.String = .ok u := by
  obtain ⟨l, hl⟩ := u
  obtain ⟨b0, b1, b2, b3, b4, b5, b6, b7, b8, b9, b10, b11, b12, b13, b14, b15, rfl⟩ :=
    list_length_16 l hl
  rw [String_explicit]
  unfold uuid.ParseBytes
  rw [if_pos (by rfl)]
  exact parseDashed_explicit _ _ _ _ _ _ _ _ _ _ _ _ _ _ _ _ hl

/-! ## Decimal fields -/

theorem digit_val (n : Nat) (h : n < 10) : (time.digit n).val = 48 + n := by
  show (48 + n) % 256 = 48 + n
  omega

theorem isDigit_digit (n : Nat) (h : n < 10) : time.isDigit (time.digit n) = true := by
  simp only [time.isDigit, digit_val n h, Bool.and_eq_true, decide_eq_true_eq]
  omega

theorem digit_zero : time.digit 0 = 48 := rfl

theorem digit_ne (n : Nat) (h : n < 10) (c : Byte) (hc : c.val < 48 ∨ 57 < c.val) :
    time.digit n ≠ c := by
  intro e
  have hv : (time.digit n).val = c.val := congrArg Fin.val e
  rw [digit_val n h] at hv
  omega

theorem revDigits_small (fuel u : Nat) (h : u < 10) :
    time.revDigits (fuel + 1) u = [time.digit u] := by
  simp only [time.revDigits, ge_iff_le, if_neg (show ¬ 10 ≤ u by omega)]

theorem revDigits_step (fuel u : Nat) (h : 10 ≤ u) :
    time.revDigits (fuel + 1) u = time.digit (u % 10) :: time.revDigits fuel (u / 10) := by
  simp only [time.revDigits, ge_iff_le, if_pos h]

/-- A two-digit field, zero padded. -/
theorem appendInt_two (b : List Byte) (x : Nat) (h : x < 100) :
    time.appendInt b (x : Int) 2 = b ++ [time.digit (x / 10), time.digit (x % 10)] := by
  unfold time.appendInt
  simp only [Int.natAbs_ofNat, if_neg (show ¬ ((x : Int) < 0) by omega)]
  by_cases h10 : x < 10
  · rw [revDigits_small _ _ h10]
    have h0 : x / 10 = 0 := by omega
    have h1 : x % 10 = x := by omega
    simp [h0, h1, digit_zero, List.replicate]
  · rw [revDigits_step _ _ (by omega), revDigits_small _ _ (by omega)]
    simp

/-- A four-digit field, zero padded. -/
theorem appendInt_four (b : List Byte) (x : Nat) (h : x < 10000) :
    time.appendInt b (x : Int) 4
      = b ++ [time.digit (x / 1000), time.digit (x / 100 % 10), time.digit (x / 10 % 10),
              time.digit (x % 10)] := by
  unfold time.appendInt
  simp only [Int.natAbs_ofNat, if_neg (show ¬ ((x : Int) < 0) by omega)]
  by_cases h10 : x < 10
  · rw [revDigits_small _ _ h10]
    have e0 : x / 1000 = 0 := by omega
    have e1 : x / 100 % 10 = 0 := by omega
    have e2 : x / 10 % 10 = 0 := by omega
    have e3 : x % 10 = x := by omega
    simp [e0, e1, e2, e3, digit_zero, List.replicate]
  · by_cases h100 : x < 100
    · rw [revDigits_step _ _ (by omega), revDigits_small _ _ (by omega)]
      have e0 : x / 1000 = 0 := by omega
      have e1 : x / 100 % 10 = 0 := by omega
      have e2 : x / 10 % 10 = x / 10 := by omega
      simp [e0, e1, e2, digit_zero, List.replicate]
    · by_cases h1000 : x < 1000
      · rw [revDigits_step _ _ (by omega), revDigits_step _ _ (by omega),
          revDigits_small _ _ (by omega)]
        have e0 : x / 1000 = 0 := by omega
        have e1 : x / 10 / 10 = x / 100 % 10 := by omega
        have e2 : x / 10 % 10 = x / 10 % 10 := rfl
        simp [e0, e1, digit_zero, List.replicate]
      · rw [revDigits_step _ _ (by omega), revDigits_step _ _ (by omega),
          revDigits_step _ _ (by omega), revDigits_small _ _ (by omega)]
        have e0 : x / 10 / 10 / 10 = x / 1000 := by omega
        have e1 : x / 10 / 10 % 10 = x / 100 % 10 := by omega
        simp [e0, e1]

/-- Reading back a two-digit field. -/
theorem getnum_two (a b : Nat) (ha : a < 10) (hb : b < 10) (rest : List Byte) (fixed : Bool) :
    time.getnum (time.digit a :: time.digit b :: rest) fixed = .ok (a * 10 + b, rest) := by
  simp only [time.getnum, isDigit_digit a ha, isDigit_digit b hb, Bool.not_true,
    Bool.false_eq_true, if_false, digit_val a ha, digit_val b hb, Nat.add_sub_cancel_left]

theorem leadingInt_digit (n : Nat) (hn : n < 10) (rest : List Byte) (x : Nat)
    (hx : x * 10 + n < 2 ^ 63) :
    time.leadingInt (time.digit n :: rest) x = time.leadingInt rest (x * 10 + n) := by
  rw [time.leadingInt]
  simp only [isDigit_digit n hn, Bool.not_true, Bool.false_eq_true, if_false, digit_val n hn,
    Nat.add_sub_cancel_left]
  rw [if_neg (by omega), if_neg (by omega)]

/-- Reading back a four-digit year. -/
theorem atoi_four (a b c d : Nat) (ha : a < 10) (hb : b < 10) (hc : c < 10) (hd : d < 10) :
    time.atoi [time.digit a, time.digit b, time.digit c, time.digit d]
      = .ok ((a * 1000 + b * 100 + c * 10 + d : Nat) : Int) := by
  have h45 : time.digit a ≠ 45 := digit_ne a ha 45 (Or.inl (by decide))
  have h43 : time.digit a ≠ 43 := digit_ne a ha 43 (Or.inl (by decide))
  unfold time.atoi
  simp only [h45, h43, decide_False, or_self, if_false]
  rw [leadingInt_digit a ha _ _ (by omega), leadingInt_digit b hb _ _ (by omega),
    leadingInt_digit c hc _ _ (by omega), leadingInt_digit d hd _ _ (by omega)]
  simp only [time.leadingInt, ne_eq, not_true_eq_false, if_false, Bool.false_eq_true]
  congr 2
  omega

/-- Reading back a two-digit number with `atoi`. -/
theorem atoi_two (a b : Nat) (ha : a < 10) (hb : b < 10) :
    time.atoi [time.digit a, time.digit b] = .ok ((a * 10 + b : Nat) : Int) := by
  have h45 : time.digit a ≠ 45 := digit_ne a ha 45 (Or.inl (by decide))
  have h43 : time.digit a ≠ 43 := digit_ne a ha 43 (Or.inl (by decide))
  unfold time.atoi
  simp only [h45, h43, decide_False, or_self, if_false]
  rw [leadingInt_digit a ha _ _ (by omega), leadingInt_digit b hb _ _ (by omega)]
  simp only [time.leadingInt, ne_eq, not_true_eq_false, if_false, Bool.false_eq_true]
  congr 2
  omega

/-! ## The calendar -/

theorem absDate_eq (abs : Nat) :
    time.absDate abs =
      { year := (time.cycleYears (abs / time.secondsPerDay) : Int) + time.absoluteZeroYear,
        month := (time.monthDay
          (time.isLeap ((time.cycleYears (abs / time.secondsPerDay) : Int)
            + time.absoluteZeroYear))
          (time.cycleDay (abs / time.secondsPerDay))).1,
        day := (time.monthDay
          (time.isLeap ((time.cycleYears (abs / time.secondsPerDay) : Int)
            + time.absoluteZeroYear))
          (time.cycleDay (abs / time.secondsPerDay))).2,
        yday := time.cycleDay (abs / time.secondsPerDay) } := by
  unfold time.absDate time.monthDay time.cycleYears time.cycleDay
  dsimp only
  split_ifs <;> rfl

theorem daysSinceEpoch_eq (y : Nat) (h : y < 2 ^ 64) :
    time.daysSinceEpoch ((y : Int) + time.absoluteZeroYear) = time.cycleDays y := by
  unfold time.daysSinceEpoch time.cycleDays
  have e : (((y : Int) + time.absoluteZeroYear - time.absoluteZeroYear) % 2 ^ 64).toNat = y := by
    have : ((y : Int) + time.absoluteZeroYear - time.absoluteZeroYear) = (y : Int) := by ring
    rw [this]
    omega
  rw [e]

theorem isLeap_eq (y : Nat) :
    time.isLeap ((y : Int) + time.absoluteZeroYear)
      = (decide ((y + 1) % 4 = 0) && (decide ((y + 1) % 100 ≠ 0) || decide ((y + 1) % 400 = 0))) := by
  unfold time.isLeap time.absoluteZeroYear
  have h4 : (((y : Int) + -292277022399) % 4 == 0) = decide ((y + 1) % 4 = 0) := by
    rw [Bool.eq_iff_iff]; simp only [beq_iff_eq, decide_eq_true_eq]; omega
  have h100 : (((y : Int) + -292277022399) % 100 != 0) = decide ((y + 1) % 100 ≠ 0) := by
    rw [Bool.eq_iff_iff]; simp only [bne_iff_ne, ne_eq, decide_eq_true_eq, decide_not,
      Bool.not_eq_true', decide_eq_false_iff_not]; omega
  have h400 : (((y : Int) + -292277022399) % 400 == 0) = decide ((y + 1) % 400 = 0) := by
    rw [Bool.eq_iff_iff]; simp only [beq_iff_eq, decide_eq_true_eq]; omega
  rw [h4, h100, h400]

theorem cycle_arith (d : Nat) :
    let n400 := d / 146097
    let d1 := d - 146097 * n400
    let n100 := d1 / 36524
    let n100' := n100 - n100 / 2 / 2
    let d2 := d1 - 36524 * n100'
    let n4 := d2 / 1461
    let d3 := d2 - 1461 * n4
    let n1 := d3 / 365
    let n1' := n1 - n1 / 2 / 2
    let yday := d3 - 365 * n1'
    let y := 400 * n400 + 100 * n100' + 4 * n4 + n1'
    (146097 * (y / 400) + 36524 * ((y - 400 * (y / 400)) / 100)
      + 1461 * ((y - 400 * (y / 400) - 100 * ((y - 400 * (y / 400)) / 100)) / 4)
      + 365 * (y - 400 * (y / 400) - 100 * ((y - 400 * (y / 400)) / 100)
          - 4 * ((y - 400 * (y / 400) - 100 * ((y - 400 * (y / 400)) / 100)) / 4))
      + yday = d) ∧ y ≤ d ∧
    (yday < 365 ∨ (yday = 365 ∧ (y + 1) % 4 = 0 ∧ ((y + 1) % 100 ≠ 0 ∨ (y + 1) % 400 = 0))) := by
  intro n400 d1 n100 n100' d2 n4 d3 n1 n1' yday y
  have b1 : d1 < 146097 := by omega
  have b2 : n100 ≤ 4 := by omega
  have b3 : n100' ≤ 3 := by omega
  have b4 : d2 ≤ 36524 := by omega
  have b5 : n100' < 3 → d2 < 36524 := by omega
  have b6 : n4 ≤ 24 := by omega
  have b7 : d3 < 1461 := by omega
  have b8 : n4 = 24 → n100' < 3 → d3 < 1460 := by omega
  have b9 : n1 ≤ 4 := by omega
  have b10 : n1' ≤ 3 := by omega
  have b11 : yday ≤ 365 := by omega
  have b12 : n1' < 3 → yday < 365 := by omega
  have e1 : y / 400 = n400 := by omega
  have e2 : (y - 400 * (y / 400)) / 100 = n100' := by rw [e1]; omega
  have e3 : (y - 400 * (y / 400) - 100 * ((y - 400 * (y / 400)) / 100)) / 4 = n4 := by
    rw [e2, e1]; omega
  rw [e3, e2, e1]
  refine ⟨by omega, by omega, ?_⟩
  by_cases hlt : yday < 365
  · exact Or.inl hlt
  · right
    have hn13 : n1' = 3 := by omega
    refine ⟨by omega, by omega, ?_⟩
    by_cases h24 : n4 = 24
    · right
      have : n100' = 3 := by
        by_contra hne
        have := b8 h24 (by omega)
        omega
      omega
    · left
      omega

/-- The cycle steps of `absDate` invert the sum of `daysSinceEpoch`, and the day of the
year stays within the year. -/
theorem cycle_spec (d : Nat) :
    time.cycleDays (time.cycleYears d) + time.cycleDay d = d ∧
    time.cycleYears d ≤ d ∧
    (time.cycleDay d < 365 ∨
      (time.cycleDay d = 365 ∧ (time.cycleYears d + 1) % 4 = 0 ∧
        ((time.cycleYears d + 1) % 100 ≠ 0 ∨ (time.cycleYears d + 1) % 400 = 0))) :=
  cycle_arith d

set_option maxRecDepth 1000000 in
/-- Month and day computed from a day of the year are a date of the calendar and give
the day of the year back. -/
theorem monthDay_spec : ∀ (leap : Bool) (yday : Fin 366), (yday.val < 365 ∨ leap = true) →
    1 ≤ (time.monthDay leap yday.val).1 ∧ (time.monthDay leap yday.val).1 ≤ 12 ∧
    1 ≤ (time.monthDay leap yday.val).2 ∧ (time.monthDay leap yday.val).2 ≤ 31 ∧
    (time.monthDay leap yday.val).2 ≤
      (if (time.monthDay leap yday.val).1 = 2 ∧ leap = true then 29
       else time.daysBefore.getD (time.monthDay leap yday.val).1 0
         - time.daysBefore.getD ((time.monthDay leap yday.val).1 - 1) 0) ∧
    time.daysBefore.getD ((time.monthDay leap yday.val).1 - 1) 0
      + (if leap = true ∧ (time.monthDay leap yday.val).1 ≥ 3 then 1 else 0)
      + ((time.monthDay leap yday.val).2 - 1) = yday.val := by
  decide

theorem absClock_spec (abs : Nat) :
    (time.absClock abs).hour < 24 ∧ (time.absClock abs).min < 60 ∧ (time.absClock abs).sec < 60 ∧
    (time.absClock abs).hour * time.secondsPerHour
      + (time.absClock abs).min * time.secondsPerMinute + (time.absClock abs).sec
      = abs % time.secondsPerDay := by
  simp only [time.absClock, time.secondsPerDay, time.secondsPerHour, time.secondsPerMinute]
  omega

/-- The date and the clock of `abs`, put together again by `Date`, give `abs` back; the
month and the day are in the range that `Parse` checks. -/
theorem Date_absDate (abs : Nat) (h : abs < 2 ^ 64) (nsec : Fin 1000000000) :
    time.Date (time.absDate abs).year (time.absDate abs).month (time.absDate abs).day
        (time.absClock abs).hour (time.absClock abs).min (time.absClock abs).sec nsec
      = { sec := (abs : Int) - time.internalToAbsolute, nsec := nsec, offset := 0 } ∧
    1 ≤ (time.absDate abs).month ∧ (time.absDate abs).month ≤ 12 ∧
    1 ≤ (time.absDate abs).day ∧ (time.absDate abs).day ≤ 31 ∧
    (time.absDate abs).day ≤ time.daysIn (time.absDate abs).month (time.absDate abs).year := by
  rw [absDate_eq]
  obtain ⟨hc1, hc2, hc3⟩ := cycle_spec (abs / time.secondsPerDay)
  obtain ⟨hk1, hk2, hk3, hk4⟩ := absClock_spec abs
  generalize hY : time.cycleYears (abs / time.secondsPerDay) = Y at hc1 hc2 hc3 ⊢
  generalize hyd : time.cycleDay (abs / time.secondsPerDay) = yd at hc1 hc3 ⊢
  have hdle : abs / time.secondsPerDay ≤ abs := Nat.div_le_self _ _
  have hY64 : Y < 2 ^ 64 := by omega
  have hleap : yd < 365 ∨ time.isLeap ((Y : Int) + time.absoluteZeroYear) = true := by
    rcases hc3 with h1 | ⟨_, h4, h100⟩
    · exact Or.inl h1
    · right
      rw [isLeap_eq]
      simp only [Bool.and_eq_true, Bool.or_eq_true, decide_eq_true_eq]
      exact ⟨h4, h100⟩
  have hyd366 : yd < 366 := by
    rcases hc3 with h1 | ⟨h1, _⟩ <;> omega
  have hm := monthDay_spec (time.isLeap ((Y : Int) + time.absoluteZeroYear)) ⟨yd, hyd366⟩ hleap
  simp only at hm
  generalize hl : time.isLeap ((Y : Int) + time.absoluteZeroYear) = leap at hm hleap ⊢
  generalize hmd : time.monthDay leap yd = md at hm ⊢
  obtain ⟨m, dd⟩ := md
  simp only at hm ⊢
  obtain ⟨hm1, hm2, hm3, hm31, hm4, hm5⟩ := hm
  refine ⟨?_, hm1, hm2, hm3, hm31, ?_⟩
  · unfold time.Date
    rw [daysSinceEpoch_eq Y hY64]
    simp only [time.Time.mk.injEq, and_true, hl]
    have hdiv := Nat.div_add_mod abs time.secondsPerDay
    have hsum : (if leap = true ∧ m ≥ 3 then
        time.cycleDays Y + time.daysBefore.getD (m - 1) 0 + 1
        else time.cycleDays Y + time.daysBefore.getD (m - 1) 0) + (dd - 1)
        = abs / time.secondsPerDay := by
      split_ifs at hm5 ⊢ <;> omega
    rw [hsum, hk4]
    have : abs / time.secondsPerDay * time.secondsPerDay + abs % time.secondsPerDay = abs := by
      rw [Nat.mul_comm]; exact hdiv
    rw [this]
  · unfold time.daysIn
    rw [hl]
    exact hm4

/-! ## The fraction of a second -/

theorem digitsAcc_append (l : List Byte) (c : Byte) (x : Nat) :
    time.digitsAcc (l ++ [c]) x = time.digitsAcc l x * 10 + (c.val - 48) := by
  induction l generalizing x with
  | nil => rfl
  | cons a l ih => exact ih (x * 10 + (a.val - 48))

theorem le_digitsAcc (l : List Byte) (x : Nat) : x ≤ time.digitsAcc l x := by
  induction l generalizing x with
  | nil => exact Nat.le_refl _
  | cons a l ih =>
    simp only [time.digitsAcc]
    have := ih (x * 10 + (a.val - 48))
    omega

theorem nanoBuf_length (k u : Nat) : (time.nanoBuf k u).length = k := by
  induction k generalizing u with
  | zero => rfl
  | succ k ih => simp [time.nanoBuf, ih]

theorem nanoBuf_digits (k u : Nat) : ∀ c ∈ time.nanoBuf k u, time.isDigit c = true := by
  induction k generalizing u with
  | zero => intro c hc; simp [time.nanoBuf] at hc
  | succ k ih =>
    intro c hc
    simp only [time.nanoBuf, List.mem_append, List.mem_singleton] at hc
    rcases hc with hc | hc
    · exact ih _ c hc
    · rw [hc]
      exact isDigit_digit _ (Nat.mod_lt _ (by decide))

theorem nanoBuf_value (k u : Nat) : time.digitsAcc (time.nanoBuf k u) 0 = u % 10 ^ k := by
  induction k generalizing u with
  | zero => simp [time.nanoBuf, time.digitsAcc, Nat.mod_one]
  | succ k ih =>
    simp only [time.nanoBuf, digitsAcc_append, ih, digit_val _ (Nat.mod_lt u (by decide : 0 < 10)),
      Nat.add_sub_cancel_left]
    rw [pow_succ, Nat.mul_comm (10 ^ k) 10, Nat.mod_mul]
    omega

theorem trimZeros_append (l : List Byte) (c : Byte) :
    time.trimZeros (l ++ [c]) = if c = 48 then time.trimZeros l else l ++ [c] := by
  induction l with
  | nil =>
    show (match time.trimZeros [] with
      | [] => if c = 48 then [] else [c]
      | r => c :: r) = _
    rfl
  | cons a l ih =>
    show (match time.trimZeros (l ++ [c]) with
      | [] => if a = 48 then [] else [a]
      | r => a :: r) = _
    rw [ih]
    by_cases hc : c = 48
    · rw [if_pos hc, if_pos hc]
      rfl
    · rw [if_neg hc, if_neg hc]
      cases l <;> rfl

/-- The trimmed digits of a non-zero fraction: they are digits, there is at least one, and
their number scaled by the trimmed zeros is the fraction. -/
theorem trimZeros_nanoBuf (k : Nat) : ∀ u, 0 < u → u < 10 ^ k →
    time.trimZeros (time.nanoBuf k u) ≠ [] ∧
    (∀ c ∈ time.trimZeros (time.nanoBuf k u), time.isDigit c = true) ∧
    (time.trimZeros (time.nanoBuf k u)).length ≤ k ∧
    time.digitsAcc (time.trimZeros (time.nanoBuf k u)) 0
      * 10 ^ (k - (time.trimZeros (time.nanoBuf k u)).length) = u := by
  induction k with
  | zero => intro u h0 h1; simp at h1; omega
  | succ k ih =>
    intro u h0 h1
    simp only [time.nanoBuf, trimZeros_append]
    by_cases hz : u % 10 = 0
    · have hd : time.digit (u % 10) = 48 := by rw [hz]; rfl
      simp only [hd, if_true]
      have hu : u / 10 < 10 ^ k := by
        rw [pow_succ] at h1
        omega
      obtain ⟨i1, i2, i3, i4⟩ := ih (u / 10) (by omega) hu
      refine ⟨i1, i2, by omega, ?_⟩
      have e : k + 1 - (time.trimZeros (time.nanoBuf k (u / 10))).length
          = (k - (time.trimZeros (time.nanoBuf k (u / 10))).length) + 1 := by omega
      rw [e, pow_succ, ← Nat.mul_assoc, i4]
      omega
    · have hd : time.digit (u % 10) ≠ 48 := by
        intro e
        have hv := congrArg Fin.val e
        rw [digit_val _ (Nat.mod_lt u (by decide : 0 < 10))] at hv
        have : ((48 : Byte) : Nat) = 48 := rfl
        omega
      simp only [hd, if_false]
      have hb := nanoBuf_digits (k + 1) u
      have hl := nanoBuf_length (k + 1) u
      have hv := nanoBuf_value (k + 1) u
      simp only [time.nanoBuf] at hb hl hv
      refine ⟨by simp, hb, by omega, ?_⟩
      rw [hl, hv, Nat.sub_self, pow_zero, Nat.mul_one, Nat.mod_eq_of_lt h1]

theorem trimZeros_nanoBuf_zero (k : Nat) : time.trimZeros (time.nanoBuf k 0) = [] := by
  induction k with
  | zero => rfl
  | succ k ih =>
    simp only [time.nanoBuf, trimZeros_append]
    have hd : time.digit (0 % 10) = 48 := rfl
    simp only [hd, if_true]
    exact ih

theorem leadingInt_digits (ds : List Byte) (hds : ∀ c ∈ ds, time.isDigit c = true) (x : Nat)
    (hx : time.digitsAcc ds x < 2 ^ 63) :
    time.leadingInt ds x = .ok (time.digitsAcc ds x, []) := by
  induction ds generalizing x with
  | nil => rfl
  | cons c ds ih =>
    have hc : time.isDigit c = true := hds c (List.mem_cons_self _ _)
    have hle := le_digitsAcc ds (x * 10 + (c.val - 48))
    simp only [time.digitsAcc] at hx ⊢
    rw [time.leadingInt]
    simp only [hc, Bool.not_true, Bool.false_eq_true, if_false]
    rw [if_neg (by omega), if_neg (by omega)]
    exact ih (fun c' h' => hds c' (List.mem_cons_of_mem _ h')) _ hx

theorem digitRun_append (ds rest : List Byte) (hds : ∀ c ∈ ds, time.isDigit c = true)
    (hrest : ∀ c r, rest = c :: r → time.isDigit c = false) :
    time.digitRun (ds ++ rest) = ds.length := by
  induction ds with
  | nil =>
    cases rest with
    | nil => rfl
    | cons c r => simp [time.digitRun, hrest c r rfl]
  | cons c ds ih =>
    have hc : time.isDigit c = true := hds c (List.mem_cons_self _ _)
    show (if time.isDigit c = true then time.digitRun (ds ++ rest) + 1 else 0) = _
    rw [if_pos hc, ih (fun c' h' => hds c' (List.mem_cons_of_mem _ h'))]
    rfl

theorem formatNano_append (b : List Byte) (n : Nat) :
    time.formatNano b n = b ++ time.formatNano [] n := by
  unfold time.formatNano
  simp only []
  split <;> simp

/-- Reading back the fraction of a second, whatever follows it, a zone. -/
theorem parseFrac_formatNano (n : Nat) (hn : n < 1000000000) (rest : List Byte)
    (hrest : ∀ c r, rest = c :: r → time.isDigit c = false ∧ c ≠ 46 ∧ c ≠ 44) :
    time.parseFrac (time.formatNano [] n ++ rest) = .ok (n, rest) := by
  by_cases h0 : n = 0
  · subst h0
    have e : time.formatNano [] 0 = [] := by
      unfold time.formatNano
      simp only [trimZeros_nanoBuf_zero, List.length_nil, if_true]
    rw [e, List.nil_append]
    unfold time.parseFrac
    match rest, hrest with
    | [], _ => rfl
    | [_], _ => rfl
    | c :: d :: r, hrest =>
      have hc := (hrest c (d :: r) rfl).2
      have hcp : time.commaOrPeriod c = false := by
        simp [time.commaOrPeriod, hc.1, hc.2]
      simp only [hcp, Bool.false_eq_true, false_and, if_false]
  · obtain ⟨t1, t2, t3, t4⟩ := trimZeros_nanoBuf 9 n (by omega) (by omega)
    generalize hds : time.trimZeros (time.nanoBuf 9 n) = ds at t1 t2 t3 t4
    have e : time.formatNano [] n = 46 :: ds := by
      unfold time.formatNano
      simp only [hds]
      rw [if_neg (by
        intro hl
        exact t1 (List.length_eq_zero.mp hl))]
      rfl
    rw [e]
    obtain ⟨d0, ds', rfl⟩ := List.exists_cons_of_ne_nil t1
    have hd0 : time.isDigit d0 = true := t2 d0 (List.mem_cons_self _ _)
    have hrun : time.digitRun ((d0 :: ds') ++ rest) = (d0 :: ds').length :=
      digitRun_append _ _ t2 (fun c r h => (hrest c r h).1)
    have hacc_le : time.digitsAcc (d0 :: ds') 0 ≤ n := by
      have hpos : 0 < 10 ^ (9 - (d0 :: ds').length) := Nat.pow_pos (by decide)
      calc time.digitsAcc (d0 :: ds') 0
          ≤ time.digitsAcc (d0 :: ds') 0 * 10 ^ (9 - (d0 :: ds').length) :=
            Nat.le_mul_of_pos_right _ hpos
        _ = n := t4
    have hlead := leadingInt_digits (d0 :: ds') t2 0 (by omega)
    have h45 : d0 ≠ 45 := by
      intro h
      rw [h] at hd0
      exact absurd hd0 (by decide)
    have h43 : d0 ≠ 43 := by
      intro h
      rw [h] at hd0
      exact absurd hd0 (by decide)
    have hatoi : time.atoi (d0 :: ds') = .ok ((time.digitsAcc (d0 :: ds') 0 : Nat) : Int) := by
      unfold time.atoi
      simp only [h45, h43, decide_False, or_self, if_false, hlead, ne_eq, not_true_eq_false,
        Bool.false_eq_true]
    have hlen : (d0 :: ds').length = ds'.length + 1 := rfl
    rw [hlen] at t3 t4
    show time.parseFrac (46 :: d0 :: (ds' ++ rest)) = _
    unfold time.parseFrac
    have hcp : time.commaOrPeriod 46 = true := rfl
    simp only [hcp, hd0, and_self, if_true, List.drop_succ_cons, List.drop_zero]
    have hrun' : time.digitRun (d0 :: (ds' ++ rest)) = ds'.length + 1 := hrun
    rw [hrun']
    unfold time.parseNanoseconds
    simp only [hcp, Bool.not_true, Bool.false_eq_true, if_false]
    rw [if_neg (by omega : ¬ (1 + (ds'.length + 1) > 10))]
    have htake : (d0 :: (ds' ++ rest)).take (1 + (ds'.length + 1) - 1) = d0 :: ds' := by
      have : 1 + (ds'.length + 1) - 1 = (d0 :: ds').length := by simp
      rw [this]
      exact List.take_left' rfl
    rw [htake, hatoi]
    simp only []
    rw [if_neg (by omega)]
    have hexp : 10 - (1 + (ds'.length + 1)) = 9 - (ds'.length + 1) := by omega
    have hdrop : List.drop (1 + (ds'.length + 1)) (46 :: d0 :: (ds' ++ rest)) = rest := by
      have : 1 + (ds'.length + 1) = ([46, d0] ++ ds').length := by simp; omega
      rw [this]
      exact List.drop_left' rfl
    simp only [Int.toNat_ofNat, hexp, t4, hdrop]

/-! ## The zone -/

theorem appendInt_append (b : List Byte) (x : Int) (w : Nat) :
    time.appendInt b x w = b ++ time.appendInt [] x w := by
  unfold time.appendInt
  simp only []
  split <;> simp

theorem appendZone_append (b : List Byte) (off : Int) :
    time.appendZone b off = b ++ time.appendZone [] off := by
  unfold time.appendZone
  by_cases h0 : off = 0
  · simp only [h0, if_true, List.nil_append]
  · simp only [h0, if_false]
    by_cases hz : Int.tdiv off 60 < 0
    · simp only [hz, if_true]
      rw [appendInt_append (time.appendInt (b ++ [45]) _ 2 ++ [58]),
        appendInt_append (b ++ [45]),
        appendInt_append (time.appendInt ([] ++ [45]) _ 2 ++ [58]),
        appendInt_append ([] ++ [45])]
      simp only [List.append_assoc, List.nil_append]
    · simp only [hz, if_false]
      rw [appendInt_append (time.appendInt (b ++ [43]) _ 2 ++ [58]),
        appendInt_append (b ++ [43]),
        appendInt_append (time.appendInt ([] ++ [43]) _ 2 ++ [58]),
        appendInt_append ([] ++ [43])]
      simp only [List.append_assoc, List.nil_append]

theorem appendZone_zero : time.appendZone [] 0 = [90] := rfl

/-- The zone text of an offset of `z` minutes east. -/
theorem appendZone_east (z : Nat) (h0 : 0 < z) (h1 : z < 6000) :
    time.appendZone [] (((60 * z : Nat) : Int))
      = [43, time.digit (z / 60 / 10), time.digit (z / 60 % 10), 58,
         time.digit (z % 60 / 10), time.digit (z % 60 % 10)] := by
  unfold time.appendZone
  have hne : ¬ (((60 * z : Nat) : Int) = 0) := by omega
  have hz : Int.tdiv ((60 * z : Nat) : Int) 60 = (z : Int) := by
    rw [Int.tdiv_eq_ediv (by omega) (by decide)]
    omega
  simp only [hne, if_false, hz]
  have hnn : ¬ ((z : Int) < 0) := by omega
  simp only [hnn, if_false]
  have e1 : Int.tdiv (z : Int) 60 = ((z / 60 : Nat) : Int) := (Int.ofNat_tdiv z 60).symm
  have e2 : Int.tmod (z : Int) 60 = ((z % 60 : Nat) : Int) := (Int.ofNat_tmod z 60).symm
  rw [e1, e2, appendInt_two _ _ (by omega), appendInt_two _ _ (by omega)]
  simp

/-- The zone text of an offset of `z` minutes west. -/
theorem appendZone_west (z : Nat) (h0 : 0 < z) (h1 : z < 6000) :
    time.appendZone [] (-((60 * z : Nat) : Int))
      = [45, time.digit (z / 60 / 10), time.digit (z / 60 % 10), 58,
         time.digit (z % 60 / 10), time.digit (z % 60 % 10)] := by
  unfold time.appendZone
  have hne : ¬ (-((60 * z : Nat) : Int) = 0) := by omega
  have hz : Int.tdiv (-((60 * z : Nat) : Int)) 60 = -(z : Int) := by
    rw [Int.neg_tdiv, Int.tdiv_eq_ediv (by omega) (by decide)]
    omega
  simp only [hne, if_false, hz]
  have hneg : (-(z : Int) < 0) := by omega
  simp only [hneg, if_true, neg_neg]
  have e1 : Int.tdiv (z : Int) 60 = ((z / 60 : Nat) : Int) := (Int.ofNat_tdiv z 60).symm
  have e2 : Int.tmod (z : Int) 60 = ((z % 60 : Nat) : Int) := (Int.ofNat_tmod z 60).symm
  rw [e1, e2, appendInt_two _ _ (by omega), appendInt_two _ _ (by omega)]
  simp

theorem parseZone_Z (rest : List Byte) : time.parseZone (90 :: rest) = .ok (none, rest) := by
  rfl

/-- Reading back the zone text of `z` minutes, below 24 hours, east (`sign` 43) or west
(`sign` 45). -/
theorem parseZone_numeric (z : Nat) (h1 : z < 1440) (rest : List Byte) :
    time.parseZone ([43, time.digit (z / 60 / 10), time.digit (z / 60 % 10), 58,
        time.digit (z % 60 / 10), time.digit (z % 60 % 10)] ++ rest)
      = .ok (some ((60 * z : Nat) : Int), rest) ∧
    time.parseZone ([45, time.digit (z / 60 / 10), time.digit (z / 60 % 10), 58,
        time.digit (z % 60 / 10), time.digit (z % 60 % 10)] ++ rest)
      = .ok (some (-((60 * z : Nat) : Int)), rest) := by
  have a1 := getnum_two (z / 60 / 10) (z / 60 % 10) (by omega) (by omega) [] true
  have a2 := getnum_two (z % 60 / 10) (z % 60 % 10) (by omega) (by omega) [] true
  have ez : (z / 60 / 10 * 10 + z / 60 % 10) * 60 + (z % 60 / 10 * 10 + z % 60 % 10) = z := by
    omega
  have ez60 : ((z / 60 / 10 * 10 + z / 60 % 10) * 60 + (z % 60 / 10 * 10 + z % 60 % 10)) * 60
      = 60 * z := by
    rw [ez, Nat.mul_comm]
  have c1 : ¬ (z % 60 / 10 * 10 + z % 60 % 10 > 60) := by omega
  have c2 : ¬ (z / 60 / 10 * 10 + z / 60 % 10 > 24) := by omega
  constructor
  · unfold time.parseZone
    simp only [List.cons_append, List.nil_append, List.length_cons, List.drop_succ_cons,
      List.drop_zero, List.take_succ_cons, List.take_zero, List.getD_cons_succ,
      List.getD_cons_zero, a1, a2, c1, c2, if_false, ez60]
    simp
  · unfold time.parseZone
    simp only [List.cons_append, List.nil_append, List.length_cons, List.drop_succ_cons,
      List.drop_zero, List.take_succ_cons, List.take_zero, List.getD_cons_succ,
      List.getD_cons_zero, a1, a2, c1, c2, if_false, ez60]
    simp

/-! ## Parsing the formatted time -/

theorem skip_cons (c : Byte) (rest : List Byte) : time.skip c (c :: rest) = .ok rest := by
  simp only [time.skip, if_true]

theorem two_digits (x : Nat) : x / 10 * 10 + x % 10 = x := by omega

theorem four_digits (x : Nat) :
    x / 1000 * 1000 + x / 100 % 10 * 100 + x / 10 % 10 * 10 + x % 10 = x := by omega

/-- The steps of `Parse` on a text made of the zero-padded fields, a fraction and a zone
text that `parseZone` reads as `zone`. -/
theorem Parse_fields (Y Mo D H Mi S n : Nat) (ztext : List Byte) (zone : Option Int)
    (hY : Y < 10000) (hMo1 : 1 ≤ Mo) (hMo2 : Mo ≤ 12) (hD1 : 1 ≤ D) (hD2 : D ≤ time.daysIn Mo Y)
    (hD3 : D < 100) (hH : H < 24) (hMi : Mi < 60) (hS : S < 60) (hn : n < 1000000000)
    (hz : time.parseZone (ztext ++ [34]) = .ok (zone, [34]))
    (hzhead : ∀ c r, ztext ++ [34] = c :: r → time.isDigit c = false ∧ c ≠ 46 ∧ c ≠ 44) :
    time.Parse ([34, time.digit (Y / 1000), time.digit (Y / 100 % 10), time.digit (Y / 10 % 10),
        time.digit (Y % 10), 45, time.digit (Mo / 10), time.digit (Mo % 10), 45,
        time.digit (D / 10), time.digit (D % 10), 84, time.digit (H / 10), time.digit (H % 10),
        58, time.digit (Mi / 10), time.digit (Mi % 10), 58, time.digit (S / 10),
        time.digit (S % 10)] ++ (time.formatNano [] n ++ (ztext ++ [34])))
      = .ok (match zone with
        | none => time.Date Y Mo D H Mi S (Fin.ofNat n)
        | some zoneOffset =>
          { time.Date Y Mo D H Mi S (Fin.ofNat n) with
            sec := (time.Date Y Mo D H Mi S (Fin.ofNat n)).sec - zoneOffset,
            offset := zoneOffset }) := by
  have hyear := atoi_four (Y / 1000) (Y / 100 % 10) (Y / 10 % 10) (Y % 10)
    (by omega) (by omega) (by omega) (by omega)
  rw [four_digits Y] at hyear
  have hd3 : time.isDigit (time.digit (Y / 1000)) = true := isDigit_digit _ (by omega)
  have hmo := getnum_two (Mo / 10) (Mo % 10) (by omega) (by omega)
  have hdd := getnum_two (D / 10) (D % 10) (by omega) (by omega)
  have hhh := getnum_two (H / 10) (H % 10) (by omega) (by omega)
  have hmi := getnum_two (Mi / 10) (Mi % 10) (by omega) (by omega)
  have hss := getnum_two (S / 10) (S % 10) (by omega) (by omega)
  simp only [two_digits] at hmo hdd hhh hmi hss
  have hfrac := parseFrac_formatNano n hn (ztext ++ [34]) hzhead
  unfold time.Parse
  simp only [List.cons_append, List.nil_append, skip_cons, List.length_cons, List.getD_cons_zero,
    hd3, List.take_succ_cons, List.take_zero, hyear, List.drop_succ_cons, List.drop_zero,
    hmo, hdd, hhh, hmi, hss, hfrac, hz]
  have c1 : ¬ ((time.formatNano [] n ++ (ztext ++ [34])).length + 1 + 1 + 1 + 1 + 1 + 1 + 1 + 1
      + 1 + 1 + 1 + 1 + 1 + 1 + 1 + 1 + 1 + 1 + 1 < 4 ∨ (!true) = true) := by
    simp
  have c2 : ¬ (Mo = 0 ∨ 12 < Mo) := by omega
  have c3 : ¬ (24 ≤ H) := by omega
  have c4 : ¬ (60 ≤ Mi) := by omega
  have c5 : ¬ (60 ≤ S) := by omega
  have c6 : ¬ (D < 1 ∨ D > time.daysIn Mo Y) := by omega
  simp only [c1, c2, c3, c4, c5, c6, if_false, ne_eq, not_true_eq_false]
  cases zone <;> rfl

theorem cycleDays_le (y : Nat) : time.cycleDays y ≤ 366 * y := by
  unfold time.cycleDays time.daysPer400Years time.daysPer100Years time.daysPer4Years
  simp only []
  omega

/-- A year below 10000 bounds the seconds since the absolute epoch. -/
theorem abs_lt_of_year (abs : Nat) (h : (time.absDate abs).year < 10000) :
    abs < 9242501229365846400 := by
  rw [absDate_eq] at h
  simp only [time.absoluteZeroYear] at h
  obtain ⟨hc1, _, hc3⟩ := cycle_spec (abs / time.secondsPerDay)
  have hle := cycleDays_le (time.cycleYears (abs / time.secondsPerDay))
  have hyd : time.cycleDay (abs / time.secondsPerDay) ≤ 365 := by
    rcases hc3 with h1 | ⟨h1, _⟩ <;> omega
  have hd : abs / time.secondsPerDay < 106973393858401 := by omega
  simp only [time.secondsPerDay, time.secondsPerHour, time.secondsPerMinute] at hd
  omega

theorem Fin_ofNat_val (x : Fin 1000000000) : (Fin.ofNat x.val : Fin 1000000000) = x := by
  apply Fin.ext
  show x.val % 1000000000 = x.val
  exact Nat.mod_eq_of_lt x.isLt

/-- Parsing the RFC 3339 text of a time gives the time back: the same instant and the
same offset, for a year from 0 to 9999 and an offset of whole minutes below 24 hours. -/
theorem Parse_AppendFormat (t : time.Time) (hr : t.inRange) (hy0 : 0 ≤ t.Year)
    (hy1 : t.Year < 10000) (hmod : t.offset % 60 = 0)
    (hb : -86400 < t.offset ∧ t.offset < 86400) :
    time.Parse (time.Time.AppendFormat [34] t ++ [34]) = .ok t := by
  have habs_lt := abs_lt_of_year t.abs hy1
  obtain ⟨hr1, hr2⟩ := hr
  have hA : (t.abs : Int) = t.sec + t.offset + time.internalToAbsolute := by
    unfold time.Time.abs time.internalToAbsolute at habs_lt ⊢
    omega
  have habs64 : t.abs < 2 ^ 64 := by omega
  obtain ⟨hdate, hmo1, hmo2, hd1, hd31, hdin⟩ := Date_absDate t.abs habs64 t.nsec
  obtain ⟨hk1, hk2, hk3, _⟩ := absClock_spec t.abs
  unfold time.Time.Year at hy0 hy1
  unfold time.Time.AppendFormat
  simp only []
  generalize time.absDate t.abs = date at hdate hmo1 hmo2 hd1 hd31 hdin hy0 hy1 ⊢
  generalize time.absClock t.abs = clock at hdate hk1 hk2 hk3 ⊢
  obtain ⟨year, month, day, yday⟩ := date
  obtain ⟨hour, min, sec⟩ := clock
  simp only at hdate hmo1 hmo2 hd1 hd31 hdin hy0 hy1 hk1 hk2 hk3 ⊢
  obtain ⟨Y, rfl⟩ := Int.eq_ofNat_of_zero_le hy0
  have hY : Y < 10000 := by omega
  rw [appendZone_append, formatNano_append, appendInt_two _ sec (by omega),
    appendInt_two _ min (by omega), appendInt_two _ hour (by omega),
    appendInt_two _ day (by omega), appendInt_two _ month (by omega), appendInt_four _ Y hY]
  have hshape : ∀ (ztext : List Byte),
      ((((((((((([34] ++ [time.digit (Y / 1000), time.digit (Y / 100 % 10),
        time.digit (Y / 10 % 10), time.digit (Y % 10)]) ++ [45])
        ++ [time.digit (month / 10), time.digit (month % 10)]) ++ [45])
        ++ [time.digit (day / 10), time.digit (day % 10)]) ++ [84])
        ++ [time.digit (hour / 10), time.digit (hour % 10)]) ++ [58])
        ++ [time.digit (min / 10), time.digit (min % 10)]) ++ [58])
        ++ [time.digit (sec / 10), time.digit (sec % 10)]) ++ time.formatNano [] t.nsec.val
        ++ ztext ++ [34]
      = [34, time.digit (Y / 1000), time.digit (Y / 100 % 10), time.digit (Y / 10 % 10),
        time.digit (Y % 10), 45, time.digit (month / 10), time.digit (month % 10), 45,
        time.digit (day / 10), time.digit (day % 10), 84, time.digit (hour / 10),
        time.digit (hour % 10), 58, time.digit (min / 10), time.digit (min % 10), 58,
        time.digit (sec / 10), time.digit (sec % 10)]
        ++ (time.formatNano [] t.nsec.val ++ (ztext ++ [34])) := by
    intro ztext
    simp only [List.append_assoc, List.cons_append, List.nil_append]
  rw [hshape]
  have hfields := fun ztext zone hz hzhead =>
    Parse_fields Y month day hour min sec t.nsec.val ztext zone hY hmo1 hmo2 hd1 hdin
      (by omega) hk1 hk2 hk3 t.nsec.isLt hz hzhead
  by_cases h0 : t.offset = 0
  · rw [h0, appendZone_zero]
    rw [hfields [90] none rfl (by
      intro c r h
      simp only [List.cons_append, List.nil_append, List.cons.injEq] at h
      rw [← h.1]
      exact ⟨by decide, by decide, by decide⟩)]
    simp only [hdate, Fin_ofNat_val]
    congr 1
    obtain ⟨s, n, o⟩ := t
    simp only at h0 hA ⊢
    subst h0
    simp only [time.Time.mk.injEq, and_true]
    omega
  · have hhead : ∀ (sgn : Byte) (rest0 : List Byte), (sgn = 43 ∨ sgn = 45) →
        ∀ c r, (sgn :: rest0) ++ [34] = c :: r →
          time.isDigit c = false ∧ c ≠ 46 ∧ c ≠ 44 := by
      intro sgn rest0 hs c r h
      simp only [List.cons_append, List.cons.injEq] at h
      rw [← h.1]
      rcases hs with hs | hs <;> rw [hs] <;> exact ⟨by decide, by decide, by decide⟩
    by_cases hpos : 0 < t.offset
    · obtain ⟨z, hz⟩ : ∃ z : Nat, t.offset = ((60 * z : Nat) : Int) :=
        ⟨(t.offset / 60).toNat, by omega⟩
      have hz0 : 0 < z := by omega
      have hz1 : z < 1440 := by omega
      rw [hz, appendZone_east z hz0 (by omega)]
      rw [hfields _ (some ((60 * z : Nat) : Int)) (parseZone_numeric z hz1 [34]).1
        (hhead 43 _ (Or.inl rfl))]
      simp only [hdate, Fin_ofNat_val]
      congr 1
      obtain ⟨s, n, o⟩ := t
      simp only at hz hA ⊢
      subst hz
      simp only [time.Time.mk.injEq, and_true]
      omega
    · obtain ⟨z, hz⟩ : ∃ z : Nat, t.offset = -((60 * z : Nat) : Int) :=
        ⟨(-t.offset / 60).toNat, by omega⟩
      have hz0 : 0 < z := by omega
      have hz1 : z < 1440 := by omega
      rw [hz, appendZone_west z hz0 (by omega)]
      rw [hfields _ (some (-((60 * z : Nat) : Int))) (parseZone_numeric z hz1 [34]).2
        (hhead 45 _ (Or.inr rfl))]
      simp only [hdate, Fin_ofNat_val]
      congr 1
      obtain ⟨s, n, o⟩ := t
      simp only at hz hA ⊢
      subst hz
      simp only [time.Time.mk.injEq, and_true]
      omega

/-! ## The bytes of the texts -/

theorem plain_digit (n : Nat) (h : n < 10) : json.plain (time.digit n) := by
  have hv := digit_val n h
  refine ⟨?_, by omega, ?_, by omega⟩
  · exact digit_ne n h 34 (Or.inl (by decide))
  · exact digit_ne n h 92 (Or.inr (by decide))

theorem revDigits_plain (fuel u : Nat) : ∀ c ∈ time.revDigits fuel u, json.plain c := by
  induction fuel generalizing u with
  | zero => intro c hc; simp [time.revDigits] at hc
  | succ fuel ih =>
    intro c hc
    by_cases h : 10 ≤ u
    · rw [revDigits_step _ _ h] at hc
      rcases List.mem_cons.mp hc with hc | hc
      · rw [hc]; exact plain_digit _ (Nat.mod_lt _ (by decide))
      · exact ih _ c hc
    · rw [revDigits_small _ _ (by omega)] at hc
      rw [List.mem_singleton.mp hc]
      exact plain_digit _ (by omega)

theorem appendInt_plain (x : Int) (w : Nat) : ∀ c ∈ time.appendInt [] x w, json.plain c := by
  intro c hc
  unfold time.appendInt at hc
  simp only [List.mem_append, List.mem_replicate, List.mem_reverse] at hc
  rcases hc with (hc | hc) | hc
  · split at hc
    · simp only [List.nil_append, List.mem_singleton] at hc
      rw [hc]; decide
    · simp at hc
  · rw [hc.2]; decide
  · exact revDigits_plain _ _ c hc

theorem trimZeros_subset (l : List Byte) : ∀ c ∈ time.trimZeros l, c ∈ l := by
  induction l with
  | nil => intro c hc; simp [time.trimZeros] at hc
  | cons a l ih =>
    intro c hc
    rw [time.trimZeros] at hc
    split at hc
    · split at hc
      · simp at hc
      · rw [List.mem_singleton.mp hc]; exact List.mem_cons_self _ _
    · rename_i r hr
      rcases List.mem_cons.mp hc with h | h
      · rw [h]; exact List.mem_cons_self _ _
      · exact List.mem_cons_of_mem _ (ih c h)

theorem nanoBuf_plain (k u : Nat) : ∀ c ∈ time.nanoBuf k u, json.plain c := by
  induction k generalizing u with
  | zero => intro c hc; simp [time.nanoBuf] at hc
  | succ k ih =>
    intro c hc
    simp only [time.nanoBuf, List.mem_append, List.mem_singleton] at hc
    rcases hc with hc | hc
    · exact ih _ c hc
    · rw [hc]; exact plain_digit _ (Nat.mod_lt _ (by decide))

theorem formatNano_plain (n : Nat) : ∀ c ∈ time.formatNano [] n, json.plain c := by
  intro c hc
  unfold time.formatNano at hc
  simp only [] at hc
  split at hc
  · simp at hc
  · simp only [List.nil_append, List.singleton_append, List.mem_cons] at hc
    rcases hc with hc | hc
    · rw [hc]; decide
    · exact nanoBuf_plain 9 n c (trimZeros_subset _ c hc)

theorem appendZone_plain (off : Int) : ∀ c ∈ time.appendZone [] off, json.plain c := by
  intro c hc
  unfold time.appendZone at hc
  split at hc
  · simp only [List.nil_append, List.mem_singleton] at hc
    rw [hc]; decide
  · simp only [] at hc
    rw [appendInt_append, appendInt_append (ite _ _ _)] at hc
    simp only [List.mem_append, List.mem_singleton] at hc
    rcases hc with ((hc | hc) | hc) | hc
    · split at hc
      · simp only [List.nil_append, List.mem_singleton] at hc
        rw [hc]; decide
      · simp only [List.nil_append, List.mem_singleton] at hc
        rw [hc]; decide
    · exact appendInt_plain _ _ c hc
    · rw [hc]; decide
    · exact appendInt_plain _ _ c hc

theorem AppendFormat_append (b : List Byte) (t : time.Time) :
    time.Time.AppendFormat b t = b ++ time.Time.AppendFormat [] t := by
  unfold time.Time.AppendFormat
  simp only []
  generalize time.absDate t.abs = date
  generalize time.absClock t.abs = clock
  rw [appendZone_append, formatNano_append, appendInt_append _ _ 2, appendInt_append _ _ 2,
    appendInt_append _ _ 2, appendInt_append _ _ 2, appendInt_append _ _ 2,
    appendInt_append b _ 4]
  rw [appendZone_append (time.formatNano _ _), formatNano_append (time.appendInt _ _ _),
    appendInt_append (_ ++ [58]) _ 2, appendInt_append (_ ++ [58]) _ 2,
    appendInt_append (_ ++ [84]) _ 2, appendInt_append (_ ++ [45]) _ 2,
    appendInt_append (_ ++ [45]) _ 2]
  simp only [List.append_assoc, List.nil_append]

theorem plain_append (l1 l2 : List Byte) (h1 : ∀ c ∈ l1, json.plain c)
    (h2 : ∀ c ∈ l2, json.plain c) : ∀ c ∈ l1 ++ l2, json.plain c := by
  intro c hc
  rcases List.mem_append.mp hc with h | h
  · exact h1 c h
  · exact h2 c h

theorem plain_singleton (a : Byte) (h : json.plain a) : ∀ c ∈ [a], json.plain c := by
  intro c hc
  rw [List.mem_singleton.mp hc]
  exact h

theorem appendInt_plain_of (b : List Byte) (hb : ∀ c ∈ b, json.plain c) (x : Int) (w : Nat) :
    ∀ c ∈ time.appendInt b x w, json.plain c := by
  rw [appendInt_append]
  exact plain_append _ _ hb (appendInt_plain x w)

theorem AppendFormat_plain (t : time.Time) : ∀ c ∈ time.Time.AppendFormat [] t, json.plain c := by
  unfold time.Time.AppendFormat
  simp only []
  rw [appendZone_append, formatNano_append]
  have p45 : json.plain 45 := by decide
  have p84 : json.plain 84 := by decide
  have p58 : json.plain 58 := by decide
  have h1 := appendInt_plain (time.absDate t.abs).year 4
  have h2 := appendInt_plain_of _ (plain_append _ _ h1 (plain_singleton 45 p45))
    (time.absDate t.abs).month 2
  have h3 := appendInt_plain_of _ (plain_append _ _ h2 (plain_singleton 45 p45))
    (time.absDate t.abs).day 2
  have h4 := appendInt_plain_of _ (plain_append _ _ h3 (plain_singleton 84 p84))
    (time.absClock t.abs).hour 2
  have h5 := appendInt_plain_of _ (plain_append _ _ h4 (plain_singleton 58 p58))
    (time.absClock t.abs).min 2
  have h6 := appendInt_plain_of _ (plain_append _ _ h5 (plain_singleton 58 p58))
    (time.absClock t.abs).sec 2
  exact plain_append _ _ (plain_append _ _ h6 (formatNano_plain _)) (appendZone_plain _)

theorem scanString_plain (s rest : List Byte) (h : ∀ c ∈ s, json.plain c) :
    json.scanString (s ++ 34 :: rest) = .ok (s, rest) := by
  induction s with
  | nil => simp [json.scanString]
  | cons a s ih =>
    obtain ⟨h1, h2, h3, h4⟩ := h a (List.mem_cons_self _ _)
    show json.scanString (a :: (s ++ 34 :: rest)) = _
    rw [json.scanString, if_neg h1, if_neg (by omega), if_neg (by
      intro hh
      rcases hh with hh | hh
      · exact h3 hh
      · omega)]
    rw [ih (fun c hc => h c (List.mem_cons_of_mem _ hc))]

set_option maxRecDepth 100000 in
theorem plain_hex : ∀ b : Byte, json.plain (uuid.hexHi b) ∧ json.plain (uuid.hexLo b) := by
  decide

theorem String_plain (u : uuid.UUID) : ∀ c ∈ u.String, json.plain c := by
  obtain ⟨l, hl⟩ := u
  obtain ⟨b0, b1, b2, b3, b4, b5, b6, b7, b8, b9, b10, b11, b12, b13, b14, b15, rfl⟩ :=
    list_length_16 l hl
  rw [String_explicit]
  intro c hc
  simp only [List.mem_cons, List.mem_singleton, List.not_mem_nil, or_false] at hc
  have h45 : json.plain 45 := by decide
  rcases hc with hc | hc | hc | hc | hc | hc | hc | hc | hc | hc | hc | hc | hc | hc | hc | hc
    | hc | hc | hc | hc | hc | hc | hc | hc | hc | hc | hc | hc | hc | hc | hc | hc | hc | hc
    | hc | hc
  all_goals first
    | (rw [hc]; exact (plain_hex _).1)
    | (rw [hc]; exact (plain_hex _).2)
    | (rw [hc]; exact h45)
/-! ## The checks of `MarshalJSON` -/

theorem revDigits_isDigit (fuel u : Nat) :
    ∀ c ∈ time.revDigits fuel u, time.isDigit c = true := by
  induction fuel generalizing u with
  | zero => intro c hc; simp [time.revDigits] at hc
  | succ fuel ih =>
    intro c hc
    by_cases h : 10 ≤ u
    · rw [revDigits_step _ _ h] at hc
      rcases List.mem_cons.mp hc with hc | hc
      · rw [hc]; exact isDigit_digit _ (Nat.mod_lt _ (by decide))
      · exact ih _ c hc
    · rw [revDigits_small _ _ (by omega)] at hc
      rw [List.mem_singleton.mp hc]
      exact isDigit_digit _ (by omega)

/-- A number of more than `k` digits is written with more than `k` digits. -/
theorem revDigits_length_ge (k : Nat) :
    ∀ fuel u, k < fuel → 10 ^ k ≤ u → k + 1 ≤ (time.revDigits fuel u).length := by
  induction k with
  | zero =>
    intro fuel u hf _
    obtain ⟨f, rfl⟩ : ∃ f, fuel = f + 1 := ⟨fuel - 1, by omega⟩
    by_cases h : 10 ≤ u
    · rw [revDigits_step _ _ h]
      simp
    · rw [revDigits_small _ _ (by omega)]
      simp
  | succ k ih =>
    intro fuel u hf hu
    obtain ⟨f, rfl⟩ : ∃ f, fuel = f + 1 := ⟨fuel - 1, by omega⟩
    have h10 : 10 ≤ u := by
      have : 10 ^ 1 ≤ 10 ^ (k + 1) := Nat.pow_le_pow_right (by decide) (by omega)
      omega
    rw [revDigits_step _ _ h10]
    have hu' : 10 ^ k ≤ u / 10 := by
      rw [Nat.le_div_iff_mul_le (by decide)]
      rw [pow_succ] at hu
      exact hu
    have := ih f (u / 10) (by omega) hu'
    simp only [List.length_cons]
    omega

/-- A byte that is a digit is not the minus sign. -/
theorem isDigit_ne_minus (c : Byte) (h : time.isDigit c = true) : c ≠ 45 := by
  intro e
  rw [e] at h
  exact absurd h (by decide)

/-- The year field of a year outside 0 to 9999 is more than four bytes wide, and its
fifth byte is a digit. -/
theorem appendInt_year_out (y : Int) (h : y < 0 ∨ 10000 ≤ y) :
    5 ≤ (time.appendInt [] y 4).length ∧ (time.appendInt [] y 4).getD 4 0 ≠ 45 := by
  have hdig := revDigits_isDigit 20 y.natAbs
  have hlen1 := revDigits_length_ge 0 20 y.natAbs (by decide) (by
    simp only [pow_zero]
    rcases h with h | h <;> omega)
  have hall : ∀ k, ∀ c ∈ List.replicate k (48 : Byte) ++ (time.revDigits 20 y.natAbs).reverse,
      c ≠ 45 := by
    intro k c hc
    rcases List.mem_append.mp hc with hc | hc
    · rw [(List.mem_replicate.mp hc).2]
      decide
    · exact isDigit_ne_minus c (hdig c (List.mem_reverse.mp hc))
  unfold time.appendInt
  simp only []
  rcases h with h | h
  · rw [if_pos h]
    have hq : 4 ≤ (List.replicate (4 - (time.revDigits 20 y.natAbs).reverse.length) (48 : Byte)
        ++ (time.revDigits 20 y.natAbs).reverse).length := by
      simp only [List.length_append, List.length_replicate, List.length_reverse]
      omega
    refine ⟨by
      simp only [List.nil_append, List.append_assoc, List.length_append, List.length_cons,
        List.length_nil] at hq ⊢
      omega, ?_⟩
    have e : ([] ++ [45] ++ List.replicate (4 - (time.revDigits 20 y.natAbs).reverse.length) 48
        ++ (time.revDigits 20 y.natAbs).reverse : List Byte)
        = 45 :: (List.replicate (4 - (time.revDigits 20 y.natAbs).reverse.length) (48 : Byte)
          ++ (time.revDigits 20 y.natAbs).reverse) := by
      simp
    rw [e, List.getD_cons_succ, List.getD_eq_getElem _ _ (by omega)]
    exact hall _ _ (List.getElem_mem _)
  · rw [if_neg (by omega), List.nil_append]
    have hlen := revDigits_length_ge 4 20 y.natAbs (by decide) (by omega)
    have hq : 5 ≤ (List.replicate (4 - (time.revDigits 20 y.natAbs).reverse.length)
        (48 : Byte) ++ (time.revDigits 20 y.natAbs).reverse).length := by
      simp only [List.length_append, List.length_replicate, List.length_reverse]
      omega
    refine ⟨hq, ?_⟩
    rw [List.getD_eq_getElem _ _ (by omega)]
    exact hall _ _ (List.getElem_mem _)

/-- The text of a time: the year, a dash, and a text that ends with the zone. -/
theorem AppendFormat_parts (t : time.Time) :
    ∃ mid : List Byte,
      time.Time.AppendFormat [] t
        = time.appendInt [] t.Year 4 ++ 45 :: (mid ++ time.appendZone [] t.offset) := by
  unfold time.Time.AppendFormat time.Time.Year
  simp only []
  generalize time.absDate t.abs = date
  generalize time.absClock t.abs = clock
  refine ⟨time.appendInt [] date.month 2 ++ 45 :: (time.appendInt [] date.day 2 ++ 84 ::
    (time.appendInt [] clock.hour 2 ++ 58 :: (time.appendInt [] clock.min 2 ++ 58 ::
    (time.appendInt [] clock.sec 2 ++ time.formatNano [] t.nsec.val)))), ?_⟩
  rw [appendZone_append, formatNano_append, appendInt_append _ _ 2, appendInt_append _ _ 2,
    appendInt_append _ _ 2, appendInt_append _ _ 2, appendInt_append _ _ 2]
  simp only [List.append_assoc, List.nil_append, List.cons_append]

/-- The checks of `appendStrictRFC3339` read the end of the text in the zone. -/
theorem zone_end (pre zone : List Byte) (hz : zone.length = 6) :
    (pre ++ zone).getLast? = zone.getLast? ∧
    (pre ++ zone).getD ((pre ++ zone).length - 6) 0 = zone.getD 0 0 ∧
    (pre ++ zone).drop ((pre ++ zone).length - 5) = zone.drop 1 := by
  have hne : zone ≠ [] := by
    intro h
    rw [h] at hz
    exact absurd hz (by decide)
  refine ⟨?_, ?_, ?_⟩
  · rw [List.getLast?_append]
    cases hl : zone.getLast? with
    | none => exact absurd (List.getLast?_eq_none_iff.mp hl) hne
    | some a => rfl
  · have e : (pre ++ zone).length - 6 = pre.length := by
      rw [List.length_append]
      omega
    rw [e, List.getD_append_right _ _ _ _ (Nat.le_refl _), Nat.sub_self]
  · have e : (pre ++ zone).length - 5 = pre.length + 1 := by
      rw [List.length_append]
      omega
    rw [e, List.drop_append_eq_append_drop]
    have h0 : List.drop (pre.length + 1) pre = [] := List.drop_eq_nil_of_le (by omega)
    rw [h0, List.nil_append]
    congr 1
    omega

/-- The number that `num2` reads from two digits. -/
theorem num2_digits (a b : Nat) (ha : a < 10) (hb : b < 10) (rest : List Byte) :
    (time.num2 (time.digit a :: time.digit b :: rest)).val = 10 * a + b := by
  unfold time.num2
  simp only [List.getD_cons_zero, List.getD_cons_succ]
  interval_cases a <;> interval_cases b <;> rfl

/-- The first check of `appendStrictRFC3339`: the byte after the first four bytes of the
year is a dash exactly for a year from 0 to 9999. -/
theorem year_check (t : time.Time) :
    (time.Time.AppendFormat [34] t).getD 5 0 = 45 ↔ (0 ≤ t.Year ∧ t.Year < 10000) := by
  obtain ⟨mid, hparts⟩ := AppendFormat_parts t
  rw [AppendFormat_append, hparts]
  show (34 :: (time.appendInt [] t.Year 4 ++ 45 :: (mid ++ time.appendZone [] t.offset))).getD
    5 0 = 45 ↔ _
  rw [List.getD_cons_succ]
  constructor
  · intro h
    by_contra hout
    have hout' : t.Year < 0 ∨ 10000 ≤ t.Year := by omega
    obtain ⟨hlen, hne⟩ := appendInt_year_out t.Year hout'
    rw [List.getD_append _ _ _ _ (by omega)] at h
    exact hne h
  · intro ⟨h0, h1⟩
    obtain ⟨Y, hY⟩ := Int.eq_ofNat_of_zero_le h0
    rw [hY, appendInt_four [] Y (by omega)]
    rfl

/-- Claims whose time serialises have a year from 0 to 9999. -/
theorem MarshalJSON_year (t : time.Time) (x : List Byte) (h : t.MarshalJSON = .ok x) :
    0 ≤ t.Year ∧ t.Year < 10000 := by
  by_contra hout
  have hne : (time.Time.AppendFormat [34] t).getD 5 0 ≠ 45 :=
    fun e => hout ((year_check t).mp e)
  unfold time.Time.MarshalJSON time.Time.appendStrictRFC3339 time.strictRFC3339Error at h
  simp only [List.length_singleton] at h
  rw [if_pos hne] at h
  exact absurd h (by simp)

/-- The checks on a text that ends with `Z`, after a four-digit year. -/
theorem strict_Z (pre : List Byte) (hyear : (pre ++ [90]).getD 5 0 = 45) :
    time.strictRFC3339Error 1 (pre ++ [90]) = none := by
  unfold time.strictRFC3339Error
  have hl : (pre ++ [90]).getLast? = some (90 : Byte) := by
    simp
  rw [if_neg (fun hne => hne hyear), if_neg (fun hne => hne hl)]

/-- The checks on a text that ends with the zone of `z` minutes, after a four-digit
year. -/
theorem strict_minutes (pre : List Byte) (sgn : Byte) (z : Nat) (hs : sgn = 43 ∨ sgn = 45)
    (hz1 : z < 6000)
    (hyear : (pre ++ [sgn, time.digit (z / 60 / 10), time.digit (z / 60 % 10), 58,
      time.digit (z % 60 / 10), time.digit (z % 60 % 10)]).getD 5 0 = 45) :
    time.strictRFC3339Error 1 (pre ++ [sgn, time.digit (z / 60 / 10),
        time.digit (z / 60 % 10), 58, time.digit (z % 60 / 10), time.digit (z % 60 % 10)])
      = if z < 1440 then none
        else some { classes := [], msg := "timezone hour outside of range [0,23]" } := by
  unfold time.strictRFC3339Error
  rw [if_neg (fun hne => hne hyear)]
  obtain ⟨e1, e2, e3⟩ := zone_end pre [sgn, time.digit (z / 60 / 10),
    time.digit (z / 60 % 10), 58, time.digit (z % 60 / 10), time.digit (z % 60 % 10)] rfl
  simp only []
  rw [e1, e2, e3]
  have hlast : ([sgn, time.digit (z / 60 / 10), time.digit (z / 60 % 10), 58,
      time.digit (z % 60 / 10), time.digit (z % 60 % 10)] : List Byte).getLast?
      = some (time.digit (z % 60 % 10)) := rfl
  have hdig : ¬ (some (time.digit (z % 60 % 10)) = some (90 : Byte)) := by
    intro e
    exact digit_ne _ (by omega) 90 (Or.inr (by decide)) (Option.some.inj e)
  rw [hlast, if_pos hdig]
  have hnum := num2_digits (z / 60 / 10) (z / 60 % 10) (by omega) (by omega)
    [58, time.digit (z % 60 / 10), time.digit (z % 60 % 10)]
  have hc : ¬ (48 ≤ sgn.val ∧ sgn.val ≤ 57) := by
    rcases hs with hs | hs <;> rw [hs] <;> decide
  simp only [List.getD_cons_zero, List.drop_succ_cons, List.drop_zero, hc, false_or, hnum]
  by_cases hz : z < 1440
  · rw [if_neg (by omega), if_pos hz]
  · rw [if_pos (by omega), if_neg hz]

/-- The result of `MarshalJSON` for a year from 0 to 9999 and a zone of whole minutes
below 100 hours: the quoted text when the zone is below 24 hours, else an error. -/
theorem MarshalJSON_minutes (t : time.Time) (hy0 : 0 ≤ t.Year) (hy1 : t.Year < 10000)
    (hmod : t.offset % 60 = 0) (hb : -360000 < t.offset ∧ t.offset < 360000) :
    t.MarshalJSON
      = if -86400 < t.offset ∧ t.offset < 86400 then
          .ok (time.Time.AppendFormat [34] t ++ [34])
        else
          .error { classes := [],
                   msg := "Time.MarshalJSON: timezone hour outside of range [0,23]" } := by
  have hyear : (time.Time.AppendFormat [34] t).getD 5 0 = 45 :=
    (year_check t).mpr ⟨hy0, hy1⟩
  obtain ⟨mid, hparts⟩ := AppendFormat_parts t
  have hpre : time.Time.AppendFormat [34] t
      = (34 :: (time.appendInt [] t.Year 4 ++ 45 :: mid)) ++ time.appendZone [] t.offset := by
    rw [AppendFormat_append, hparts]
    simp only [List.append_assoc, List.cons_append, List.nil_append]
  unfold time.Time.MarshalJSON time.Time.appendStrictRFC3339
  simp only [List.length_singleton]
  generalize time.Time.AppendFormat [34] t = b at hpre hyear ⊢
  generalize 34 :: (time.appendInt [] t.Year 4 ++ 45 :: mid) = pre at hpre
  subst hpre
  by_cases h0 : t.offset = 0
  · rw [h0, appendZone_zero] at hyear ⊢
    rw [strict_Z pre hyear, if_pos (by omega)]
  · by_cases hpos : 0 < t.offset
    · obtain ⟨z, hz⟩ : ∃ z : Nat, t.offset = ((60 * z : Nat) : Int) :=
        ⟨(t.offset / 60).toNat, by omega⟩
      rw [hz, appendZone_east z (by omega) (by omega)] at hyear ⊢
      rw [strict_minutes pre 43 z (Or.inl rfl) (by omega) hyear]
      by_cases hz1 : z < 1440
      · rw [if_pos hz1, if_pos (by omega)]
      · rw [if_neg hz1, if_neg (by omega)]
        rfl
    · obtain ⟨z, hz⟩ : ∃ z : Nat, t.offset = -((60 * z : Nat) : Int) :=
        ⟨(-t.offset / 60).toNat, by omega⟩
      rw [hz, appendZone_west z (by omega) (by omega)] at hyear ⊢
      rw [strict_minutes pre 45 z (Or.inr rfl) (by omega) hyear]
      by_cases hz1 : z < 1440
      · rw [if_pos hz1, if_pos (by omega)]
      · rw [if_neg hz1, if_neg (by omega)]
        rfl

/-! ## Round trip of the JSON text -/

theorem skipSpace_cons (c : Byte) (rest : List Byte) (h : json.isSpace c = false) :
    json.skipSpace (c :: rest) = c :: rest := by
  simp only [json.skipSpace, h, Bool.false_eq_true, if_false]

set_option maxRecDepth 100000 in
theorem bytesOf_texts :
    bytesOf "\x7b\"id\":\"" = [123, 34, 105, 100, 34, 58, 34] ∧
    bytesOf "\",\"expiresAt\":" = [34, 44, 34, 101, 120, 112, 105, 114, 101, 115, 65, 116, 34, 58] ∧
    bytesOf "\x7d\n" = [125, 10] ∧
    bytesOf "id" = [105, 100] ∧
    bytesOf "expiresAt" = [101, 120, 112, 105, 114, 101, 115, 65, 116] := by
  decide

set_option maxRecDepth 100000 in
theorem fieldOf_names :
    json.fieldOf [105, 100] = some 0 ∧
    json.fieldOf [101, 120, 112, 105, 114, 101, 115, 65, 116] = some 1 := by
  decide

set_option maxRecDepth 100000 in
theorem plain_names :
    (∀ c ∈ ([105, 100] : List Byte), json.plain c) ∧
    (∀ c ∈ ([101, 120, 112, 105, 114, 101, 115, 65, 116] : List Byte), json.plain c) := by
  decide

/-- The members `id` and `expiresAt`, as the encoder writes them, decode to the claims. -/
theorem members_text (fuel : Nat) (u : uuid.UUID) (t : time.Time) (inner : List Byte)
    (hplain : ∀ c ∈ inner, json.plain c)
    (hparse : time.Parse ([34] ++ inner ++ [34]) = .ok t) (tail : List Byte) :
    json.members (fuel + 2) auth.Claims.zero
        ([34, 105, 100, 34, 58, 34] ++ (u.String ++ ([34, 44, 34, 101, 120, 112, 105, 114, 101,
          115, 65, 116, 34, 58, 34] ++ (inner ++ (34 :: 125 :: tail)))))
      = .ok { ID := u, ExpiresAt := t } := by
  have hs1 : json.scanString ([105, 100] ++ 34 :: (58 :: 34 :: (u.String ++ ([34, 44, 34, 101,
      120, 112, 105, 114, 101, 115, 65, 116, 34, 58, 34] ++ (inner ++ (34 :: 125 :: tail))))))
      = .ok ([105, 100], _) := scanString_plain _ _ plain_names.1
  have hs2 := scanString_plain u.String ([44, 34, 101, 120, 112, 105, 114, 101,
      115, 65, 116, 34, 58, 34] ++ (inner ++ (34 :: 125 :: tail))) (String_plain u)
  have hs3 : json.scanString ([101, 120, 112, 105, 114, 101, 115, 65, 116] ++ 34 ::
      (58 :: 34 :: (inner ++ (34 :: 125 :: tail))))
      = .ok ([101, 120, 112, 105, 114, 101, 115, 65, 116], _) := scanString_plain _ _ plain_names.2
  have hs4 := scanString_plain inner (125 :: tail) hplain
  have sp34 : ∀ r, json.skipSpace (34 :: r) = 34 :: r := fun r => skipSpace_cons _ _ (by decide)
  have sp58 : ∀ r, json.skipSpace (58 :: r) = 58 :: r := fun r => skipSpace_cons _ _ (by decide)
  have sp44 : ∀ r, json.skipSpace (44 :: r) = 44 :: r := fun r => skipSpace_cons _ _ (by decide)
  have sp125 : ∀ r, json.skipSpace (125 :: r) = 125 :: r :=
    fun r => skipSpace_cons _ _ (by decide)
  have hv1 : json.storeValue auth.Claims.zero [105, 100]
      (34 :: (u.String ++ ([34, 44, 34, 101, 120, 112, 105, 114, 101,
          115, 65, 116, 34, 58, 34] ++ (inner ++ (34 :: 125 :: tail)))))
      = .ok ({ auth.Claims.zero with ID := u }, [44, 34, 101, 120, 112, 105, 114, 101,
          115, 65, 116, 34, 58, 34] ++ (inner ++ (34 :: 125 :: tail))) := by
    unfold json.storeValue
    simp only [if_true]
    have : u.String ++ ([34, 44, 34, 101, 120, 112, 105, 114, 101, 115, 65, 116, 34, 58, 34]
        ++ (inner ++ (34 :: 125 :: tail)))
        = u.String ++ 34 :: ([44, 34, 101, 120, 112, 105, 114, 101, 115, 65, 116, 34, 58, 34]
        ++ (inner ++ (34 :: 125 :: tail))) := rfl
    rw [this, hs2]
    simp only [fieldOf_names.1, json.storeString, ParseBytes_String]
  have hv2 : json.storeValue { auth.Claims.zero with ID := u }
      [101, 120, 112, 105, 114, 101, 115, 65, 116] (34 :: (inner ++ (34 :: 125 :: tail)))
      = .ok ({ ID := u, ExpiresAt := t }, 125 :: tail) := by
    unfold json.storeValue
    simp only [if_true, hs4, fieldOf_names.2, json.storeString, time.Time.UnmarshalJSON, hparse]
  rw [json.members]
  simp only [List.cons_append, List.nil_append, sp34, ne_eq, not_true_eq_false, if_false]
  simp only [List.cons_append, List.nil_append] at hs1 hs3 hv1
  rw [hs1]
  simp only [sp58, ne_eq, not_true_eq_false, if_false, sp34, hv1, sp44, if_true]
  rw [json.members]
  simp only [sp34, ne_eq, not_true_eq_false, if_false, hs3, sp58, hv2, sp125]
  simp

/-- What `decodeObject` decodes, `Decode` decodes, whatever the library does elsewhere. -/
theorem Decode_of_decodeObject (decodeJSON : List Byte → Except GoError auth.Claims)
    (data : List Byte) (c : auth.Claims) (h : json.decodeObject data = .ok c) :
    json.Decode decodeJSON data = .ok c := by
  unfold json.Decode
  rw [h]

/-- An error of `decodeObject` other than its mark is the result of `Decode`. -/
theorem Decode_of_error (decodeJSON : List Byte → Except GoError auth.Claims)
    (data : List Byte) (e : GoError) (h : json.decodeObject data = .error e)
    (hne : e ≠ json.unmodelled) : json.Decode decodeJSON data = .error e := by
  unfold json.Decode
  rw [h]
  exact if_neg hne

/-- Decoding the text that the encoder writes for claims whose time text parses back. -/
theorem Decode_text (u : uuid.UUID) (t : time.Time) (inner : List Byte)
    (hplain : ∀ c ∈ inner, json.plain c)
    (hparse : time.Parse ([34] ++ inner ++ [34]) = .ok t) :
    json.decodeObject (bytesOf "\x7b\"id\":\"" ++ u.String ++ bytesOf "\",\"expiresAt\":"
        ++ ([34] ++ inner ++ [34]) ++ bytesOf "\x7d\n")
      = .ok { ID := u, ExpiresAt := t } := by
  rw [bytesOf_texts.1, bytesOf_texts.2.1, bytesOf_texts.2.2.1]
  have hshape : [123, 34, 105, 100, 34, 58, 34] ++ u.String
        ++ [34, 44, 34, 101, 120, 112, 105, 114, 101, 115, 65, 116, 34, 58]
        ++ ([34] ++ inner ++ [34]) ++ [125, 10]
      = 123 :: 34 :: ([105, 100, 34, 58, 34] ++ (u.String ++ ([34, 44, 34, 101, 120, 112, 105,
          114, 101, 115, 65, 116, 34, 58, 34] ++ (inner ++ (34 :: 125 :: [10]))))) := by
    simp only [List.append_assoc, List.cons_append, List.nil_append]
  rw [hshape]
  unfold json.decodeObject
  have sp123 : ∀ r, json.skipSpace (123 :: r) = 123 :: r :=
    fun r => skipSpace_cons _ _ (by decide)
  have sp34 : ∀ r, json.skipSpace (34 :: r) = 34 :: r := fun r => skipSpace_cons _ _ (by decide)
  simp only [sp123, sp34, ne_eq, not_true_eq_false, if_false]
  have hne : ¬ ((34 : Byte) = 125) := by decide
  simp only [hne, if_false]
  have hlen : ∃ k, (123 :: 34 :: ([105, 100, 34, 58, 34] ++ (u.String ++ ([34, 44, 34, 101, 120,
      112, 105, 114, 101, 115, 65, 116, 34, 58, 34] ++ (inner ++ (34 :: 125 :: [10])))))).length
      = k + 2 := ⟨_, rfl⟩
  obtain ⟨k, hk⟩ := hlen
  rw [hk]
  exact members_text k u t inner hplain hparse [10]

/-- Claims whose expiry has a year from 0 to 9999 and a zone offset of whole minutes below
24 hours serialise, and `FromJSON` of the text gives the same claims back: the same ID, the
same instant, the same offset. -/
theorem FromJSON_JSON_of_inRange (decodeJSON : List Byte → Except GoError auth.Claims)
    (c : auth.Claims) (hr : c.ExpiresAt.inRange)
    (hy0 : 0 ≤ c.ExpiresAt.Year) (hy1 : c.ExpiresAt.Year < 10000)
    (hmod : c.ExpiresAt.offset % 60 = 0)
    (hb : -86400 < c.ExpiresAt.offset ∧ c.ExpiresAt.offset < 86400) :
    c.JSON.2 = none ∧ auth.FromJSON decodeJSON c.JSON.1 = .ok c := by
  obtain ⟨u, t⟩ := c
  simp only at hr hy0 hy1 hmod hb
  have hm : t.MarshalJSON = .ok (time.Time.AppendFormat [34] t ++ [34]) := by
    rw [MarshalJSON_minutes t hy0 hy1 hmod (by omega), if_pos hb]
  have hparse : time.Parse ([34] ++ time.Time.AppendFormat [] t ++ [34]) = .ok t := by
    rw [← AppendFormat_append]
    exact Parse_AppendFormat t hr hy0 hy1 hmod hb
  have hj : auth.Claims.JSON { ID := u, ExpiresAt := t }
      = (bytesOf "\x7b\"id\":\"" ++ u.String ++ bytesOf "\",\"expiresAt\":"
        ++ ([34] ++ time.Time.AppendFormat [] t ++ [34]) ++ bytesOf "\x7d\n", none) := by
    unfold auth.Claims.JSON json.Encode
    simp only [hm]
    rw [AppendFormat_append]
    rfl
  rw [hj]
  refine ⟨rfl, ?_⟩
  unfold auth.FromJSON
  simp only []
  rw [Decode_of_decodeObject decodeJSON _ _ (Decode_text u t _ (AppendFormat_plain t) hparse)]

/-- Claims that serialise have an expiry in a year from 0 to 9999. -/
theorem year_of_JSON (c : auth.Claims) (h : c.JSON.2 = none) :
    0 ≤ c.ExpiresAt.Year ∧ c.ExpiresAt.Year < 10000 := by
  unfold auth.Claims.JSON json.Encode at h
  cases hm : c.ExpiresAt.MarshalJSON with
  | error e =>
    rw [hm] at h
    simp [errs.Wrap] at h
  | ok x => exact MarshalJSON_year _ x hm

/-- Claims that serialise, with a zone of whole minutes below 100 hours, have a zone below
24 hours. -/
theorem zone_of_JSON (c : auth.Claims) (h : c.JSON.2 = none)
    (hmod : c.ExpiresAt.offset % 60 = 0)
    (hb : -360000 < c.ExpiresAt.offset ∧ c.ExpiresAt.offset < 360000) :
    -86400 < c.ExpiresAt.offset ∧ c.ExpiresAt.offset < 86400 := by
  obtain ⟨hy0, hy1⟩ := year_of_JSON c h
  by_contra hout
  unfold auth.Claims.JSON json.Encode at h
  rw [MarshalJSON_minutes c.ExpiresAt hy0 hy1 hmod hb, if_neg hout] at h
  simp [errs.Wrap] at h

/-! ## Look-ups of the principal -/

theorem managersdb_Get_found (repository : database.managersdb) (id : uuid.UUID)
    (h : ∃ r ∈ repository.rows, r.id = id) : (repository.Get id).2 = none := by
  obtain ⟨r, hr, hid⟩ := h
  unfold database.managersdb.Get
  cases hf : repository.rows.find? (fun r => decide (r.id = id)) with
  | some r0 => rfl
  | none =>
    rw [List.find?_eq_none] at hf
    exact absurd (by simpa using hid) (hf r hr)

theorem managersdb_Get_missing (repository : database.managersdb) (id : uuid.UUID)
    (h : ∀ r ∈ repository.rows, r.id ≠ id) :
    repository.Get id
      = (managers.Manager.zero, some (errs.wrap managers.ErrNoManager database.ErrNoRows)) := by
  unfold database.managersdb.Get
  have hf : repository.rows.find? (fun r => decide (r.id = id)) = none := by
    rw [List.find?_eq_none]
    intro r hr
    simpa using h r hr
  rw [hf]
  rfl

theorem clientsdb_Get_found (repository : database.clientsdb) (id : uuid.UUID)
    (h : ∃ r ∈ repository.rows, r.id = id) : (repository.Get id).2 = none := by
  obtain ⟨r, hr, hid⟩ := h
  unfold database.clientsdb.Get
  cases hf : repository.rows.find? (fun r => decide (r.id = id)) with
  | some r0 => rfl
  | none =>
    rw [List.find?_eq_none] at hf
    exact absurd (by simpa using hid) (hf r hr)

theorem clientsdb_Get_missing (repository : database.clientsdb) (id : uuid.UUID)
    (h : ∀ r ∈ repository.rows, r.id ≠ id) :
    repository.Get id
      = (clients.Client.zero, some (errs.wrap clients.ErrNotExist database.ErrNoRows)) := by
  unfold database.clientsdb.Get
  have hf : repository.rows.find? (fun r => decide (r.id = id)) = none := by
    rw [List.find?_eq_none]
    intro r hr
    simpa using h r hr
  rw [hf]
  rfl

/-! ## The expiry check and the look-up of `authorize` -/

/-- On claims that are expired, the admin `authorize` returns `nil` without any look-up. -/
theorem adminauth_authorize_expired (service : adminauth.Service) (now : time.Time)
    (claims : auth.Claims) (hz : claims.ExpiresAt.IsZero = false)
    (hb : claims.ExpiresAt.Before now = true) : service.authorize now claims = none := by
  simp [adminauth.Service.authorize, hz, hb, errs.Wrap]

/-- On claims that are expired, the console `authorize` returns `nil` without any look-up. -/
theorem consoleauth_authorize_expired (service : consoleauth.Service) (now : time.Time)
    (claims : auth.Claims) (hz : claims.ExpiresAt.IsZero = false)
    (hb : claims.ExpiresAt.Before now = true) : service.authorize now claims = none := by
  simp [consoleauth.Service.authorize, hz, hb, errs.Wrap]

/-- On claims that are not expired, the admin `authorize` is the look-up of the manager. -/
theorem adminauth_authorize_live (service : adminauth.Service) (now : time.Time)
    (claims : auth.Claims)
    (h : claims.ExpiresAt.IsZero = true ∨ claims.ExpiresAt.Before now = false) :
    service.authorize now claims
      = errs.Wrap adminauth.Error (errs.Wrap managers.Error (service.managers.db.Get claims.ID).2) := by
  have hc : (!claims.ExpiresAt.IsZero && claims.ExpiresAt.Before now) = false := by
    rcases h with h | h <;> simp [h]
  simp [adminauth.Service.authorize, hc, managers.Service.Get]

/-- On claims that are not expired, the console `authorize` is the look-up of the client. -/
theorem consoleauth_authorize_live (service : consoleauth.Service) (now : time.Time)
    (claims : auth.Claims)
    (h : claims.ExpiresAt.IsZero = true ∨ claims.ExpiresAt.Before now = false) :
    service.authorize now claims
      = errs.Wrap consoleauth.Error (errs.Wrap clients.Error (service.clients.db.Get claims.ID).2) := by
  have hc : (!claims.ExpiresAt.IsZero && claims.ExpiresAt.Before now) = false := by
    rcases h with h | h <;> simp [h]
  simp only [consoleauth.Service.authorize, hc, clients.Service.Get]
  cases hg : (service.clients.db.Get claims.ID).2 with
  | none => simp [errs.Wrap, hg]
  | some e => simp [errs.Wrap, hg]

/-- The order of `Before` is strict: a time before another is not after it. -/
theorem Before_asymm (t u : time.Time) (h : t.Before u = true) : u.Before t = false := by
  simp only [time.Time.Before, Bool.or_eq_true, Bool.and_eq_true, decide_eq_true_eq] at h
  simp only [time.Time.Before, Bool.or_eq_false_iff, Bool.and_eq_false_iff, decide_eq_false_iff_not]
  rcases h with h | ⟨h1, h2⟩
  · exact ⟨by omega, Or.inl (by omega)⟩
  · exact ⟨by omega, Or.inr (by omega)⟩

/-! ## The steps of `Authorize` -/

/-- The admin `Authorize` on a context whose token decodes to a validly signed token
with parseable claims: the result is decided by `authorize`. -/
theorem adminauth_Authorize_signed (decodeJSON : List Byte → Except GoError auth.Claims)
    (decode : List Byte → auth.Token × Option GoError) (service : adminauth.Service)
    (now : time.Time) (ctx : auth.Context) (raw : List Byte) (t : auth.Token) (c : auth.Claims)
    (hctx : ctx.token = some raw) (hdec : decode raw = (t, none))
    (hsig : t.Signature = hmac.Sum service.signer.secret (base64.EncodeToString t.Payload))
    (hc : auth.FromJSON decodeJSON t.Payload = .ok c) :
    service.Authorize decodeJSON decode now ctx =
      match service.authorize now c with
      | some err => (auth.Claims.zero, errs.Wrap adminauth.Error (some err))
      | none => (c, none) := by
  simp only [adminauth.Service.Authorize, auth.GetToken, hctx, hdec, adminauth_authenticate_eq,
    hsig, if_true, hc]
  try rfl

/-- The console `Authorize` on a context whose token decodes to a validly signed token
with parseable claims: the result is decided by `authorize`. -/
theorem consoleauth_Authorize_signed (decodeJSON : List Byte → Except GoError auth.Claims)
    (decode : List Byte → auth.Token × Option GoError) (service : consoleauth.Service)
    (now : time.Time) (ctx : auth.Context) (raw : List Byte) (t : auth.Token) (c : auth.Claims)
    (hctx : ctx.token = some raw) (hdec : decode raw = (t, none))
    (hsig : t.Signature = hmac.Sum service.signer.secret (base64.EncodeToString t.Payload))
    (hc : auth.FromJSON decodeJSON t.Payload = .ok c) :
    service.Authorize decodeJSON decode now ctx =
      match service.authorize now c with
      | some err => (auth.Claims.zero, some err)
      | none => (c, none) := by
  simp only [consoleauth.Service.Authorize, auth.GetToken, hctx, hdec,
    consoleauth_Authenticate_eq, hsig, if_true, hc]
  try rfl

/-! ## The hash and the MAC: length and test vectors -/

theorem block_length (h : List Nat) (chunk : List Byte) : (sha256.block h chunk).length = 8 := by
  rfl

theorem blocks_length (n : Nat) (h : List Nat) (p : List Byte) (hh : h.length = 8) :
    (sha256.blocks n h p).length = 8 := by
  induction n generalizing h p with
  | zero => exact hh
  | succ n ih => exact ih _ _ (block_length _ _)

theorem beBytes_length (w x : Nat) : (sha256.beBytes w x).length = w := by
  induction w with
  | zero => rfl
  | succ w ih => simp [sha256.beBytes, ih]

theorem flatMap_beBytes_length (l : List Nat) :
    (l.flatMap (sha256.beBytes 4)).length = 4 * l.length := by
  induction l with
  | nil => rfl
  | cons a l ih =>
    simp only [List.flatMap_cons, List.length_append, beBytes_length, ih, List.length_cons]
    omega

/-- A digest has 32 bytes. -/
theorem Sum256_length (msg : List Byte) : (sha256.Sum256 msg).length = 32 := by
  unfold sha256.Sum256
  simp only []
  rw [flatMap_beBytes_length, blocks_length _ sha256.init _ rfl]

/-- A MAC has 32 bytes. -/
theorem hmac_Sum_length (key msg : List Byte) : (hmac.Sum key msg).length = 32 := by
  unfold hmac.Sum
  exact Sum256_length _

set_option maxRecDepth 1000000 in
/-- The digest of `abc` (FIPS 180-2, appendix B.1). -/
theorem Sum256_abc : sha256.Sum256 (bytesOf "abc") =
    [0xba, 0x78, 0x16, 0xbf, 0x8f, 0x01, 0xcf, 0xea, 0x41, 0x41, 0x40, 0xde, 0x5d, 0xae, 0x22,
     0x23, 0xb0, 0x03, 0x61, 0xa3, 0x96, 0x17, 0x7a, 0x9c, 0xb4, 0x10, 0xff, 0x61, 0xf2, 0x00,
     0x15, 0xad] := by
  decide

set_option maxRecDepth 1000000 in
/-- The MAC of test case 2 of RFC 4231. -/
theorem hmac_Sum_rfc4231_case2 :
    hmac.Sum (bytesOf "Jefe") (bytesOf "what do ya want for nothing?") =
    [0x5b, 0xdc, 0xc1, 0x46, 0xbf, 0x60, 0x75, 0x4e, 0x6a, 0x04, 0x24, 0x26, 0x08, 0x95, 0x75,
     0xc7, 0x5a, 0x00, 0x3f, 0x08, 0x9d, 0x27, 0x39, 0x83, 0x9d, 0xec, 0x58, 0xb9, 0x64, 0xec,
     0x38, 0x43] := by
  decide

set_option maxRecDepth 1000000 in
/-- The two secrets of the fixtures sign the payload of `fixture.fresh` differently. -/
theorem fixture_secrets_differ_on_fresh :
    hmac.Sum fixture.secret (base64.EncodeToString fixture.fresh.JSON.1)
      ≠ hmac.Sum fixture.otherSecret (base64.EncodeToString fixture.fresh.JSON.1) := by
  decide

/-- The padding of `base64.URLEncoding`, on the text of RFC 4648, section 10. -/
theorem EncodeToString_foobar :
    base64.EncodeToString (bytesOf "f") = bytesOf "Zg==" ∧
    base64.EncodeToString (bytesOf "fo") = bytesOf "Zm8=" ∧
    base64.EncodeToString (bytesOf "foobar") = bytesOf "Zm9vYmFy" ∧
    base64.EncodeToString [0xfb, 0xff] = bytesOf "-_8=" := by
  decide

/-! ## Facts about the fixtures -/

/-- A token is created from claims that serialise: the payload is their JSON text and the
signature is the MAC of the base64url text of the payload. -/
theorem CreateToken_of_JSON (a : auth.TokenSigner) (c : auth.Claims) (json : List Byte)
    (h : c.JSON = (json, none)) :
    a.CreateToken c
      = ({ Payload := json,
           Signature := hmac.Sum a.secret (base64.EncodeToString json) }, none) := by
  unfold auth.TokenSigner.CreateToken
  rw [h]
  simp only [SignToken_eq]

theorem fixture_tokenOf_signed (c : auth.Claims) (json : List Byte)
    (h : c.JSON = (json, none)) :
    fixture.tokenOf c
      = { Payload := json,
          Signature := hmac.Sum fixture.secret (base64.EncodeToString json) } := by
  unfold fixture.tokenOf
  rw [CreateToken_of_JSON _ c json h]
  rfl

set_option maxRecDepth 100000 in
theorem fixture_fresh_serialises : fixture.fresh.JSON.2 = none := by
  rfl

set_option maxRecDepth 100000 in
theorem fixture_expired_serialises : fixture.expired.JSON.2 = none := by
  rfl

set_option maxRecDepth 100000 in
theorem fixture_forever_serialises : fixture.forever.JSON.2 = none := by
  rfl

theorem fixture_fresh_JSON : fixture.fresh.JSON = (fixture.fresh.JSON.1, none) := by
  rw [← fixture_fresh_serialises]

set_option maxRecDepth 100000 in
theorem fixture_fresh_payload :
    auth.FromJSON fixture.decodeJSON (fixture.tokenOf fixture.fresh).Payload = .ok fixture.fresh := by
  rfl

set_option maxRecDepth 100000 in
theorem fixture_expired_payload :
    auth.FromJSON fixture.decodeJSON (fixture.tokenOf fixture.expired).Payload = .ok fixture.expired := by
  rfl

set_option maxRecDepth 100000 in
theorem fixture_forever_payload :
    auth.FromJSON fixture.decodeJSON (fixture.tokenOf fixture.forever).Payload = .ok fixture.forever := by
  rfl

theorem fixture_tokenOf_signature (c : auth.Claims) (h : c.JSON.2 = none) :
    (fixture.tokenOf c).Signature
      = hmac.Sum fixture.secret (base64.EncodeToString (fixture.tokenOf c).Payload) := by
  have hj : c.JSON = (c.JSON.1, none) := by rw [← h]
  rw [fixture_tokenOf_signed c _ hj]

/-! ## Claims about `Authorize` -/

/-- A validly signed token whose claims are not expired and whose ID names a row of the
store passes `Authorize` of both services with its claims and no error. -/
theorem Authorize_passes_live_known (decodeJSON : List Byte → Except GoError auth.Claims)
    (decode : List Byte → auth.Token × Option GoError) (admin : adminauth.Service)
    (console : consoleauth.Service) (now : time.Time) (ctx : auth.Context) (raw : List Byte)
    (t : auth.Token) (c : auth.Claims)
    (hctx : ctx.token = some raw) (hdec : decode raw = (t, none))
    (hc : auth.FromJSON decodeJSON t.Payload = .ok c)
    (hlive : c.ExpiresAt.IsZero = true ∨ c.ExpiresAt.Before now = false) :
    (t.Signature = hmac.Sum admin.signer.secret (base64.EncodeToString t.Payload) →
      (∃ r ∈ admin.managers.db.rows, r.id = c.ID) →
      admin.Authorize decodeJSON decode now ctx = (c, none)) ∧
    (t.Signature = hmac.Sum console.signer.secret (base64.EncodeToString t.Payload) →
      (∃ r ∈ console.clients.db.rows, r.id = c.ID) →
      console.Authorize decodeJSON decode now ctx = (c, none)) := by
  constructor
  · intro hsig hrow
    rw [adminauth_Authorize_signed decodeJSON decode admin now ctx raw t c hctx hdec hsig hc,
      adminauth_authorize_live admin now c hlive, managersdb_Get_found _ _ hrow]
    rfl
  · intro hsig hrow
    rw [consoleauth_Authorize_signed decodeJSON decode console now ctx raw t c hctx hdec hsig hc,
      consoleauth_authorize_live console now c hlive, clientsdb_Get_found _ _ hrow]
    rfl

/-- C8. A validly signed token whose claims expire strictly after the current time and
whose ID names an existing principal is accepted, by the admin service and by the console
service alike, and `Authorize` returns exactly the claims encoded in the payload. -/
theorem Authorize_accepts_unexpired_token_of_existing_principal
    (decodeJSON : List Byte → Except GoError auth.Claims)
    (decode : List Byte → auth.Token × Option GoError) (admin : adminauth.Service)
    (console : consoleauth.Service) (now : time.Time) (ctx : auth.Context) (raw : List Byte)
    (t : auth.Token) (c : auth.Claims)
    (hctx : ctx.token = some raw) (hdec : decode raw = (t, none))
    (hc : auth.FromJSON decodeJSON t.Payload = .ok c) (hlater : now.Before c.ExpiresAt = true) :
    (t.Signature = hmac.Sum admin.signer.secret (base64.EncodeToString t.Payload) →
      (∃ r ∈ admin.managers.db.rows, r.id = c.ID) →
      admin.Authorize decodeJSON decode now ctx = (c, none)) ∧
    (t.Signature = hmac.Sum console.signer.secret (base64.EncodeToString t.Payload) →
      (∃ r ∈ console.clients.db.rows, r.id = c.ID) →
      console.Authorize decodeJSON decode now ctx = (c, none)) := by
  have hlive : c.ExpiresAt.IsZero = true ∨ c.ExpiresAt.Before now = false :=
    Or.inr (Before_asymm _ _ hlater)
  exact Authorize_passes_live_known decodeJSON decode admin console now ctx raw t c hctx hdec hc hlive

/-- Witness of C8: the token of claims that expire one second after `now`, for a principal
held by both stores. -/
theorem Authorize_accepts_unexpired_token_of_existing_principal_witness :
    fixture.admin.Authorize fixture.decodeJSON (fixture.decodeTo (fixture.tokenOf fixture.fresh)) fixture.now
        fixture.ctx = (fixture.fresh, none) ∧
    fixture.console.Authorize fixture.decodeJSON (fixture.decodeTo (fixture.tokenOf fixture.fresh)) fixture.now
        fixture.ctx = (fixture.fresh, none) :=
  have h := Authorize_accepts_unexpired_token_of_existing_principal fixture.decodeJSON
    (fixture.decodeTo (fixture.tokenOf fixture.fresh)) fixture.admin fixture.console fixture.now
    fixture.ctx (bytesOf "token") (fixture.tokenOf fixture.fresh) fixture.fresh rfl rfl
    fixture_fresh_payload (by decide)
  ⟨h.1 (fixture_tokenOf_signature _ fixture_fresh_serialises) ⟨_, List.mem_singleton.mpr rfl, rfl⟩,
   h.2 (fixture_tokenOf_signature _ fixture_fresh_serialises) ⟨_, List.mem_singleton.mpr rfl, rfl⟩⟩

/-- C9. A validly signed token whose claims have the zero expiry and whose ID names an
existing principal is accepted at every value of the current time. -/
theorem Authorize_accepts_zero_expiry_at_any_time
    (decodeJSON : List Byte → Except GoError auth.Claims)
    (decode : List Byte → auth.Token × Option GoError) (admin : adminauth.Service)
    (console : consoleauth.Service) (now : time.Time) (ctx : auth.Context) (raw : List Byte)
    (t : auth.Token) (c : auth.Claims)
    (hctx : ctx.token = some raw) (hdec : decode raw = (t, none))
    (hc : auth.FromJSON decodeJSON t.Payload = .ok c) (hzero : c.ExpiresAt.IsZero = true) :
    (t.Signature = hmac.Sum admin.signer.secret (base64.EncodeToString t.Payload) →
      (∃ r ∈ admin.managers.db.rows, r.id = c.ID) →
      admin.Authorize decodeJSON decode now ctx = (c, none)) ∧
    (t.Signature = hmac.Sum console.signer.secret (base64.EncodeToString t.Payload) →
      (∃ r ∈ console.clients.db.rows, r.id = c.ID) →
      console.Authorize decodeJSON decode now ctx = (c, none)) := by
  have hlive : c.ExpiresAt.IsZero = true ∨ c.ExpiresAt.Before now = false := Or.inl hzero
  exact Authorize_passes_live_known decodeJSON decode admin console now ctx raw t c hctx hdec hc hlive

/-- Witness of C9: the token of claims with the zero expiry, checked at the last second
of the year 9999. -/
theorem Authorize_accepts_zero_expiry_at_any_time_witness :
    fixture.admin.Authorize fixture.decodeJSON (fixture.decodeTo (fixture.tokenOf fixture.forever))
        { sec := 315537897599, nsec := 999999999, offset := 0 } fixture.ctx
      = (fixture.forever, none) ∧
    fixture.console.Authorize fixture.decodeJSON (fixture.decodeTo (fixture.tokenOf fixture.forever))
        { sec := 315537897599, nsec := 999999999, offset := 0 } fixture.ctx
      = (fixture.forever, none) :=
  have h := Authorize_accepts_zero_expiry_at_any_time fixture.decodeJSON
    (fixture.decodeTo (fixture.tokenOf fixture.forever)) fixture.admin fixture.console
    { sec := 315537897599, nsec := 999999999, offset := 0 }
    fixture.ctx (bytesOf "token") (fixture.tokenOf fixture.forever) fixture.forever rfl rfl
    fixture_forever_payload rfl
  ⟨h.1 (fixture_tokenOf_signature _ fixture_forever_serialises) ⟨_, List.mem_singleton.mpr rfl, rfl⟩,
   h.2 (fixture_tokenOf_signature _ fixture_forever_serialises) ⟨_, List.mem_singleton.mpr rfl, rfl⟩⟩

/-- Every validly signed token whose claims have a non-zero expiry before the current time
passes `Authorize` of both services with its claims and no error, whatever the store
holds: the expiry branch of `authorize` returns the still-nil `err`. -/
theorem Authorize_expired_passes (decodeJSON : List Byte → Except GoError auth.Claims)
    (decode : List Byte → auth.Token × Option GoError) (admin : adminauth.Service)
    (console : consoleauth.Service) (now : time.Time) (ctx : auth.Context) (raw : List Byte)
    (t : auth.Token) (c : auth.Claims)
    (hctx : ctx.token = some raw) (hdec : decode raw = (t, none))
    (hc : auth.FromJSON decodeJSON t.Payload = .ok c) (hz : c.ExpiresAt.IsZero = false)
    (hb : c.ExpiresAt.Before now = true) :
    (t.Signature = hmac.Sum admin.signer.secret (base64.EncodeToString t.Payload) →
      admin.Authorize decodeJSON decode now ctx = (c, none)) ∧
    (t.Signature = hmac.Sum console.signer.secret (base64.EncodeToString t.Payload) →
      console.Authorize decodeJSON decode now ctx = (c, none)) := by
  constructor
  · intro hsig
    rw [adminauth_Authorize_signed decodeJSON decode admin now ctx raw t c hctx hdec hsig hc,
      adminauth_authorize_expired admin now c hz hb]
  · intro hsig
    rw [consoleauth_Authorize_signed decodeJSON decode console now ctx raw t c hctx hdec hsig hc,
      consoleauth_authorize_expired console now c hz hb]

/-- C1 (the code departs from it). The token of claims that expired one second before the
current time is accepted: `Authorize` of the admin service and of the console service
return the claims and a nil error, with the principal in the store and with an empty
store. -/
theorem Authorize_expired_token_is_accepted :
    fixture.admin.Authorize fixture.decodeJSON (fixture.decodeTo (fixture.tokenOf fixture.expired)) fixture.now
        fixture.ctx = (fixture.expired, none) ∧
    fixture.console.Authorize fixture.decodeJSON (fixture.decodeTo (fixture.tokenOf fixture.expired)) fixture.now
        fixture.ctx = (fixture.expired, none) ∧
    fixture.adminEmpty.Authorize fixture.decodeJSON (fixture.decodeTo (fixture.tokenOf fixture.expired)) fixture.now
        fixture.ctx = (fixture.expired, none) ∧
    fixture.consoleEmpty.Authorize fixture.decodeJSON (fixture.decodeTo (fixture.tokenOf fixture.expired))
        fixture.now fixture.ctx = (fixture.expired, none) :=
  have h1 := Authorize_expired_passes fixture.decodeJSON (fixture.decodeTo (fixture.tokenOf fixture.expired))
    fixture.admin fixture.console fixture.now fixture.ctx (bytesOf "token")
    (fixture.tokenOf fixture.expired) fixture.expired rfl rfl fixture_expired_payload
    rfl (by decide)
  have h2 := Authorize_expired_passes fixture.decodeJSON (fixture.decodeTo (fixture.tokenOf fixture.expired))
    fixture.adminEmpty fixture.consoleEmpty fixture.now fixture.ctx (bytesOf "token")
    (fixture.tokenOf fixture.expired) fixture.expired rfl rfl fixture_expired_payload
    rfl (by decide)
  ⟨h1.1 (fixture_tokenOf_signature _ fixture_expired_serialises), h1.2 (fixture_tokenOf_signature _ fixture_expired_serialises),
   h2.1 (fixture_tokenOf_signature _ fixture_expired_serialises), h2.2 (fixture_tokenOf_signature _ fixture_expired_serialises)⟩

/-- Not expired and not in the store: `Authorize` of both services returns an error and the
zero claims. -/
theorem Authorize_rejects_unknown_principal_of_live_token
    (decodeJSON : List Byte → Except GoError auth.Claims)
    (decode : List Byte → auth.Token × Option GoError) (admin : adminauth.Service)
    (console : consoleauth.Service) (now : time.Time) (ctx : auth.Context) (raw : List Byte)
    (t : auth.Token) (c : auth.Claims)
    (hctx : ctx.token = some raw) (hdec : decode raw = (t, none))
    (hc : auth.FromJSON decodeJSON t.Payload = .ok c)
    (hlive : c.ExpiresAt.IsZero = true ∨ c.ExpiresAt.Before now = false) :
    (t.Signature = hmac.Sum admin.signer.secret (base64.EncodeToString t.Payload) →
      (∀ r ∈ admin.managers.db.rows, r.id ≠ c.ID) →
      (admin.Authorize decodeJSON decode now ctx).1 = auth.Claims.zero ∧
      (admin.Authorize decodeJSON decode now ctx).2 ≠ none) ∧
    (t.Signature = hmac.Sum console.signer.secret (base64.EncodeToString t.Payload) →
      (∀ r ∈ console.clients.db.rows, r.id ≠ c.ID) →
      (console.Authorize decodeJSON decode now ctx).1 = auth.Claims.zero ∧
      (console.Authorize decodeJSON decode now ctx).2 ≠ none) := by
  constructor
  · intro hsig hrow
    rw [adminauth_Authorize_signed decodeJSON decode admin now ctx raw t c hctx hdec hsig hc,
      adminauth_authorize_live admin now c hlive, managersdb_Get_missing _ _ hrow]
    simp [errs.Wrap]
  · intro hsig hrow
    rw [consoleauth_Authorize_signed decodeJSON decode console now ctx raw t c hctx hdec hsig hc,
      consoleauth_authorize_live console now c hlive, clientsdb_Get_missing _ _ hrow]
    simp [errs.Wrap]

/-- C7 (the code departs from it). With an empty store, the token of claims that expired
one second before the current time is accepted by both services, with its claims and a nil
error, although no principal has its ID; the token of claims that expire one second after
the current time is rejected there, with an error and the zero claims. -/
theorem Authorize_unknown_principal_with_expired_token_is_accepted :
    (fixture.adminEmpty.Authorize fixture.decodeJSON (fixture.decodeTo (fixture.tokenOf fixture.expired))
        fixture.now fixture.ctx = (fixture.expired, none) ∧
     fixture.consoleEmpty.Authorize fixture.decodeJSON (fixture.decodeTo (fixture.tokenOf fixture.expired))
        fixture.now fixture.ctx = (fixture.expired, none)) ∧
    ((fixture.adminEmpty.Authorize fixture.decodeJSON (fixture.decodeTo (fixture.tokenOf fixture.fresh))
        fixture.now fixture.ctx).1 = auth.Claims.zero ∧
     (fixture.adminEmpty.Authorize fixture.decodeJSON (fixture.decodeTo (fixture.tokenOf fixture.fresh))
        fixture.now fixture.ctx).2 ≠ none ∧
     (fixture.consoleEmpty.Authorize fixture.decodeJSON (fixture.decodeTo (fixture.tokenOf fixture.fresh))
        fixture.now fixture.ctx).1 = auth.Claims.zero ∧
     (fixture.consoleEmpty.Authorize fixture.decodeJSON (fixture.decodeTo (fixture.tokenOf fixture.fresh))
        fixture.now fixture.ctx).2 ≠ none) :=
  have h1 := Authorize_expired_passes fixture.decodeJSON (fixture.decodeTo (fixture.tokenOf fixture.expired))
    fixture.adminEmpty fixture.consoleEmpty fixture.now fixture.ctx (bytesOf "token")
    (fixture.tokenOf fixture.expired) fixture.expired rfl rfl fixture_expired_payload
    rfl (by decide)
  have h2 := Authorize_rejects_unknown_principal_of_live_token fixture.decodeJSON
    (fixture.decodeTo (fixture.tokenOf fixture.fresh))
    fixture.adminEmpty fixture.consoleEmpty fixture.now fixture.ctx (bytesOf "token")
    (fixture.tokenOf fixture.fresh) fixture.fresh rfl rfl fixture_fresh_payload
    (Or.inr (by decide))
  have ha := h2.1 (fixture_tokenOf_signature _ fixture_fresh_serialises) (fun _ hr => absurd hr (List.not_mem_nil _))
  have hb := h2.2 (fixture_tokenOf_signature _ fixture_fresh_serialises) (fun _ hr => absurd hr (List.not_mem_nil _))
  ⟨⟨h1.1 (fixture_tokenOf_signature _ fixture_expired_serialises), h1.2 (fixture_tokenOf_signature _ fixture_expired_serialises)⟩,
   ha.1, ha.2, hb.1, hb.2⟩

/-! ## Claims about the signature check -/

/-- C2. A token that `authenticate` of the admin service or `Authenticate` of the console
service accepts has the signature HMAC-SHA256(secret, base64url(Payload)), byte for byte;
a token with any other signature, of the same or of another length, is rejected with the
error `incorrect signature`, whatever its payload; and a context that `Authorize` accepts
holds a token with that signature. -/
theorem authenticate_accepts_only_the_recomputed_signature
    (decodeJSON : List Byte → Except GoError auth.Claims)
    (admin : adminauth.Service) (console : consoleauth.Service) (t : auth.Token)
    (decode : List Byte → auth.Token × Option GoError) (now : time.Time) (ctx : auth.Context)
    (raw : List Byte) (hctx : ctx.token = some raw) (hdec : decode raw = (t, none)) :
    (∀ c, admin.authenticate decodeJSON t = .ok c →
      t.Signature = hmac.Sum admin.signer.secret (base64.EncodeToString t.Payload)) ∧
    (t.Signature ≠ hmac.Sum admin.signer.secret (base64.EncodeToString t.Payload) →
      admin.authenticate decodeJSON t = .error (errs.New adminauth.Error "incorrect signature")) ∧
    (∀ c, console.Authenticate decodeJSON t = .ok c →
      t.Signature = hmac.Sum console.signer.secret (base64.EncodeToString t.Payload)) ∧
    (t.Signature ≠ hmac.Sum console.signer.secret (base64.EncodeToString t.Payload) →
      console.Authenticate decodeJSON t = .error (errs.New consoleauth.Error "incorrect signature")) ∧
    ((admin.Authorize decodeJSON decode now ctx).2 = none →
      t.Signature = hmac.Sum admin.signer.secret (base64.EncodeToString t.Payload)) ∧
    ((console.Authorize decodeJSON decode now ctx).2 = none →
      t.Signature = hmac.Sum console.signer.secret (base64.EncodeToString t.Payload)) := by
  refine ⟨?_, ?_, ?_, ?_, ?_, ?_⟩
  · intro c h
    rw [adminauth_authenticate_eq] at h
    by_contra hne
    simp [hne] at h
  · intro hne
    rw [adminauth_authenticate_eq, if_neg hne]
  · intro c h
    rw [consoleauth_Authenticate_eq] at h
    by_contra hne
    simp [hne] at h
  · intro hne
    rw [consoleauth_Authenticate_eq, if_neg hne]
  · intro h
    by_contra hne
    simp [adminauth.Service.Authorize, auth.GetToken, hctx, hdec, adminauth_authenticate_eq,
      hne, errs.Wrap] at h
  · intro h
    by_contra hne
    simp [consoleauth.Service.Authorize, auth.GetToken, hctx, hdec, consoleauth_Authenticate_eq,
      hne, errs.Wrap] at h

theorem fixture_tampered_signature (c : auth.Claims) (key : List Byte) :
    (fixture.tampered c).Signature
      ≠ hmac.Sum key (base64.EncodeToString (fixture.tampered c).Payload) ∨
    (fixture.tokenOf c).Signature
      ≠ hmac.Sum key (base64.EncodeToString (fixture.tokenOf c).Payload) := by
  by_cases h : (fixture.tokenOf c).Signature
      = hmac.Sum key (base64.EncodeToString (fixture.tokenOf c).Payload)
  · left
    intro h2
    have h3 : (fixture.tampered c).Signature = (fixture.tokenOf c).Signature ++ [0] := rfl
    have h4 : (fixture.tampered c).Payload = (fixture.tokenOf c).Payload := rfl
    rw [h3, h4, ← h] at h2
    have := congrArg List.length h2
    simp at this
  · right
    exact h

theorem fixture_tampered_ne (c : auth.Claims) (h : c.JSON.2 = none) :
    (fixture.tampered c).Signature
      ≠ hmac.Sum fixture.secret (base64.EncodeToString (fixture.tampered c).Payload) := by
  rcases fixture_tampered_signature c fixture.secret with h1 | h1
  · exact h1
  · exact absurd (fixture_tokenOf_signature c h) h1

/-- Witness of C2: the token of the fixtures is accepted and carries the recomputed
signature; the same token with one more signature byte is rejected with
`incorrect signature`. -/
theorem authenticate_accepts_only_the_recomputed_signature_witness :
    (fixture.tokenOf fixture.fresh).Signature
      = hmac.Sum fixture.secret (base64.EncodeToString (fixture.tokenOf fixture.fresh).Payload) ∧
    fixture.admin.authenticate fixture.decodeJSON (fixture.tampered fixture.fresh)
      = .error (errs.New adminauth.Error "incorrect signature") ∧
    fixture.console.Authenticate fixture.decodeJSON (fixture.tampered fixture.fresh)
      = .error (errs.New consoleauth.Error "incorrect signature") :=
  have hs := fixture_tokenOf_signature fixture.fresh fixture_fresh_serialises
  have hok : fixture.admin.authenticate fixture.decodeJSON (fixture.tokenOf fixture.fresh) = .ok fixture.fresh := by
    rw [adminauth_authenticate_eq]
    exact (if_pos hs).trans fixture_fresh_payload
  have hok2 : fixture.console.Authenticate fixture.decodeJSON (fixture.tokenOf fixture.fresh)
      = .ok fixture.fresh := by
    rw [consoleauth_Authenticate_eq]
    exact (if_pos hs).trans fixture_fresh_payload
  have hA := (Authorize_passes_live_known fixture.decodeJSON
    (fixture.decodeTo (fixture.tokenOf fixture.fresh)) fixture.admin fixture.console fixture.now
    fixture.ctx (bytesOf "token") (fixture.tokenOf fixture.fresh) fixture.fresh rfl rfl
    fixture_fresh_payload (Or.inr (by decide)))
  have hA1 := hA.1 hs ⟨_, List.mem_singleton.mpr rfl, rfl⟩
  have hA2 := hA.2 hs ⟨_, List.mem_singleton.mpr rfl, rfl⟩
  have good := authenticate_accepts_only_the_recomputed_signature fixture.decodeJSON fixture.admin fixture.console
    (fixture.tokenOf fixture.fresh) (fixture.decodeTo (fixture.tokenOf fixture.fresh))
    fixture.now fixture.ctx (bytesOf "token") rfl rfl
  have bad := authenticate_accepts_only_the_recomputed_signature fixture.decodeJSON fixture.admin fixture.console
    (fixture.tampered fixture.fresh) (fixture.decodeTo (fixture.tampered fixture.fresh))
    fixture.now fixture.ctx (bytesOf "token") rfl rfl
  have _g3 := good.2.2.1 fixture.fresh hok2
  have _g5 := good.2.2.2.2.1 (by rw [hA1])
  have _g6 := good.2.2.2.2.2 (by rw [hA2])
  ⟨good.1 fixture.fresh hok, bad.2.1 (fixture_tampered_ne _ fixture_fresh_serialises),
   bad.2.2.2.1 (fixture_tampered_ne _ fixture_fresh_serialises)⟩

/-! ## Claims about the signer -/

/-- C10. `SignToken` sets the signature to HMAC-SHA256(secret, base64url(Payload)),
computed over the base64url text of the payload, leaves the payload as it is and does not
read the previous signature; `CreateToken` returns the token whose payload is the JSON of
the claims, signed so (and the zero token with the wrapped error when the claims do not
serialise); the token depends on nothing but the secret and the claims. -/
theorem SignToken_and_CreateToken_spec (a : auth.TokenSigner) (token : auth.Token)
    (previous : List Byte) (c : auth.Claims) :
    a.SignToken token
      = ({ Payload := token.Payload,
           Signature := hmac.Sum a.secret (base64.EncodeToString token.Payload) }, none) ∧
    a.SignToken { token with Signature := previous } = a.SignToken token ∧
    a.CreateToken c
      = (match c.JSON with
         | (json, none) =>
           ({ Payload := json,
              Signature := hmac.Sum a.secret (base64.EncodeToString json) }, none)
         | (_, some err) => (auth.Token.zero, errs.Wrap auth.TokenSignerError (some err))) ∧
    a.CreateToken c = (auth.NewTokenSigner a.secret).CreateToken c := by
  refine ⟨rfl, rfl, ?_, rfl⟩
  unfold auth.TokenSigner.CreateToken
  rcases hj : c.JSON with ⟨json, _ | err⟩
  · simp only [SignToken_eq]
  · rfl

/-! ## Tokens of another secret -/

/-- The MAC depends on the key through its key block only. -/
theorem hmac_Sum_of_keyBlock_eq (k1 k2 msg : List Byte) (h : hmac.keyBlock k1 = hmac.keyBlock k2) :
    hmac.Sum k1 msg = hmac.Sum k2 msg := by
  unfold hmac.Sum
  rw [h]

set_option maxRecDepth 100000 in
theorem fixture_keyBlock_padded :
    hmac.keyBlock fixture.paddedSecret = hmac.keyBlock fixture.secret := by
  decide

/-- C6, as stated, fails. The secrets `secret` and `secret` followed by a zero byte are
different, yet the token that a signer holding the first creates is accepted by
`authenticate` and by `Authenticate` of services holding the second. -/
theorem token_of_zero_padded_secret_is_accepted :
    fixture.secret ≠ fixture.paddedSecret ∧
    fixture.adminPadded.authenticate
        fixture.decodeJSON ((auth.NewTokenSigner fixture.secret).CreateToken fixture.fresh).1 = .ok fixture.fresh ∧
    fixture.consolePadded.Authenticate
        fixture.decodeJSON ((auth.NewTokenSigner fixture.secret).CreateToken fixture.fresh).1 = .ok fixture.fresh := by
  have hs : (fixture.tokenOf fixture.fresh).Signature
      = hmac.Sum fixture.paddedSecret
          (base64.EncodeToString (fixture.tokenOf fixture.fresh).Payload) := by
    rw [hmac_Sum_of_keyBlock_eq _ _ _ fixture_keyBlock_padded]
    exact fixture_tokenOf_signature fixture.fresh fixture_fresh_serialises
  have hne : fixture.secret ≠ fixture.paddedSecret := by
    intro h
    have := congrArg List.length h
    simp [fixture.paddedSecret] at this
  refine ⟨hne, ?_, ?_⟩
  · show fixture.adminPadded.authenticate fixture.decodeJSON (fixture.tokenOf fixture.fresh) = _
    rw [adminauth_authenticate_eq]
    exact (if_pos hs).trans fixture_fresh_payload
  · show fixture.consolePadded.Authenticate fixture.decodeJSON (fixture.tokenOf fixture.fresh) = _
    rw [consoleauth_Authenticate_eq]
    exact (if_pos hs).trans fixture_fresh_payload

/-- The MAC is the SHA-256 digest of the outer text. -/
theorem hmac_Sum_eq_outer (key msg : List Byte) :
    hmac.Sum key msg = sha256.Sum256 (hmac.outer key msg) := rfl

/-- The key block has the block size of SHA-256, 64 bytes. -/
theorem keyBlock_length (key : List Byte) : (hmac.keyBlock key).length = 64 := by
  unfold hmac.keyBlock
  by_cases h : key.length > sha256.BlockSize
  · rw [if_pos h, List.length_append, List.length_replicate, Sum256_length]
    rfl
  · simp only [h, if_false, List.length_append, List.length_replicate]
    simp only [sha256.BlockSize] at h ⊢
    omega

/-- The key block of a secret of at most 64 bytes is the secret, filled with zero bytes. -/
theorem keyBlock_short (key : List Byte) (h : key.length ≤ 64) :
    hmac.keyBlock key = key ++ List.replicate (64 - key.length) 0 := by
  unfold hmac.keyBlock
  have h2 : ¬ key.length > sha256.BlockSize := by
    simp only [sha256.BlockSize]
    omega
  simp only [h2, if_false]
  rfl

set_option maxRecDepth 100000 in
theorem xor_opad_cancel : ∀ b : Byte, (b ^^^ 0x5c) ^^^ 0x5c = b := by
  decide

theorem map_opad_injective (l1 l2 : List Byte)
    (h : l1.map (fun b => b ^^^ (0x5c : Byte)) = l2.map (fun b => b ^^^ (0x5c : Byte))) :
    l1 = l2 := by
  have := congrArg (List.map (fun b => b ^^^ (0x5c : Byte))) h
  simpa [List.map_map, Function.comp_def, xor_opad_cancel] using this

/-- Different key blocks give different outer texts. -/
theorem outer_ne_of_keyBlock_ne (k1 k2 msg : List Byte) (h : hmac.keyBlock k1 ≠ hmac.keyBlock k2) :
    hmac.outer k1 msg ≠ hmac.outer k2 msg := by
  intro he
  unfold hmac.outer at he
  have hl : ((hmac.keyBlock k1).map (fun b => b ^^^ 0x5c)).length
      = ((hmac.keyBlock k2).map (fun b => b ^^^ 0x5c)).length := by
    rw [List.length_map, List.length_map, keyBlock_length, keyBlock_length]
  exact h (map_opad_injective _ _ (List.append_inj he hl).1)

/-- HMAC-SHA256 is not injective in the key: for every message two different keys of 64
bytes, which are their own key blocks, have the same MAC. There are more key blocks than
digests. -/
theorem hmac_Sum_collides (msg : List Byte) :
    ∃ k1 k2 : List Byte, k1.length = 64 ∧ k2.length = 64 ∧
      hmac.keyBlock k1 ≠ hmac.keyBlock k2 ∧ hmac.Sum k1 msg = hmac.Sum k2 msg := by
  let f : Mathlib.Vector Byte 64 → Mathlib.Vector Byte 32 :=
    fun v => ⟨hmac.Sum v.toList msg, by rw [hmac_Sum_eq_outer, Sum256_length]⟩
  have hcard : Fintype.card (Mathlib.Vector Byte 32) < Fintype.card (Mathlib.Vector Byte 64) := by
    rw [card_vector, card_vector, Fintype.card_fin]
    norm_num
  obtain ⟨v1, v2, hne, heq⟩ := Fintype.exists_ne_map_eq_of_card_lt f hcard
  refine ⟨v1.toList, v2.toList, v1.toList_length, v2.toList_length, ?_, ?_⟩
  · rw [keyBlock_short _ (by rw [v1.toList_length]), keyBlock_short _ (by rw [v2.toList_length])]
    simp only [Mathlib.Vector.toList_length, Nat.sub_self, List.replicate_zero, List.append_nil]
    intro h
    exact hne (Mathlib.Vector.toList_injective h)
  · exact congrArg Mathlib.Vector.toList heq

set_option maxRecDepth 100000 in
/-- The key blocks of `secret` and of `otherSecret` differ. -/
theorem fixture_keyBlock_other :
    hmac.keyBlock fixture.secret ≠ hmac.keyBlock fixture.otherSecret := by
  decide

/-- C6, amended. The HMAC key block of a secret is the secret itself when it has at most
64 bytes, its SHA-256 digest otherwise, filled with zero bytes to 64 bytes. For every
claims that serialise and every two secrets with different key blocks, the token created
by a signer with the first secret is rejected with `incorrect signature` by `authenticate`
and `Authenticate` of services whose signer holds the second, unless SHA-256 collides on
the two texts that the outer hash of the MAC reads (which differ). Two secrets with the
same key block accept the tokens of each other: the result is the one of the decoding of
the payload. Two secrets of at most 64 bytes have the same key block exactly when they are
equal after the filling with zero bytes, that is when they differ by zero bytes at the end
only. The condition on SHA-256 cannot be dropped: for the text of every payload there are
two different key blocks with the same MAC. -/
theorem token_of_another_key_block_is_rejected
    (decodeJSON : List Byte → Except GoError auth.Claims)
    (c : auth.Claims) (s1 s2 : List Byte)
    (admin : adminauth.Service) (console : consoleauth.Service) (json : List Byte)
    (hjson : c.JSON = (json, none))
    (hadmin : admin.signer = auth.NewTokenSigner s2)
    (hconsole : console.signer = auth.NewTokenSigner s2) :
    (hmac.keyBlock s1 ≠ hmac.keyBlock s2 →
      (sha256.Sum256 (hmac.outer s1 (base64.EncodeToString json))
          = sha256.Sum256 (hmac.outer s2 (base64.EncodeToString json)) →
        hmac.outer s1 (base64.EncodeToString json)
          = hmac.outer s2 (base64.EncodeToString json)) →
      admin.authenticate decodeJSON ((auth.NewTokenSigner s1).CreateToken c).1
        = .error (errs.New adminauth.Error "incorrect signature") ∧
      console.Authenticate decodeJSON ((auth.NewTokenSigner s1).CreateToken c).1
        = .error (errs.New consoleauth.Error "incorrect signature")) ∧
    (hmac.keyBlock s1 = hmac.keyBlock s2 →
      admin.authenticate decodeJSON ((auth.NewTokenSigner s1).CreateToken c).1
        = auth.FromJSON decodeJSON json ∧
      console.Authenticate decodeJSON ((auth.NewTokenSigner s1).CreateToken c).1
        = auth.FromJSON decodeJSON json) ∧
    (s1.length ≤ 64 → s2.length ≤ 64 →
      (hmac.keyBlock s1 = hmac.keyBlock s2 ↔
        s1 ++ List.replicate (64 - s1.length) 0 = s2 ++ List.replicate (64 - s2.length) 0)) ∧
    (∃ k1 k2 : List Byte, k1.length = 64 ∧ k2.length = 64 ∧
      hmac.keyBlock k1 ≠ hmac.keyBlock k2 ∧
      hmac.Sum k1 (base64.EncodeToString json) = hmac.Sum k2 (base64.EncodeToString json)) := by
  rw [CreateToken_of_JSON _ c json hjson]
  refine ⟨?_, ?_, ?_, hmac_Sum_collides _⟩
  · intro hkb hcr
    have hne : hmac.Sum s1 (base64.EncodeToString json)
        ≠ hmac.Sum s2 (base64.EncodeToString json) := by
      rw [hmac_Sum_eq_outer, hmac_Sum_eq_outer]
      exact fun h => outer_ne_of_keyBlock_ne s1 s2 _ hkb (hcr h)
    constructor
    · rw [adminauth_authenticate_eq, hadmin]
      exact if_neg hne
    · rw [consoleauth_Authenticate_eq, hconsole]
      exact if_neg hne
  · intro hkb
    have heq : hmac.Sum s1 (base64.EncodeToString json)
        = hmac.Sum s2 (base64.EncodeToString json) := hmac_Sum_of_keyBlock_eq _ _ _ hkb
    constructor
    · rw [adminauth_authenticate_eq, hadmin]
      exact if_pos heq
    · rw [consoleauth_Authenticate_eq, hconsole]
      exact if_pos heq
  · intro h1 h2
    rw [keyBlock_short s1 h1, keyBlock_short s2 h2]

/-- Witness of the amended C6: the token created under `secret` is rejected by the
services that hold `otherSecret`, whose key block is another one, and accepted by the
services that hold `secret` followed by a zero byte, whose key block is the same. -/
theorem token_of_another_key_block_is_rejected_witness :
    (fixture.adminOther.authenticate fixture.decodeJSON
        ((auth.NewTokenSigner fixture.secret).CreateToken fixture.fresh).1
      = .error (errs.New adminauth.Error "incorrect signature") ∧
     fixture.consoleOther.Authenticate fixture.decodeJSON
        ((auth.NewTokenSigner fixture.secret).CreateToken fixture.fresh).1
      = .error (errs.New consoleauth.Error "incorrect signature")) ∧
    (fixture.adminPadded.authenticate fixture.decodeJSON
        ((auth.NewTokenSigner fixture.secret).CreateToken fixture.fresh).1
      = auth.FromJSON fixture.decodeJSON fixture.fresh.JSON.1 ∧
     fixture.consolePadded.Authenticate fixture.decodeJSON
        ((auth.NewTokenSigner fixture.secret).CreateToken fixture.fresh).1
      = auth.FromJSON fixture.decodeJSON fixture.fresh.JSON.1) :=
  ⟨(token_of_another_key_block_is_rejected fixture.decodeJSON fixture.fresh fixture.secret
      fixture.otherSecret fixture.adminOther fixture.consoleOther fixture.fresh.JSON.1
      fixture_fresh_JSON rfl rfl).1 fixture_keyBlock_other
      (fun h => absurd h fixture_secrets_differ_on_fresh),
    (token_of_another_key_block_is_rejected fixture.decodeJSON fixture.fresh fixture.secret
      fixture.paddedSecret fixture.adminPadded fixture.consolePadded fixture.fresh.JSON.1
      fixture_fresh_JSON rfl rfl).2.1 fixture_keyBlock_padded.symm⟩

/-! ## Claims about the round trips -/

/-- C4, as stated, fails. Claims that expire in the year 10000 do not serialise: `JSON`
returns no bytes and an error, and `FromJSON` of its result fails. Claims that expire at
2020-09-13T12:26:40Z in a zone 30 seconds east of UTC serialise with the zone `+00:00`, and
`FromJSON` yields an expiry 30 seconds later. Claims that expire in a zone 25 hours east of
UTC do not serialise either. -/
theorem JSON_round_trip_fails_beyond_9999_and_off_the_minute :
    (fixture.beyond.JSON.1 = [] ∧ fixture.beyond.JSON.2.isSome = true ∧
      (auth.FromJSON fixture.decodeJSON fixture.beyond.JSON.1).toOption = none) ∧
    (fixture.skewed.JSON.2 = none ∧
      auth.FromJSON fixture.decodeJSON fixture.skewed.JSON.1
        = .ok { ID := fixture.id, ExpiresAt := { sec := 63735596830, nsec := 0, offset := 0 } } ∧
      fixture.skewed.ExpiresAt.sec = 63735596800) ∧
    (fixture.faraway.JSON.1 = [] ∧ fixture.faraway.JSON.2.isSome = true ∧
      (auth.FromJSON fixture.decodeJSON fixture.faraway.JSON.1).toOption = none) := by
  refine ⟨⟨?_, ?_, ?_⟩, ⟨?_, ?_, ?_⟩, ?_, ?_, ?_⟩ <;> rfl

/-- C4, amended. For every claims whose expiry has a year from 0 to 9999 and a zone
offset of whole minutes below 24 hours, `JSON` succeeds and `FromJSON` of its bytes
succeeds and yields claims with the same ID and the same expiry instant (and offset); the
zero time is among them. The text that `JSON` writes lies in the embedded fragment of
JSON, so that the result is the same for every `decodeJSON`. The hypothesis `inRange`
says that the seconds field is an `int64`, as it is for every Go `time.Time`. -/
theorem FromJSON_JSON_round_trip (decodeJSON : List Byte → Except GoError auth.Claims)
    (c : auth.Claims) (hr : c.ExpiresAt.inRange)
    (hy0 : 0 ≤ c.ExpiresAt.Year) (hy1 : c.ExpiresAt.Year < 10000)
    (hmod : c.ExpiresAt.offset % 60 = 0)
    (hb : -86400 < c.ExpiresAt.offset ∧ c.ExpiresAt.offset < 86400) :
    c.JSON.2 = none ∧
    ∃ c1, auth.FromJSON decodeJSON c.JSON.1 = .ok c1 ∧ c1.ID = c.ID ∧
      c1.ExpiresAt.sec = c.ExpiresAt.sec ∧ c1.ExpiresAt.nsec = c.ExpiresAt.nsec ∧
      c1.ExpiresAt.offset = c.ExpiresAt.offset := by
  obtain ⟨h1, h2⟩ := FromJSON_JSON_of_inRange decodeJSON c hr hy0 hy1 hmod hb
  exact ⟨h1, c, h2, rfl, rfl, rfl, rfl⟩

/-- Witness of the amended C4: claims with the zero expiry, and claims that expire one
nanosecond before 2021 in a zone 5 hours 30 minutes west of UTC. -/
theorem FromJSON_JSON_round_trip_witness :
    (fixture.forever.JSON.2 = none ∧
      ∃ c1, auth.FromJSON fixture.decodeJSON fixture.forever.JSON.1 = .ok c1 ∧ c1.ID = fixture.forever.ID ∧
        c1.ExpiresAt.sec = fixture.forever.ExpiresAt.sec ∧
        c1.ExpiresAt.nsec = fixture.forever.ExpiresAt.nsec ∧
        c1.ExpiresAt.offset = fixture.forever.ExpiresAt.offset) ∧
    (fixture.western.JSON.2 = none ∧
      ∃ c1, auth.FromJSON fixture.decodeJSON fixture.western.JSON.1 = .ok c1 ∧ c1.ID = fixture.western.ID ∧
        c1.ExpiresAt.sec = fixture.western.ExpiresAt.sec ∧
        c1.ExpiresAt.nsec = fixture.western.ExpiresAt.nsec ∧
        c1.ExpiresAt.offset = fixture.western.ExpiresAt.offset) :=
  ⟨FromJSON_JSON_round_trip fixture.decodeJSON fixture.forever (by decide) (by decide) (by decide) (by decide)
      (by decide),
   FromJSON_JSON_round_trip fixture.decodeJSON fixture.western (by decide) (by decide) (by decide) (by decide)
      (by decide)⟩

set_option maxRecDepth 100000 in
/-- C3, as stated, fails. For claims that expire in the year 10000, `CreateToken` returns
the zero token and an error, and the zero token does not verify. For claims that
expire at 2020-09-13T12:26:40Z in a zone 30 seconds east of UTC, the created token verifies
but the claims returned expire 30 seconds later. For claims that expire in a zone 25 hours
east of UTC, `CreateToken` returns the zero token and an error. -/
theorem CreateToken_round_trip_fails_beyond_9999_and_off_the_minute :
    (((auth.NewTokenSigner fixture.secret).CreateToken fixture.beyond).1 = auth.Token.zero ∧
      ((auth.NewTokenSigner fixture.secret).CreateToken fixture.beyond).2.isSome = true ∧
      fixture.admin.authenticate fixture.decodeJSON ((auth.NewTokenSigner fixture.secret).CreateToken
        fixture.beyond).1 = .error (errs.New adminauth.Error "incorrect signature")) ∧
    (((auth.NewTokenSigner fixture.secret).CreateToken fixture.skewed).2 = none ∧
      fixture.admin.authenticate fixture.decodeJSON ((auth.NewTokenSigner fixture.secret).CreateToken
        fixture.skewed).1
        = .ok { ID := fixture.id, ExpiresAt := { sec := 63735596830, nsec := 0, offset := 0 } } ∧
      fixture.skewed.ExpiresAt.sec = 63735596800) ∧
    (((auth.NewTokenSigner fixture.secret).CreateToken fixture.faraway).1 = auth.Token.zero ∧
      ((auth.NewTokenSigner fixture.secret).CreateToken fixture.faraway).2.isSome = true) := by
  have hzero : auth.Token.zero.Signature
      ≠ hmac.Sum fixture.admin.signer.secret (base64.EncodeToString auth.Token.zero.Payload) := by
    intro h
    have hl := congrArg List.length h
    rw [hmac_Sum_length] at hl
    exact absurd hl (by decide)
  have hbeyond : ((auth.NewTokenSigner fixture.secret).CreateToken fixture.beyond).1
      = auth.Token.zero := by
    rfl
  have hj : fixture.skewed.JSON = (fixture.skewed.JSON.1, none) := by
    rfl
  refine ⟨⟨hbeyond, by rfl, ?_⟩, ⟨by rfl, ?_, by rfl⟩, by rfl, by rfl⟩
  · rw [hbeyond, adminauth_authenticate_eq, if_neg hzero]
  · rw [CreateToken_of_JSON _ _ _ hj, adminauth_authenticate_eq]
    exact (if_pos rfl).trans (by rfl)

/-- C3, amended. For every claims whose expiry has a year from 0 to 9999 and a zone
offset of whole minutes below 24 hours, and for every secret, `CreateToken` succeeds and
the token verifies under a signer with the same secret, in the admin service and in the
console service, and the claims returned are equal to the claims signed. The hypothesis
`inRange` says that the seconds field is an `int64`, as it is for every Go `time.Time`. -/
theorem CreateToken_then_authenticate_round_trip
    (decodeJSON : List Byte → Except GoError auth.Claims)
    (c : auth.Claims) (s : List Byte)
    (admin : adminauth.Service) (console : consoleauth.Service)
    (hadmin : admin.signer = auth.NewTokenSigner s)
    (hconsole : console.signer = auth.NewTokenSigner s)
    (hr : c.ExpiresAt.inRange) (hy0 : 0 ≤ c.ExpiresAt.Year) (hy1 : c.ExpiresAt.Year < 10000)
    (hmod : c.ExpiresAt.offset % 60 = 0)
    (hb : -86400 < c.ExpiresAt.offset ∧ c.ExpiresAt.offset < 86400) :
    ((auth.NewTokenSigner s).CreateToken c).2 = none ∧
    admin.authenticate decodeJSON ((auth.NewTokenSigner s).CreateToken c).1 = .ok c ∧
    console.Authenticate decodeJSON ((auth.NewTokenSigner s).CreateToken c).1 = .ok c := by
  obtain ⟨h1, h2⟩ := FromJSON_JSON_of_inRange decodeJSON c hr hy0 hy1 hmod hb
  have hj : c.JSON = (c.JSON.1, none) := by rw [← h1]
  rw [CreateToken_of_JSON _ c _ hj]
  refine ⟨rfl, ?_, ?_⟩
  · rw [adminauth_authenticate_eq, hadmin]
    exact (if_pos rfl).trans h2
  · rw [consoleauth_Authenticate_eq, hconsole]
    exact (if_pos rfl).trans h2

/-- Witness of the amended C3: the zero expiry, and an expiry in a western zone. -/
theorem CreateToken_then_authenticate_round_trip_witness :
    (((auth.NewTokenSigner fixture.secret).CreateToken fixture.forever).2 = none ∧
      fixture.admin.authenticate fixture.decodeJSON ((auth.NewTokenSigner fixture.secret).CreateToken
        fixture.forever).1 = .ok fixture.forever ∧
      fixture.console.Authenticate fixture.decodeJSON ((auth.NewTokenSigner fixture.secret).CreateToken
        fixture.forever).1 = .ok fixture.forever) ∧
    (((auth.NewTokenSigner fixture.secret).CreateToken fixture.western).2 = none ∧
      fixture.admin.authenticate fixture.decodeJSON ((auth.NewTokenSigner fixture.secret).CreateToken
        fixture.western).1 = .ok fixture.western ∧
      fixture.console.Authenticate fixture.decodeJSON ((auth.NewTokenSigner fixture.secret).CreateToken
        fixture.western).1 = .ok fixture.western) :=
  ⟨CreateToken_then_authenticate_round_trip fixture.decodeJSON fixture.forever fixture.secret fixture.admin
      fixture.console rfl rfl (by decide) (by decide) (by decide) (by decide) (by decide),
   CreateToken_then_authenticate_round_trip fixture.decodeJSON fixture.western fixture.secret fixture.admin
      fixture.console rfl rfl (by decide) (by decide) (by decide) (by decide) (by decide)⟩
/-! ## The managers repository -/

/-- A successful `Add` appends the row of the manager, and no row before it has its ID or
its normalized email. -/
theorem managersdb_Add_ok (mapUpper : List Byte → List Byte) (db db1 : database.managersdb)
    (now : time.Time) (m : managers.Manager) (h : db.Add mapUpper now m = (db1, none)) :
    db1.rows = db.rows ++
      [{ id := m.ID, password_hash := m.PasswordHash, first_name := m.FirstName,
         last_name := m.LastName, email := m.Email,
         email_normalized := database.normalizeEmail mapUpper m.Email,
         created_at := now.UTC }] ∧
    (∀ r ∈ db.rows, r.id ≠ m.ID) ∧
    (∀ r ∈ db.rows, r.email_normalized ≠ database.normalizeEmail mapUpper m.Email) := by
  unfold database.managersdb.Add at h
  dsimp only at h
  split_ifs at h with hany
  · simp [errs.Wrap] at h
  · simp only [errs.Wrap, Prod.mk.injEq, and_true] at h
    subst h
    refine ⟨rfl, ?_, ?_⟩
    · intro r hr heq
      exact hany (List.any_eq_true.mpr ⟨r, hr, by simp [heq]⟩)
    · intro r hr heq
      exact hany (List.any_eq_true.mpr ⟨r, hr, by simp [heq]⟩)

/-- An `Add` of a manager whose ID and normalized email are in no row succeeds. -/
theorem managersdb_Add_succeeds (mapUpper : List Byte → List Byte) (db : database.managersdb)
    (now : time.Time) (m : managers.Manager)
    (hid : ∀ r ∈ db.rows, r.id ≠ m.ID)
    (hemail : ∀ r ∈ db.rows, r.email_normalized ≠ database.normalizeEmail mapUpper m.Email) :
    (db.Add mapUpper now m).2 = none := by
  unfold database.managersdb.Add
  dsimp only
  rw [if_neg]
  · rfl
  · intro hany
    obtain ⟨r, hr, h⟩ := List.any_eq_true.mp hany
    simp only [Bool.or_eq_true, decide_eq_true_eq] at h
    rcases h with h | h
    · exact hid r hr h
    · exact hemail r hr h

/-- The row of a query by ID over a table followed by one more row. -/
theorem managersdb_Get_append (rows : List database.ManagerRow) (row : database.ManagerRow)
    (id : uuid.UUID) :
    (database.managersdb.mk (rows ++ [row])).Get id
      = if (∃ r ∈ rows, r.id = id) then (database.managersdb.mk rows).Get id
        else (database.managersdb.mk [row]).Get id := by
  unfold database.managersdb.Get
  simp only [List.find?_append]
  split_ifs with h
  · obtain ⟨r, hr, hid⟩ := h
    cases hf : rows.find? (fun r => decide (r.id = id)) with
    | some r0 => rfl
    | none =>
      rw [List.find?_eq_none] at hf
      exact absurd (by simpa using hid) (hf r hr)
  · have hf : rows.find? (fun r => decide (r.id = id)) = none := by
      rw [List.find?_eq_none]
      intro r hr
      simpa using fun hid => h ⟨r, hr, hid⟩
    rw [hf]
    rfl

/-- A query by an email with no row of that normalized email has no manager. -/
theorem managersdb_GetByEmail_missing (mapUpper : List Byte → List Byte)
    (db : database.managersdb) (email : List Byte)
    (h : ∀ r ∈ db.rows, r.email_normalized ≠ database.normalizeEmail mapUpper email) :
    db.GetByEmail mapUpper email
      = (managers.Manager.zero,
         some (errs.wrap managers.ErrNoManager database.ErrNoRows)) := by
  unfold database.managersdb.GetByEmail
  have hf : db.rows.find?
      (fun r => decide (r.email_normalized = database.normalizeEmail mapUpper email))
      = none := by
    rw [List.find?_eq_none]
    intro r hr
    simpa using h r hr
  rw [hf]
  rfl

/-- A query by email returns the first row of that normalized email, under the email of
the query. -/
theorem managersdb_GetByEmail_found (mapUpper : List Byte → List Byte)
    (db : database.managersdb) (email : List Byte) (r : database.ManagerRow)
    (h : db.rows.find?
      (fun r => decide (r.email_normalized = database.normalizeEmail mapUpper email))
      = some r) :
    db.GetByEmail mapUpper email
      = ({ ID := r.id, Email := email, FirstName := r.first_name, LastName := r.last_name,
           PasswordHash := r.password_hash, CreatedAt := r.created_at }, none) := by
  unfold database.managersdb.GetByEmail
  rw [h]
  simp only [ParseBytes_String]
/-- C18. A manager added with an email is found by `GetByEmail` under every query whose
upper-casing is the upper-casing of that email: the result carries the ID, the names and
the password hash of the manager (and the email of the query). A query whose upper-casing
is the normalized email of no row fails with an error of the class `ErrNoManager` and the
zero manager. -/
theorem GetByEmail_finds_manager_by_normalized_email (mapUpper : List Byte → List Byte)
    (db db1 other : database.managersdb) (now : time.Time) (m : managers.Manager)
    (query absent : List Byte)
    (hadd : db.Add mapUpper now m = (db1, none))
    (hquery : strings.ToUpper mapUpper query = strings.ToUpper mapUpper m.Email)
    (habsent : ∀ r ∈ other.rows, r.email_normalized ≠ strings.ToUpper mapUpper absent) :
    db1.GetByEmail mapUpper query
      = ({ ID := m.ID, FirstName := m.FirstName, LastName := m.LastName, Email := query,
           PasswordHash := m.PasswordHash, CreatedAt := now.UTC }, none) ∧
    (other.GetByEmail mapUpper absent).1 = managers.Manager.zero ∧
    errs.Has managers.ErrNoManager (other.GetByEmail mapUpper absent).2 = true := by
  obtain ⟨hrows, _, hemail⟩ := managersdb_Add_ok mapUpper db db1 now m hadd
  refine ⟨?_, ?_, ?_⟩
  · apply managersdb_GetByEmail_found mapUpper db1 query
      { id := m.ID, password_hash := m.PasswordHash, first_name := m.FirstName,
        last_name := m.LastName, email := m.Email,
        email_normalized := database.normalizeEmail mapUpper m.Email,
        created_at := now.UTC }
    rw [hrows, List.find?_append]
    have hf : db.rows.find?
        (fun r => decide (r.email_normalized = database.normalizeEmail mapUpper query))
        = none := by
      rw [List.find?_eq_none]
      intro r hr
      have := hemail r hr
      simpa [database.normalizeEmail, hquery] using this
    rw [hf]
    simp [database.normalizeEmail, hquery]
  · rw [managersdb_GetByEmail_missing mapUpper other absent habsent]
  · rw [managersdb_GetByEmail_missing mapUpper other absent habsent]
    rfl

/-- Witness of C18: the manager added as `am@qwe.com` is found under `Am@Qwe.Com`, and
the query `bh@qwe.com` has no manager in that table. -/
theorem GetByEmail_finds_manager_by_normalized_email_witness :
    (fixture.managersTable.GetByEmail fixture.mapUpper (bytesOf "Am@Qwe.Com")
      = ({ ID := fixture.id, FirstName := bytesOf "Aslan", LastName := bytesOf "Maslan",
           Email := bytesOf "Am@Qwe.Com", PasswordHash := bytesOf "qwerty123",
           CreatedAt := fixture.now }, none)) ∧
    (fixture.managersTable.GetByEmail fixture.mapUpper (bytesOf "bh@qwe.com")).1
      = managers.Manager.zero ∧
    errs.Has managers.ErrNoManager
      (fixture.managersTable.GetByEmail fixture.mapUpper (bytesOf "bh@qwe.com")).2 = true :=
  GetByEmail_finds_manager_by_normalized_email fixture.mapUpper { rows := [] }
    fixture.managersTable fixture.managersTable fixture.now fixture.manager
    (bytesOf "Am@Qwe.Com") (bytesOf "bh@qwe.com") (by decide) (by decide) (by decide)

/-- C20. After a manager is added without an error (which requires that its ID and its
normalized email were in no row), `Get` of its ID succeeds and returns the ID, the names,
the email and the password hash of the manager (with the time of the insertion as
`CreatedAt`), and the `Add` of a second manager, successful or not, leaves that result as
it is. -/
theorem Get_after_Add_returns_the_manager (mapUpper : List Byte → List Byte)
    (db db1 : database.managersdb) (now now2 : time.Time) (m m2 : managers.Manager)
    (hadd : db.Add mapUpper now m = (db1, none)) :
    db1.Get m.ID
      = ({ ID := m.ID, FirstName := m.FirstName, LastName := m.LastName, Email := m.Email,
           PasswordHash := m.PasswordHash, CreatedAt := now.UTC }, none) ∧
    (db1.Add mapUpper now2 m2).1.Get m.ID = db1.Get m.ID := by
  obtain ⟨hrows, hid, _⟩ := managersdb_Add_ok mapUpper db db1 now m hadd
  have hget : db1.Get m.ID
      = ({ ID := m.ID, FirstName := m.FirstName, LastName := m.LastName, Email := m.Email,
           PasswordHash := m.PasswordHash, CreatedAt := now.UTC }, none) := by
    have hdb : db1 = database.managersdb.mk db1.rows := rfl
    rw [hdb, hrows, managersdb_Get_append, if_neg]
    · simp [database.managersdb.Get]
    · rintro ⟨r, hr, h⟩
      exact hid r hr h
  refine ⟨hget, ?_⟩
  cases h2 : (db1.Add mapUpper now2 m2).2 with
  | some err =>
    have : (db1.Add mapUpper now2 m2).1 = db1 := by
      unfold database.managersdb.Add at h2 ⊢
      dsimp only at h2 ⊢
      split_ifs at h2 ⊢ with hany
      · rfl
      · simp [errs.Wrap] at h2
    rw [this]
  | none =>
    have hpair2 : db1.Add mapUpper now2 m2 = ((db1.Add mapUpper now2 m2).1, none) := by
      rw [← h2]
    obtain ⟨hrows2, _, _⟩ := managersdb_Add_ok mapUpper db1 _ now2 m2 hpair2
    have hdb : (db1.Add mapUpper now2 m2).1
        = database.managersdb.mk (db1.Add mapUpper now2 m2).1.rows := rfl
    rw [hdb, hrows2, managersdb_Get_append, if_pos]
    by_contra hnone
    have := managersdb_Get_missing db1 m.ID (by
      intro r hr h
      exact hnone ⟨r, hr, h⟩)
    rw [hget] at this
    simp at this

/-- Witness of C20: the first manager of `TestAccounts` added to the empty table, then
the second. -/
theorem Get_after_Add_returns_the_manager_witness :
    fixture.managersTable.Get fixture.manager.ID
      = ({ ID := fixture.manager.ID, FirstName := fixture.manager.FirstName,
           LastName := fixture.manager.LastName, Email := fixture.manager.Email,
           PasswordHash := fixture.manager.PasswordHash, CreatedAt := fixture.now.UTC },
         none) ∧
    (fixture.managersTable.Add fixture.mapUpper fixture.now fixture.manager2).1.Get
        fixture.manager.ID
      = fixture.managersTable.Get fixture.manager.ID :=
  Get_after_Add_returns_the_manager fixture.mapUpper { rows := [] } fixture.managersTable
    fixture.now fixture.now fixture.manager fixture.manager2 (by decide)

/-- The second manager of `TestAccounts` is added to the table of the first without an
error. -/
theorem fixture_second_Add_succeeds :
    (fixture.managersTable.Add fixture.mapUpper fixture.now fixture.manager2).2 = none ∧
    (fixture.managersTable.Add fixture.mapUpper fixture.now fixture.manager2).1.rows.length
      = 2 := by
  decide

/-- C19 (the code departs from it). The manager of the table is updated to the email
`new@qwe.com`: `Update` succeeds, and `GetByEmail` of `new@qwe.com` then fails with
`ErrNoManager`, while the query `am@qwe.com`, the email before the update, still finds the
manager, with its new first name. -/
theorem Update_leaves_the_normalized_email :
    (fixture.managersTable.Update fixture.moved).2 = none ∧
    (fixture.managersTable.Update fixture.moved).1.GetByEmail fixture.mapUpper
        (bytesOf "new@qwe.com")
      = (managers.Manager.zero, some (errs.wrap managers.ErrNoManager database.ErrNoRows)) ∧
    (fixture.managersTable.Update fixture.moved).1.Get fixture.id
      = ({ fixture.moved with CreatedAt := fixture.now }, none) ∧
    (fixture.managersTable.Update fixture.moved).1.GetByEmail fixture.mapUpper
        (bytesOf "am@qwe.com")
      = ({ fixture.moved with Email := bytesOf "am@qwe.com", CreatedAt := fixture.now },
         none) := by
  refine ⟨by decide, by decide, by decide, by decide⟩
/-! ## Logins -/

/-- In a list whose elements have pairwise different keys, the first element with the key
of a member is that member. -/
theorem find?_of_pairwise_key {α κ : Type} [DecidableEq κ] (key : α → κ) (l : List α)
    (hp : l.Pairwise (fun a b => key a ≠ key b)) (r : α) (hr : r ∈ l) (k : κ)
    (hk : k = key r) : l.find? (fun x => decide (key x = k)) = some r := by
  subst hk
  induction l with
  | nil => simp at hr
  | cons a t ih =>
    rw [List.pairwise_cons] at hp
    rcases List.mem_cons.mp hr with h | h
    · subst h
      simp
    · have hne : key a ≠ key r := hp.1 r h
      rw [List.find?_cons_of_neg _ (by simpa using hne)]
      exact ih hp.2 h

/-- The manager found by the email of a row, in a table that keeps its constraints. -/
theorem managersdb_GetByEmail_of_row (mapUpper : List Byte → List Byte)
    (db : database.managersdb) (email : List Byte) (r : database.ManagerRow)
    (hc : db.constrained) (hr : r ∈ db.rows)
    (hemail : database.normalizeEmail mapUpper email = r.email_normalized) :
    db.GetByEmail mapUpper email
      = ({ ID := r.id, Email := email, FirstName := r.first_name, LastName := r.last_name,
           PasswordHash := r.password_hash, CreatedAt := r.created_at }, none) := by
  apply managersdb_GetByEmail_found
  exact find?_of_pairwise_key (fun r => r.email_normalized) db.rows
    (hc.imp fun h => h.2) r hr _ hemail

/-- Method `Token` after a successful look-up: the password check, then the token of the
claims. -/
theorem Token_of_found (mapUpper : List Byte → List Byte)
    (compare : List Byte → List Byte → Option GoError) (service : adminauth.Service)
    (now : time.Time) (email password : List Byte) (manager : managers.Manager)
    (h : service.managers.db.GetByEmail mapUpper email = (manager, none)) :
    service.Token mapUpper compare now email password
      = match compare manager.PasswordHash password with
        | some err => (auth.Token.zero, some (errs.wrap adminauth.Error err))
        | none =>
          ((service.signer.CreateToken
              { ID := manager.ID, ExpiresAt := now.Add (time.Hour * 24) }).1,
           errs.Wrap adminauth.Error (service.signer.CreateToken
              { ID := manager.ID, ExpiresAt := now.Add (time.Hour * 24) }).2) := by
  unfold adminauth.Service.Token managers.Service.GetByEmail
  rw [h]
  simp only [errs.Wrap]

/-- Method `Token` after a look-up that finds no row. -/
theorem Token_of_missing (mapUpper : List Byte → List Byte)
    (compare : List Byte → List Byte → Option GoError) (service : adminauth.Service)
    (now : time.Time) (email password : List Byte)
    (h : ∀ r ∈ service.managers.db.rows,
      r.email_normalized ≠ database.normalizeEmail mapUpper email) :
    service.Token mapUpper compare now email password
      = (auth.Token.zero,
         some (errs.wrap adminauth.Error (errs.wrap managers.Error
           (errs.wrap managers.ErrNoManager database.ErrNoRows)))) := by
  unfold adminauth.Service.Token managers.Service.GetByEmail
  rw [managersdb_GetByEmail_missing mapUpper _ email h]
  rfl

/-- C12. For an email that is the normalized email of no manager in the store, and for
every password, `Token` returns the empty token and an error, the `ErrNoManager` error of
the store wrapped by the services: no token is signed. -/
theorem Token_of_unknown_email_is_refused (mapUpper : List Byte → List Byte)
    (compare : List Byte → List Byte → Option GoError) (service : adminauth.Service)
    (now : time.Time) (email password : List Byte)
    (h : ∀ r ∈ service.managers.db.rows,
      r.email_normalized ≠ database.normalizeEmail mapUpper email) :
    service.Token mapUpper compare now email password
      = (auth.Token.zero,
         some (errs.wrap adminauth.Error (errs.wrap managers.Error
           (errs.wrap managers.ErrNoManager database.ErrNoRows)))) :=
  Token_of_missing mapUpper compare service now email password h

/-- Witness of C12: the email `bh@qwe.com` at the service whose store holds
`am@qwe.com`. -/
theorem Token_of_unknown_email_is_refused_witness :
    fixture.admin.Token fixture.mapUpper fixture.compare fixture.now (bytesOf "bh@qwe.com")
        (bytesOf "qwerty123")
      = (auth.Token.zero,
         some (errs.wrap adminauth.Error (errs.wrap managers.Error
           (errs.wrap managers.ErrNoManager database.ErrNoRows)))) :=
  Token_of_unknown_email_is_refused fixture.mapUpper fixture.compare fixture.admin
    fixture.now (bytesOf "bh@qwe.com") (bytesOf "qwerty123") (by decide)

/-- C13. For a manager of the store, found by an email that normalizes to its normalized
email, and a password that `CompareHashAndPassword` does not match with its stored hash,
`Token` returns the empty token and the error of the comparison, wrapped: no token is
issued. -/
theorem Token_of_wrong_password_is_refused (mapUpper : List Byte → List Byte)
    (compare : List Byte → List Byte → Option GoError) (service : adminauth.Service)
    (now : time.Time) (email password : List Byte) (r : database.ManagerRow)
    (err : GoError)
    (hc : service.managers.db.constrained) (hr : r ∈ service.managers.db.rows)
    (hemail : database.normalizeEmail mapUpper email = r.email_normalized)
    (hmis : compare r.password_hash password = some err) :
    service.Token mapUpper compare now email password
      = (auth.Token.zero, some (errs.wrap adminauth.Error err)) := by
  rw [Token_of_found mapUpper compare service now email password _
    (managersdb_GetByEmail_of_row mapUpper _ email r hc hr hemail)]
  simp only [hmis]

/-- Witness of C13: the manager `am@qwe.com` with the password `qwerty124`. -/
theorem Token_of_wrong_password_is_refused_witness :
    fixture.admin.Token fixture.mapUpper fixture.compare fixture.now (bytesOf "am@qwe.com")
        (bytesOf "qwerty124")
      = (auth.Token.zero,
         some (errs.wrap adminauth.Error
           { classes := [],
             msg := "crypto/bcrypt: hashedPassword is not the hash of the given password" })) :=
  Token_of_wrong_password_is_refused fixture.mapUpper fixture.compare fixture.admin
    fixture.now (bytesOf "am@qwe.com") (bytesOf "qwerty124")
    { id := fixture.id, first_name := bytesOf "Aslan", last_name := bytesOf "Maslan",
      email := bytesOf "am@qwe.com", email_normalized := bytesOf "AM@QWE.COM",
      password_hash := bytesOf "qwerty123", created_at := fixture.now }
    _ (by decide) (by decide) (by decide) (by decide)
/-! ## The constraints of the managers table -/

/-- The empty table keeps the constraints. -/
theorem managersdb_empty_constrained : (database.managersdb.mk []).constrained :=
  List.Pairwise.nil

/-- A successful `Add` keeps the constraints of the table. -/
theorem managersdb_Add_constrained (mapUpper : List Byte → List Byte)
    (db db1 : database.managersdb) (now : time.Time) (m : managers.Manager)
    (hc : db.constrained) (h : db.Add mapUpper now m = (db1, none)) : db1.constrained := by
  obtain ⟨hrows, hid, hemail⟩ := managersdb_Add_ok mapUpper db db1 now m h
  unfold database.managersdb.constrained at hc ⊢
  rw [hrows, List.pairwise_append]
  refine ⟨hc, List.pairwise_singleton _ _, ?_⟩
  intro a ha b hb
  rw [List.mem_singleton] at hb
  subst hb
  exact ⟨hid a ha, hemail a ha⟩

/-- Method `Update` keeps the constraints of the table: it writes neither `id` nor
`email_normalized`. -/
theorem managersdb_Update_constrained (db : database.managersdb) (m : managers.Manager)
    (hc : db.constrained) : (db.Update m).1.constrained := by
  unfold database.managersdb.constrained at hc ⊢
  unfold database.managersdb.Update
  simp only
  have hsymm : Symmetric (fun a b : database.ManagerRow =>
      a.id ≠ b.id ∧ a.email_normalized ≠ b.email_normalized) :=
    fun a b h => ⟨fun e => h.1 e.symm, fun e => h.2 e.symm⟩
  rw [List.pairwise_append]
  refine ⟨hc.filter _, ?_, ?_⟩
  · rw [List.pairwise_map]
    exact (hc.filter _).imp (fun h => h)
  · intro a ha b hb
    rw [List.mem_filter] at ha
    rw [List.mem_map] at hb
    obtain ⟨b0, hb0, rfl⟩ := hb
    rw [List.mem_filter] at hb0
    have hne : a ≠ b0 := by
      intro e
      subst e
      simp only [decide_eq_true_eq] at hb0
      simp [hb0.2] at ha
    have hab : a.id ≠ b0.id ∧ a.email_normalized ≠ b0.email_normalized :=
      hc.forall hsymm ha.1 hb0.1 hne
    exact hab

/-- After an `Update` of a row to an email with the normalized email that the row has,
`GetByEmail` of the new email finds the manager as updated: the case that `TestAccounts`
checks. -/
theorem Update_then_GetByEmail_of_same_normalized (mapUpper : List Byte → List Byte)
    (db : database.managersdb) (m : managers.Manager) (r : database.ManagerRow)
    (hc : db.constrained) (hr : r ∈ db.rows) (hid : r.id = m.ID)
    (hemail : database.normalizeEmail mapUpper m.Email = r.email_normalized) :
    (db.Update m).2 = none ∧
    (db.Update m).1.GetByEmail mapUpper m.Email
      = ({ ID := m.ID, Email := m.Email, FirstName := m.FirstName, LastName := m.LastName,
           PasswordHash := m.PasswordHash, CreatedAt := r.created_at }, none) := by
  refine ⟨rfl, ?_⟩
  have h := managersdb_GetByEmail_of_row mapUpper (db.Update m).1 m.Email
    { r with password_hash := m.PasswordHash, first_name := m.FirstName,
             last_name := m.LastName, email := m.Email }
    (managersdb_Update_constrained db m hc)
    (by
      unfold database.managersdb.Update
      simp only [List.mem_append, List.mem_map, List.mem_filter, decide_eq_true_eq]
      exact Or.inr ⟨r, ⟨hr, hid⟩, rfl⟩)
    hemail
  rw [h, hid]
/-! ## The expiry of a login -/

/-- Adding 24 hours leaves the nanoseconds and the zone and adds 86400 seconds. -/
theorem Add_24_hours (t : time.Time) :
    t.Add (time.Hour * 24)
      = { sec := time.wrap64 (t.sec + 86400), nsec := t.nsec, offset := t.offset } := by
  have hd : time.Hour * 24 = 86400000000000 := by decide
  have h1 : Int.tdiv 86400000000000 1000000000 = 86400 := by decide
  have h2 : Int.tmod 86400000000000 1000000000 = 0 := by decide
  have hn : (t.nsec.val : Int) < 1000000000 := by exact_mod_cast t.nsec.isLt
  have hn0 : (0 : Int) ≤ (t.nsec.val : Int) := Int.ofNat_nonneg _
  unfold time.Time.Add
  simp only [hd, h1, h2, add_zero]
  rw [if_neg (by omega), if_neg (by omega), if_neg (by omega), if_neg (by omega)]
  simp only [Int.toNat_ofNat, Fin_ofNat_val]

/-- The duration of a console token is 24 hours. -/
theorem AuthTokenDuration_eq : consoleauth.AuthTokenDuration = time.Hour * 24 := by decide

/-- The seconds after an addition are in the range of an `int64`. -/
theorem wrap64_inRange (x : Int) : -(2 ^ 63) ≤ time.wrap64 x ∧ time.wrap64 x < 2 ^ 63 := by
  unfold time.wrap64
  constructor <;> omega

/-- A token created without an error carries the JSON of the claims and its MAC. -/
theorem CreateToken_ok (a : auth.TokenSigner) (c : auth.Claims) (t : auth.Token)
    (h : a.CreateToken c = (t, none)) :
    c.JSON = (t.Payload, none) ∧
    t.Signature = hmac.Sum a.secret (base64.EncodeToString t.Payload) := by
  rcases hj : c.JSON with ⟨json, _ | err⟩
  · rw [CreateToken_of_JSON a c json hj] at h
    simp only [Prod.mk.injEq, and_true] at h
    subst h
    exact ⟨rfl, rfl⟩
  · unfold auth.TokenSigner.CreateToken at h
    rw [hj] at h
    simp [errs.Wrap] at h

/-- An expiry 24 hours after a time in the range of an `int64`, in a year up to 9999, is
86400 seconds later: the addition does not wrap around. -/
theorem Add_24_hours_sec (t : time.Time) (hr : t.inRange)
    (hb : -360000 < t.offset ∧ t.offset < 360000)
    (hy : (t.Add (time.Hour * 24)).Year < 10000) :
    (t.Add (time.Hour * 24)).sec = t.sec + 86400 := by
  rw [Add_24_hours] at hy ⊢
  have habs := abs_lt_of_year _ hy
  unfold time.Time.abs time.internalToAbsolute at habs
  unfold time.Time.inRange at hr
  unfold time.wrap64 at habs ⊢
  simp only at habs ⊢
  omega
/-! ## The login of the console -/

/-- The text of a UUID has 36 bytes. -/
theorem String_length (u : uuid.UUID) : u.String.length = 36 := by
  obtain ⟨l, hl⟩ := u
  obtain ⟨b0, b1, b2, b3, b4, b5, b6, b7, b8, b9, b10, b11, b12, b13, b14, b15, rfl⟩ :=
    list_length_16 l hl
  rw [String_explicit]
  rfl

/-- Scanning the text of a UUID gives the UUID. -/
theorem Scan_String (u0 u : uuid.UUID) : u0.Scan u.String = .ok u := by
  have hl := String_length u
  unfold uuid.UUID.Scan
  rw [if_neg (by omega), dif_neg (by omega)]
  exact ParseBytes_String u

/-- A query by a phone that no row has: the client that carries the phone only, and
`sql.ErrNoRows` in the class of the repository. -/
theorem clientsdb_GetByPhone_missing (db : database.clientsdb) (phone : List Byte)
    (h : ∀ r ∈ db.rows, r.phone ≠ phone) :
    db.GetByPhone phone
      = ({ clients.Client.zero with Phone := phone },
         some (errs.wrap database.ErrClientsBD database.ErrNoRows)) := by
  unfold database.clientsdb.GetByPhone
  have hf : db.rows.find? (fun r => decide (r.phone = phone)) = none := by
    rw [List.find?_eq_none]
    intro r hr
    simpa using h r hr
  simp only [hf]
  rfl

/-- A query by phone returns the first row of that phone. -/
theorem clientsdb_GetByPhone_found (db : database.clientsdb) (phone : List Byte)
    (r : database.ClientRow)
    (h : db.rows.find? (fun r => decide (r.phone = phone)) = some r) :
    db.GetByPhone phone
      = ({ clients.Client.zero with
            Phone := phone, ID := r.id, Email := r.email, FirstName := r.first_name,
            LastName := r.last_name }, none) := by
  unfold database.clientsdb.GetByPhone
  simp only [h, Scan_String]
  rfl

/-- Method `Login` for a phone that no row has: the look-up fails with an error that is
not of the class `ErrNotExist`, and `Login` returns it, wrapped, with the empty token;
nothing is registered. -/
theorem Login_of_missing (service : consoleauth.Service) (now : time.Time)
    (id : uuid.UUID) (token phone : List Byte)
    (h : ∀ r ∈ service.clients.db.rows, r.phone ≠ phone) :
    service.Login now id token phone
      = (service, auth.Token.zero,
         some (errs.wrap consoleauth.Error (errs.wrap clients.Error
           (errs.wrap database.ErrClientsBD database.ErrNoRows)))) := by
  unfold consoleauth.Service.Login clients.Service.GetByPhone
  rw [clientsdb_GetByPhone_missing _ phone h]
  rfl

/-- Method `Login` for a phone that a row has: the token of the claims with the ID of the
row and the expiry 24 hours from now; the service stays as it is. -/
theorem Login_of_found (service : consoleauth.Service) (now : time.Time)
    (id : uuid.UUID) (token phone : List Byte) (r : database.ClientRow)
    (h : service.clients.db.rows.find? (fun r => decide (r.phone = phone)) = some r) :
    service.Login now id token phone
      = (service,
         (service.signer.CreateToken
            { ID := r.id, ExpiresAt := now.Add (time.Hour * 24) }).1,
         errs.Wrap consoleauth.Error (service.signer.CreateToken
            { ID := r.id, ExpiresAt := now.Add (time.Hour * 24) }).2) := by
  unfold consoleauth.Service.Login clients.Service.GetByPhone
  rw [clientsdb_GetByPhone_found _ phone r h, AuthTokenDuration_eq]
  rfl

/-- An error wrapped in a class is an error. -/
theorem Wrap_eq_none (cls : String) (err : Option GoError) :
    errs.Wrap cls err = none ↔ err = none := by
  cases err <;> simp [errs.Wrap]
/-! ## What a successful login returns -/

/-- A token created without an error, for claims whose zone offset is a whole number of
minutes, decodes to the claims. -/
theorem CreateToken_decodes (decodeJSON : List Byte → Except GoError auth.Claims)
    (a : auth.TokenSigner) (c : auth.Claims) (t : auth.Token)
    (h : a.CreateToken c = (t, none)) (hr : c.ExpiresAt.inRange)
    (hmod : c.ExpiresAt.offset % 60 = 0)
    (hb : -360000 < c.ExpiresAt.offset ∧ c.ExpiresAt.offset < 360000) :
    auth.FromJSON decodeJSON t.Payload = .ok c ∧
    t.Signature = hmac.Sum a.secret (base64.EncodeToString t.Payload) := by
  obtain ⟨hj, hs⟩ := CreateToken_ok a c t h
  have hj2 : c.JSON.2 = none := by rw [hj]
  obtain ⟨hy0, hy1⟩ := year_of_JSON c hj2
  obtain ⟨_, hd⟩ := FromJSON_JSON_of_inRange decodeJSON c hr hy0 hy1 hmod
    (zone_of_JSON c hj2 hmod hb)
  rw [hj] at hd
  exact ⟨hd, hs⟩

/-- A successful `Token`: the first row of the normalized email, whose hash the password
matches, and the token created for its ID. -/
theorem Token_ok_inv (mapUpper : List Byte → List Byte)
    (compare : List Byte → List Byte → Option GoError) (service : adminauth.Service)
    (now : time.Time) (email password : List Byte) (t : auth.Token)
    (h : service.Token mapUpper compare now email password = (t, none)) :
    ∃ r ∈ service.managers.db.rows,
      r.email_normalized = database.normalizeEmail mapUpper email ∧
      compare r.password_hash password = none ∧
      service.signer.CreateToken { ID := r.id, ExpiresAt := now.Add (time.Hour * 24) }
        = (t, none) := by
  cases hf : service.managers.db.rows.find?
      (fun r => decide (r.email_normalized = database.normalizeEmail mapUpper email)) with
  | none =>
    rw [List.find?_eq_none] at hf
    rw [Token_of_missing mapUpper compare service now email password
      (fun r hr => by simpa using hf r hr)] at h
    simp at h
  | some r =>
    have hmem := List.mem_of_find?_eq_some hf
    have hp := List.find?_some hf
    simp only [decide_eq_true_eq] at hp
    rw [Token_of_found mapUpper compare service now email password _
      (managersdb_GetByEmail_found mapUpper _ email r hf)] at h
    refine ⟨r, hmem, hp, ?_⟩
    cases hcmp : compare r.password_hash password with
    | some err => simp [hcmp] at h
    | none =>
      simp only [hcmp, Prod.mk.injEq, Wrap_eq_none] at h
      exact ⟨rfl, Prod.ext h.1 h.2⟩

/-- A successful `Login`: the first row of the phone, and the token created for its ID;
the service is as before. -/
theorem Login_ok_inv (service service1 : consoleauth.Service) (now : time.Time)
    (id : uuid.UUID) (token phone : List Byte) (t : auth.Token)
    (h : service.Login now id token phone = (service1, t, none)) :
    service1 = service ∧
    ∃ r ∈ service.clients.db.rows, r.phone = phone ∧
      service.signer.CreateToken { ID := r.id, ExpiresAt := now.Add (time.Hour * 24) }
        = (t, none) := by
  cases hf : service.clients.db.rows.find? (fun r => decide (r.phone = phone)) with
  | none =>
    rw [List.find?_eq_none] at hf
    rw [Login_of_missing service now id token phone
      (fun r hr => by simpa using hf r hr)] at h
    simp at h
  | some r =>
    have hmem := List.mem_of_find?_eq_some hf
    have hp := List.find?_some hf
    simp only [decide_eq_true_eq] at hp
    rw [Login_of_found service now id token phone r hf] at h
    simp only [Prod.mk.injEq, Wrap_eq_none] at h
    exact ⟨h.1.symm, r, hmem, hp, Prod.ext h.2.1 h.2.2⟩
/-- The manager `am@qwe.com` logs in with the right password at `nowSkewed`: the claims
that `Token` signs. -/
theorem fixture_Token_skewed :
    fixture.admin.Token fixture.mapUpper fixture.compare fixture.nowSkewed
        (bytesOf "am@qwe.com") (bytesOf "qwerty123")
      = ((fixture.admin.signer.CreateToken
            { ID := fixture.id, ExpiresAt := fixture.nowSkewed.Add (time.Hour * 24) }).1,
         errs.Wrap adminauth.Error (fixture.admin.signer.CreateToken
            { ID := fixture.id, ExpiresAt := fixture.nowSkewed.Add (time.Hour * 24) }).2) :=
  Token_of_found fixture.mapUpper fixture.compare fixture.admin fixture.nowSkewed
    (bytesOf "am@qwe.com") (bytesOf "qwerty123")
    { ID := fixture.id, Email := bytesOf "am@qwe.com", FirstName := bytesOf "Aslan",
      LastName := bytesOf "Maslan", PasswordHash := bytesOf "qwerty123",
      CreatedAt := fixture.now }
    (by decide)

set_option maxRecDepth 100000 in
/-- The claims of a login at `nowSkewed` serialise, and their text decodes to an expiry 30
seconds later, in UTC. -/
theorem fixture_skewed_login_JSON :
    (auth.Claims.JSON
      { ID := fixture.id, ExpiresAt := fixture.nowSkewed.Add (time.Hour * 24) }).2 = none ∧
    auth.FromJSON fixture.decodeJSON (auth.Claims.JSON
      { ID := fixture.id, ExpiresAt := fixture.nowSkewed.Add (time.Hour * 24) }).1
      = .ok { ID := fixture.id,
              ExpiresAt := { sec := 63735683230, nsec := 0, offset := 0 } } := by
  constructor <;> rfl

set_option maxRecDepth 100000 in
/-- The login at `nowSkewed` returns no error, and the payload of its token is the text of
the claims. -/
theorem fixture_Token_skewed_payload :
    (fixture.admin.Token fixture.mapUpper fixture.compare fixture.nowSkewed
        (bytesOf "am@qwe.com") (bytesOf "qwerty123")).2 = none ∧
    (fixture.admin.Token fixture.mapUpper fixture.compare fixture.nowSkewed
        (bytesOf "am@qwe.com") (bytesOf "qwerty123")).1.Payload
      = (auth.Claims.JSON
          { ID := fixture.id, ExpiresAt := fixture.nowSkewed.Add (time.Hour * 24) }).1 := by
  have hj : auth.Claims.JSON
      { ID := fixture.id, ExpiresAt := fixture.nowSkewed.Add (time.Hour * 24) }
      = ((auth.Claims.JSON
          { ID := fixture.id, ExpiresAt := fixture.nowSkewed.Add (time.Hour * 24) }).1,
         none) := by
    rw [← fixture_skewed_login_JSON.1]
  rw [fixture_Token_skewed, CreateToken_of_JSON _ _ _ hj]
  exact ⟨rfl, rfl⟩

/-- The expiry of a login at `nowSkewed`. -/
theorem fixture_skewed_expiry :
    (fixture.nowSkewed.Add (time.Hour * 24)).sec = 63735683200 := by
  rw [Add_24_hours]
  norm_num [time.wrap64, fixture.nowSkewed, fixture.now]

/-- C14, as stated, fails. At 2020-09-13T12:26:40Z in a zone 30 seconds east of UTC the
manager `am@qwe.com` logs in with the right password: `Token` returns no error, the
expiry `now + 24 hours` is at second 63735683200, and the payload of the token decodes to
claims that expire at second 63735683230, 30 seconds later. -/
theorem login_expiry_is_off_in_a_zone_with_seconds :
    (fixture.admin.Token fixture.mapUpper fixture.compare fixture.nowSkewed
        (bytesOf "am@qwe.com") (bytesOf "qwerty123")).2 = none ∧
    (fixture.nowSkewed.Add (time.Hour * 24)).sec = 63735683200 ∧
    auth.FromJSON fixture.decodeJSON (fixture.admin.Token fixture.mapUpper fixture.compare fixture.nowSkewed
        (bytesOf "am@qwe.com") (bytesOf "qwerty123")).1.Payload
      = .ok { ID := fixture.id,
              ExpiresAt := { sec := 63735683230, nsec := 0, offset := 0 } } := by
  refine ⟨fixture_Token_skewed_payload.1, fixture_skewed_expiry, ?_⟩
  rw [fixture_Token_skewed_payload.2]
  exact fixture_skewed_login_JSON.2

/-- C14, amended. At a time whose zone offset is a whole number of minutes, below 100
hours, a successful login returns a token whose payload decodes to claims with the ID of
the stored principal (the manager of the email, the client of the phone) and the expiry
`now + 24 hours`, which is 86400 seconds after `now` in the zone of `now`; and the service
that issued the token verifies it and reads the same claims. -/
theorem login_token_carries_id_and_expiry (decodeJSON : List Byte → Except GoError auth.Claims)
    (mapUpper : List Byte → List Byte)
    (compare : List Byte → List Byte → Option GoError) (admin : adminauth.Service)
    (console console1 : consoleauth.Service) (now : time.Time) (id : uuid.UUID)
    (email password token phone : List Byte) (t1 t2 : auth.Token)
    (hr : now.inRange) (hmod : now.offset % 60 = 0)
    (hb : -360000 < now.offset ∧ now.offset < 360000)
    (hadmin : admin.Token mapUpper compare now email password = (t1, none))
    (hconsole : console.Login now id token phone = (console1, t2, none)) :
    (now.Add (time.Hour * 24)
      = { sec := now.sec + 86400, nsec := now.nsec, offset := now.offset }) ∧
    (∃ r ∈ admin.managers.db.rows,
      r.email_normalized = database.normalizeEmail mapUpper email ∧
      auth.FromJSON decodeJSON t1.Payload
        = .ok { ID := r.id, ExpiresAt := now.Add (time.Hour * 24) } ∧
      admin.authenticate decodeJSON t1 = .ok { ID := r.id, ExpiresAt := now.Add (time.Hour * 24) }) ∧
    (∃ r ∈ console.clients.db.rows, r.phone = phone ∧
      auth.FromJSON decodeJSON t2.Payload
        = .ok { ID := r.id, ExpiresAt := now.Add (time.Hour * 24) } ∧
      console1.Authenticate decodeJSON t2
        = .ok { ID := r.id, ExpiresAt := now.Add (time.Hour * 24) }) := by
  have hrange : (now.Add (time.Hour * 24)).inRange := by
    rw [Add_24_hours]
    exact wrap64_inRange _
  have hoff : (now.Add (time.Hour * 24)).offset = now.offset := by
    rw [Add_24_hours]
  obtain ⟨r1, hr1, he1, _, hc1⟩ := Token_ok_inv mapUpper compare admin now email password t1 hadmin
  obtain ⟨hsame, r2, hr2, hp2, hc2⟩ := Login_ok_inv console console1 now id token phone t2 hconsole
  obtain ⟨hd1, hs1⟩ := CreateToken_decodes decodeJSON _ _ t1 hc1 hrange (by rw [hoff]; exact hmod)
    (by rw [hoff]; exact hb)
  obtain ⟨hd2, hs2⟩ := CreateToken_decodes decodeJSON _ _ t2 hc2 hrange (by rw [hoff]; exact hmod)
    (by rw [hoff]; exact hb)
  refine ⟨?_, ⟨r1, hr1, he1, hd1, ?_⟩, ⟨r2, hr2, hp2, hd2, ?_⟩⟩
  · have hy := (year_of_JSON _ (by rw [(CreateToken_ok _ _ t1 hc1).1])).2
    have hsec := Add_24_hours_sec now hr hb hy
    rw [Add_24_hours] at hsec ⊢
    simp only at hsec
    rw [hsec]
  · rw [adminauth_authenticate_eq, if_pos hs1]
    exact hd1
  · rw [hsame, consoleauth_Authenticate_eq, if_pos hs2]
    exact hd2

set_option maxRecDepth 100000 in
/-- The claims of a login at `now` serialise. -/
theorem fixture_login_serialises :
    (auth.Claims.JSON
      { ID := fixture.id, ExpiresAt := fixture.now.Add (time.Hour * 24) }).2 = none := by
  rfl

/-- A token is created without an error for claims that serialise. -/
theorem CreateToken_error_none (a : auth.TokenSigner) (c : auth.Claims)
    (h : c.JSON.2 = none) : (a.CreateToken c).2 = none := by
  have hj : c.JSON = (c.JSON.1, none) := by rw [← h]
  rw [CreateToken_of_JSON a c _ hj]

/-- The manager `am@qwe.com` logs in with the right password at `now`: the claims that
`Token` signs. -/
theorem fixture_Token_now :
    fixture.admin.Token fixture.mapUpper fixture.compare fixture.now
        (bytesOf "am@qwe.com") (bytesOf "qwerty123")
      = ((fixture.admin.signer.CreateToken
            { ID := fixture.id, ExpiresAt := fixture.now.Add (time.Hour * 24) }).1,
         errs.Wrap adminauth.Error (fixture.admin.signer.CreateToken
            { ID := fixture.id, ExpiresAt := fixture.now.Add (time.Hour * 24) }).2) :=
  Token_of_found fixture.mapUpper fixture.compare fixture.admin fixture.now
    (bytesOf "am@qwe.com") (bytesOf "qwerty123")
    { ID := fixture.id, Email := bytesOf "am@qwe.com", FirstName := bytesOf "Aslan",
      LastName := bytesOf "Maslan", PasswordHash := bytesOf "qwerty123",
      CreatedAt := fixture.now }
    (by decide)

/-- That login returns no error. -/
theorem fixture_Token_ok :
    fixture.admin.Token fixture.mapUpper fixture.compare fixture.now
        (bytesOf "am@qwe.com") (bytesOf "qwerty123")
      = ((fixture.admin.Token fixture.mapUpper fixture.compare fixture.now
            (bytesOf "am@qwe.com") (bytesOf "qwerty123")).1, none) := by
  have h : (fixture.admin.Token fixture.mapUpper fixture.compare fixture.now
      (bytesOf "am@qwe.com") (bytesOf "qwerty123")).2 = none := by
    rw [fixture_Token_now, CreateToken_error_none _ _ fixture_login_serialises]
    rfl
  rw [← h]

/-- The client of the phone `228` logs in at `now`: the claims that `Login` signs. -/
theorem fixture_Login_now :
    fixture.console.Login fixture.now fixture.newID [] (bytesOf "228")
      = (fixture.console,
         (fixture.console.signer.CreateToken
            { ID := fixture.id, ExpiresAt := fixture.now.Add (time.Hour * 24) }).1,
         errs.Wrap consoleauth.Error (fixture.console.signer.CreateToken
            { ID := fixture.id, ExpiresAt := fixture.now.Add (time.Hour * 24) }).2) :=
  Login_of_found fixture.console fixture.now fixture.newID [] (bytesOf "228")
    { id := fixture.id, phone := bytesOf "228", first_name := [], last_name := [],
      email := [], created_at := fixture.now }
    (by decide)

/-- That login returns no error. -/
theorem fixture_Login_ok :
    fixture.console.Login fixture.now fixture.newID [] (bytesOf "228")
      = ((fixture.console.Login fixture.now fixture.newID [] (bytesOf "228")).1,
         (fixture.console.Login fixture.now fixture.newID [] (bytesOf "228")).2.1, none) := by
  have h : (fixture.console.Login fixture.now fixture.newID [] (bytesOf "228")).2.2
      = none := by
    rw [fixture_Login_now, CreateToken_error_none _ _ fixture_login_serialises]
    rfl
  rw [← h]

/-- Witness of the amended C14: the manager `am@qwe.com` and the client of the phone
`228` log in at 2020-09-13T12:26:40Z. -/
theorem login_token_carries_id_and_expiry_witness :
    (fixture.now.Add (time.Hour * 24)
      = { sec := fixture.now.sec + 86400, nsec := fixture.now.nsec,
          offset := fixture.now.offset }) ∧
    (∃ r ∈ fixture.admin.managers.db.rows,
      r.email_normalized = database.normalizeEmail fixture.mapUpper (bytesOf "am@qwe.com") ∧
      auth.FromJSON fixture.decodeJSON (fixture.admin.Token fixture.mapUpper fixture.compare fixture.now
          (bytesOf "am@qwe.com") (bytesOf "qwerty123")).1.Payload
        = .ok { ID := r.id, ExpiresAt := fixture.now.Add (time.Hour * 24) } ∧
      fixture.admin.authenticate fixture.decodeJSON (fixture.admin.Token fixture.mapUpper fixture.compare
          fixture.now (bytesOf "am@qwe.com") (bytesOf "qwerty123")).1
        = .ok { ID := r.id, ExpiresAt := fixture.now.Add (time.Hour * 24) }) ∧
    (∃ r ∈ fixture.console.clients.db.rows, r.phone = bytesOf "228" ∧
      auth.FromJSON fixture.decodeJSON (fixture.console.Login fixture.now fixture.newID [] (bytesOf "228")).2.1.Payload
        = .ok { ID := r.id, ExpiresAt := fixture.now.Add (time.Hour * 24) } ∧
      (fixture.console.Login fixture.now fixture.newID [] (bytesOf "228")).1.Authenticate
          fixture.decodeJSON (fixture.console.Login fixture.now fixture.newID [] (bytesOf "228")).2.1
        = .ok { ID := r.id, ExpiresAt := fixture.now.Add (time.Hour * 24) }) :=
  login_token_carries_id_and_expiry fixture.decodeJSON fixture.mapUpper fixture.compare fixture.admin
    fixture.console _ fixture.now fixture.newID (bytesOf "am@qwe.com") (bytesOf "qwerty123")
    [] (bytesOf "228") _ _ (by decide) (by decide) (by decide)
    fixture_Token_ok fixture_Login_ok
/-! ## Logins with a phone that no client has -/

/-- C15 (the code departs from it). With an empty clients table, `Login` with the phone
`555-0100` returns the empty token and an error, and the table stays empty: no client is
registered. The error of the look-up is not of the class `ErrNotExist`, which `Login`
tests before it registers, whereas the look-up by ID of the same service returns an error
of that class for a client that does not exist. -/
theorem Login_of_unknown_phone_fails :
    fixture.consoleEmpty.Login fixture.now fixture.newID [] (bytesOf "555-0100")
      = (fixture.consoleEmpty, auth.Token.zero,
         some (errs.wrap consoleauth.Error (errs.wrap clients.Error
           (errs.wrap database.ErrClientsBD database.ErrNoRows)))) ∧
    (fixture.consoleEmpty.Login fixture.now fixture.newID []
      (bytesOf "555-0100")).1.clients.db.rows = [] ∧
    errs.Has clients.ErrNotExist
      (fixture.consoleEmpty.clients.GetByPhone (bytesOf "555-0100")).2 = false ∧
    errs.Has clients.ErrNotExist (fixture.consoleEmpty.clients.Get fixture.newID).2 = true := by
  have h := Login_of_missing fixture.consoleEmpty fixture.now fixture.newID []
    (bytesOf "555-0100") (by simp [fixture.consoleEmpty])
  refine ⟨h, ?_, by decide, by decide⟩
  rw [h]
  rfl

/-- Two logins in sequence with a phone that a row has: the service stays as it is, and
the two calls sign claims with the ID of that row. -/
theorem Login_twice_of_known_phone (service : consoleauth.Service) (now now2 : time.Time)
    (id id2 : uuid.UUID) (token phone : List Byte) (r : database.ClientRow)
    (h : service.clients.db.rows.find? (fun r => decide (r.phone = phone)) = some r) :
    (service.Login now id token phone).1 = service ∧
    (service.Login now id token phone).2.1
      = (service.signer.CreateToken
          { ID := r.id, ExpiresAt := now.Add (time.Hour * 24) }).1 ∧
    ((service.Login now id token phone).1.Login now2 id2 token phone).1 = service ∧
    ((service.Login now id token phone).1.Login now2 id2 token phone).2.1
      = (service.signer.CreateToken
          { ID := r.id, ExpiresAt := now2.Add (time.Hour * 24) }).1 := by
  have h1 := Login_of_found service now id token phone r h
  have h2 := Login_of_found service now2 id2 token phone r h
  have hs : (service.Login now id token phone).1 = service := by rw [h1]
  refine ⟨hs, by rw [h1], ?_, ?_⟩
  · rw [hs, h2]
  · rw [hs, h2]

/-- C16 (the code departs from it). With an empty clients table, two logins in sequence
with the phone `555-0100` both return the empty token and an error: neither call returns
a token with claims, and the table is empty after both. -/
theorem Login_twice_of_unknown_phone_fails_twice :
    fixture.consoleEmpty.Login fixture.now fixture.newID [] (bytesOf "555-0100")
      = (fixture.consoleEmpty, auth.Token.zero,
         some (errs.wrap consoleauth.Error (errs.wrap clients.Error
           (errs.wrap database.ErrClientsBD database.ErrNoRows)))) ∧
    (fixture.consoleEmpty.Login fixture.now fixture.newID []
        (bytesOf "555-0100")).1.Login fixture.now fixture.newID2 [] (bytesOf "555-0100")
      = (fixture.consoleEmpty, auth.Token.zero,
         some (errs.wrap consoleauth.Error (errs.wrap clients.Error
           (errs.wrap database.ErrClientsBD database.ErrNoRows)))) ∧
    (auth.FromJSON fixture.decodeJSON auth.Token.zero.Payload).toOption = none ∧
    fixture.consoleEmpty.clients.db.rows = [] := by
  have h := Login_of_missing fixture.consoleEmpty fixture.now fixture.newID []
    (bytesOf "555-0100") (by simp [fixture.consoleEmpty])
  have h2 := Login_of_missing fixture.consoleEmpty fixture.now fixture.newID2 []
    (bytesOf "555-0100") (by simp [fixture.consoleEmpty])
  refine ⟨h, ?_, by decide, rfl⟩
  rw [h]
  exact h2
/-! ## The middleware -/

/-- Without a token in the context, `Authorize` of both services returns the zero claims
and the error of `GetToken`, wrapped. -/
theorem Authorize_without_token (decodeJSON : List Byte → Except GoError auth.Claims)
    (decode : List Byte → auth.Token × Option GoError)
    (admin : adminauth.Service) (console : consoleauth.Service) (now : time.Time)
    (ctx : auth.Context) (hctx : ctx.token = none) :
    admin.Authorize decodeJSON decode now ctx
      = (auth.Claims.zero, some (errs.wrap adminauth.Error
          (errs.New auth.Error "could not take token from context"))) ∧
    console.Authorize decodeJSON decode now ctx
      = (auth.Claims.zero, some (errs.wrap consoleauth.Error
          (errs.New auth.Error "could not take token from context"))) := by
  constructor
  · simp only [adminauth.Service.Authorize, auth.GetToken, hctx]
    rfl
  · simp only [consoleauth.Service.Authorize, auth.GetToken, hctx]
    rfl

/-- The console middleware, by cases: the reply `401` when the `Authorization` field is
empty or `Authorize` returns an error, the handler on the request with the claims in its
context otherwise. -/
theorem authenticate_eq (decodeJSON : List Byte → Except GoError auth.Claims)
    (decode : List Byte → auth.Token × Option GoError)
    (srv : server.Server) (now : time.Time) (handler : http.Handler)
    (w : http.ResponseWriter) (r : http.Request) :
    srv.authenticate decodeJSON decode now handler w r
      = if (r.HeaderGet "Authorization").length = 0 ∨
            (srv.auth.Authorize decodeJSON decode now
              (auth.SetToken r.ctx (r.HeaderGet "Authorization"))).2 ≠ none then
          http.Error w "Unauthorized" 401
        else
          handler w (r.Clone (auth.SetClaims
            (auth.SetToken r.ctx (r.HeaderGet "Authorization"))
            (srv.auth.Authorize decodeJSON decode now
              (auth.SetToken r.ctx (r.HeaderGet "Authorization"))).1)) := by
  unfold server.Server.authenticate
  by_cases h0 : (r.HeaderGet "Authorization").length = 0
  · simp only [h0, true_or, if_true]
    rfl
  · simp only [h0, false_or, if_false]
    rcases hA : srv.auth.Authorize decodeJSON decode now
      (auth.SetToken r.ctx (r.HeaderGet "Authorization")) with ⟨c, _ | err⟩
    · simp
    · simp
      rfl

/-- The admin portal middleware, by cases: the redirect to `/authorize` when the auth
cookie is absent or `Authorize` returns an error, the handler on the request with the
claims in its context otherwise. -/
theorem withAuth_eq (decodeJSON : List Byte → Except GoError auth.Claims)
    (decode : List Byte → auth.Token × Option GoError)
    (srv : adminportalweb.Server) (now : time.Time) (handler : http.Handler)
    (w : http.ResponseWriter) (r : http.Request) :
    srv.withAuth decodeJSON decode now handler w r
      = match r.cookies.find? (fun c => decide (c.Name = srv.cookieAuth.settings.Name)) with
        | none =>
          http.Redirect w { r with Method := "GET" } "/authorize" 301
        | some cookie =>
          if (srv.service.Authorize decodeJSON decode now (auth.SetToken r.ctx cookie.Value)).2 ≠ none
          then
            http.Redirect w
              { r with Method := "GET", ctx := auth.SetToken r.ctx cookie.Value }
              "/authorize" 301
          else
            handler w (r.Clone (auth.SetClaims (auth.SetToken r.ctx cookie.Value)
              (srv.service.Authorize decodeJSON decode now (auth.SetToken r.ctx cookie.Value)).1)) := by
  unfold adminportalweb.Server.withAuth auth.Cookie.GetToken http.Request.Cookie
  cases hf : r.cookies.find? (fun c => decide (c.Name = srv.cookieAuth.settings.Name)) with
  | none => rfl
  | some cookie =>
    simp only
    rcases hA : srv.service.Authorize decodeJSON decode now (auth.SetToken r.ctx cookie.Value)
      with ⟨c, _ | err⟩
    · simp
    · simp
      rfl
/-- The failures of the console `Authorize` on a context that carries a token text: the
text does not decode, the signature is not the recomputed one, the payload is not the
JSON of claims, or the claims, not expired, name no client of the store. Each one gives
the zero claims and an error. -/
theorem consoleauth_Authorize_fails (decodeJSON : List Byte → Except GoError auth.Claims)
    (decode : List Byte → auth.Token × Option GoError)
    (service : consoleauth.Service) (now : time.Time) (ctx : auth.Context)
    (raw : List Byte) (hctx : ctx.token = some raw)
    (h : (decode raw).2 ≠ none ∨
      (∃ t, decode raw = (t, none) ∧
        t.Signature ≠ hmac.Sum service.signer.secret (base64.EncodeToString t.Payload)) ∨
      (∃ t e, decode raw = (t, none) ∧ auth.FromJSON decodeJSON t.Payload = .error e) ∨
      (∃ t c, decode raw = (t, none) ∧
        t.Signature = hmac.Sum service.signer.secret (base64.EncodeToString t.Payload) ∧
        auth.FromJSON decodeJSON t.Payload = .ok c ∧
        (c.ExpiresAt.IsZero = true ∨ c.ExpiresAt.Before now = false) ∧
        ∀ r ∈ service.clients.db.rows, r.id ≠ c.ID)) :
    (service.Authorize decodeJSON decode now ctx).1 = auth.Claims.zero ∧
    (service.Authorize decodeJSON decode now ctx).2 ≠ none := by
  have hwrong : ∀ t, decode raw = (t, none) →
      service.Authenticate decodeJSON t = .error (errs.New consoleauth.Error "incorrect signature") ∨
      (∃ e, service.Authenticate decodeJSON t = .error e) →
      (service.Authorize decodeJSON decode now ctx).1 = auth.Claims.zero ∧
      (service.Authorize decodeJSON decode now ctx).2 ≠ none := by
    intro t hdec hA
    have hA2 : ∃ e, service.Authenticate decodeJSON t = .error e := by
      rcases hA with hA | hA
      · exact ⟨_, hA⟩
      · exact hA
    obtain ⟨e, he⟩ := hA2
    simp [consoleauth.Service.Authorize, auth.GetToken, hctx, hdec, he, errs.Wrap]
  rcases h with h | ⟨t, hdec, hsig⟩ | ⟨t, e, hdec, hjson⟩ | ⟨t, c, hdec, hsig, hjson, hlive, hrows⟩
  · rcases hd : decode raw with ⟨t, _ | e⟩
    · rw [hd] at h
      exact absurd rfl h
    · simp [consoleauth.Service.Authorize, auth.GetToken, hctx, hd, errs.Wrap]
  · apply hwrong t hdec
    left
    rw [consoleauth_Authenticate_eq, if_neg hsig]
  · apply hwrong t hdec
    right
    rw [consoleauth_Authenticate_eq]
    split_ifs
    · exact ⟨e, hjson⟩
    · exact ⟨_, rfl⟩
  · exact (Authorize_rejects_unknown_principal_of_live_token decodeJSON decode
      { signer := service.signer, managers := { db := { rows := [] } } } service now ctx raw
      t c hctx hdec hjson hlive).2 hsig hrows

/-- C11. When no token is present the attempt is rejected. `Authorize` of both services,
on a context that holds no token, returns an error and the zero claims. The console
middleware, on a request whose `Authorization` field is empty, replies `401`, and the
admin portal middleware, on a request without the auth cookie, redirects to `/authorize`:
whatever the wrapped handler is, so that the handler is not invoked and no request with
claims in its context is made. -/
theorem no_token_is_rejected (decodeJSON : List Byte → Except GoError auth.Claims)
    (decode : List Byte → auth.Token × Option GoError)
    (admin : adminauth.Service) (console : consoleauth.Service) (srv : server.Server)
    (portal : adminportalweb.Server) (now : time.Time) (ctx : auth.Context)
    (rc ra : http.Request) (handler : http.Handler) (w : http.ResponseWriter)
    (hctx : ctx.token = none)
    (hheader : rc.HeaderGet "Authorization" = [])
    (hcookie : ∀ c ∈ ra.cookies, c.Name ≠ portal.cookieAuth.settings.Name) :
    (admin.Authorize decodeJSON decode now ctx).1 = auth.Claims.zero ∧
    (admin.Authorize decodeJSON decode now ctx).2
      = some (errs.wrap adminauth.Error
          (errs.New auth.Error "could not take token from context")) ∧
    (console.Authorize decodeJSON decode now ctx).1 = auth.Claims.zero ∧
    (console.Authorize decodeJSON decode now ctx).2
      = some (errs.wrap consoleauth.Error
          (errs.New auth.Error "could not take token from context")) ∧
    srv.authenticate decodeJSON decode now handler w rc = http.Error w "Unauthorized" 401 ∧
    portal.withAuth decodeJSON decode now handler w ra
      = http.Redirect w { ra with Method := "GET" } "/authorize" 301 := by
  obtain ⟨h1, h2⟩ := Authorize_without_token decodeJSON decode admin console now ctx hctx
  refine ⟨by rw [h1], by rw [h1], by rw [h2], by rw [h2], ?_, ?_⟩
  · rw [authenticate_eq, hheader]
    exact if_pos (Or.inl rfl)
  · rw [withAuth_eq]
    have hf : ra.cookies.find? (fun c => decide (c.Name = portal.cookieAuth.settings.Name))
        = none := by
      rw [List.find?_eq_none]
      intro c hc
      simpa using hcookie c hc
    rw [hf]

/-- Witness of C11: the context without a token, and the request without an
`Authorization` field and without a cookie, at the servers of the fixtures. -/
theorem no_token_is_rejected_witness :
    (fixture.admin.Authorize fixture.decodeJSON (fixture.decodeTo (fixture.tokenOf fixture.fresh)) fixture.now
      {}).1 = auth.Claims.zero ∧
    (fixture.admin.Authorize fixture.decodeJSON (fixture.decodeTo (fixture.tokenOf fixture.fresh)) fixture.now
      {}).2 = some (errs.wrap adminauth.Error
          (errs.New auth.Error "could not take token from context")) ∧
    (fixture.console.Authorize fixture.decodeJSON (fixture.decodeTo (fixture.tokenOf fixture.fresh))
      fixture.now {}).1 = auth.Claims.zero ∧
    (fixture.console.Authorize fixture.decodeJSON (fixture.decodeTo (fixture.tokenOf fixture.fresh))
      fixture.now {}).2 = some (errs.wrap consoleauth.Error
          (errs.New auth.Error "could not take token from context")) ∧
    fixture.consoleServer.authenticate fixture.decodeJSON (fixture.decodeTo (fixture.tokenOf fixture.fresh))
        fixture.now fixture.handler http.ResponseWriter.fresh fixture.bare
      = http.Error http.ResponseWriter.fresh "Unauthorized" 401 ∧
    fixture.portal.withAuth fixture.decodeJSON (fixture.decodeTo (fixture.tokenOf fixture.fresh))
        fixture.now fixture.handler http.ResponseWriter.fresh fixture.bare
      = http.Redirect http.ResponseWriter.fresh { fixture.bare with Method := "GET" }
          "/authorize" 301 :=
  no_token_is_rejected fixture.decodeJSON (fixture.decodeTo (fixture.tokenOf fixture.fresh)) fixture.admin
    fixture.console fixture.consoleServer fixture.portal fixture.now {} fixture.bare
    fixture.bare fixture.handler http.ResponseWriter.fresh rfl rfl (by simp [fixture.bare])
/-- The reply of `http.Error` with the text of status 401 on a writer on which nothing is
written yet. -/
theorem Error_unauthorized_fresh :
    http.Error http.ResponseWriter.fresh "Unauthorized" 401
      = { header := [("Content-Type", bytesOf "text/plain; charset=utf-8"),
                     ("X-Content-Type-Options", bytesOf "nosniff")],
          status := some 401,
          body := bytesOf "Unauthorized" ++ [10] } := by
  simp [http.Error, http.ResponseWriter.fresh, http.ResponseWriter.Set,
    http.ResponseWriter.WriteHeader, http.ResponseWriter.Write]

set_option maxRecDepth 100000 in
/-- The payload of `garbled` is not the JSON of claims. -/
theorem fixture_garbled_payload :
    auth.FromJSON fixture.decodeJSON fixture.garbled.Payload
      = .error (errs.wrap auth.ErrClaims { classes := [], msg := "invalid UUID length" }) := by
  rfl

/-- The cases in which the console middleware answers with `http.Error`, status 401 and
the text `Unauthorized` (on a writer with nothing written yet: the status 401 and the body
`Unauthorized`, ended by the newline of `http.Error`): an empty `Authorization` field, a
token text that does not decode, a signature that is not the recomputed one, a payload
that is not the JSON of claims, claims that are not expired and name no client of the
store, and any other case in which `Authorize` returns an error. The claims of an unknown
client that are expired are not among them. -/
theorem console_answers_unauthorized (decodeJSON : List Byte → Except GoError auth.Claims)
    (decode : List Byte → auth.Token × Option GoError) (srv : server.Server)
    (now : time.Time) (handler : http.Handler) (w : http.ResponseWriter) (r : http.Request)
    (hfail :
      (r.HeaderGet "Authorization").length = 0 ∨
      (decode (r.HeaderGet "Authorization")).2 ≠ none ∨
      (∃ t, decode (r.HeaderGet "Authorization") = (t, none) ∧
        t.Signature ≠ hmac.Sum srv.auth.signer.secret (base64.EncodeToString t.Payload)) ∨
      (∃ t e, decode (r.HeaderGet "Authorization") = (t, none) ∧
        auth.FromJSON decodeJSON t.Payload = .error e) ∨
      (∃ t c, decode (r.HeaderGet "Authorization") = (t, none) ∧
        t.Signature = hmac.Sum srv.auth.signer.secret (base64.EncodeToString t.Payload) ∧
        auth.FromJSON decodeJSON t.Payload = .ok c ∧
        (c.ExpiresAt.IsZero = true ∨ c.ExpiresAt.Before now = false) ∧
        ∀ row ∈ srv.auth.clients.db.rows, row.id ≠ c.ID) ∨
      (srv.auth.Authorize decodeJSON decode now
        (auth.SetToken r.ctx (r.HeaderGet "Authorization"))).2 ≠ none) :
    srv.authenticate decodeJSON decode now handler w r = http.Error w "Unauthorized" 401 ∧
    (http.Error http.ResponseWriter.fresh "Unauthorized" 401).status = some 401 ∧
    (http.Error http.ResponseWriter.fresh "Unauthorized" 401).body
      = bytesOf "Unauthorized" ++ [10] := by
  refine ⟨?_, by rw [Error_unauthorized_fresh], by rw [Error_unauthorized_fresh]⟩
  rw [authenticate_eq]
  apply if_pos
  rcases hfail with h | h | h | h | h | h
  · exact Or.inl h
  · exact Or.inr (consoleauth_Authorize_fails decodeJSON decode srv.auth now _ _ rfl (Or.inl h)).2
  · exact Or.inr (consoleauth_Authorize_fails decodeJSON decode srv.auth now _ _ rfl
      (Or.inr (Or.inl h))).2
  · exact Or.inr (consoleauth_Authorize_fails decodeJSON decode srv.auth now _ _ rfl
      (Or.inr (Or.inr (Or.inl h)))).2
  · exact Or.inr (consoleauth_Authorize_fails decodeJSON decode srv.auth now _ _ rfl
      (Or.inr (Or.inr (Or.inr h)))).2
  · exact Or.inr h

/-- Examples of the reply 401: a request without the `Authorization` field; a token text
that does not decode; a token with one more signature byte; a signed payload that is not
the JSON of claims; and the unexpired token of a principal at a server whose store is
empty. -/
theorem console_answers_unauthorized_examples :
    (fixture.consoleServer.authenticate fixture.decodeJSON (fixture.decodeTo (fixture.tokenOf fixture.fresh))
        fixture.now fixture.handler http.ResponseWriter.fresh fixture.bare
      = http.Error http.ResponseWriter.fresh "Unauthorized" 401) ∧
    (fixture.consoleServer.authenticate fixture.decodeJSON fixture.decodeFails
        fixture.now fixture.handler http.ResponseWriter.fresh fixture.bearing
      = http.Error http.ResponseWriter.fresh "Unauthorized" 401) ∧
    (fixture.consoleServer.authenticate fixture.decodeJSON (fixture.decodeTo (fixture.tampered fixture.fresh))
        fixture.now fixture.handler http.ResponseWriter.fresh fixture.bearing
      = http.Error http.ResponseWriter.fresh "Unauthorized" 401) ∧
    (fixture.consoleServer.authenticate fixture.decodeJSON (fixture.decodeTo fixture.garbled)
        fixture.now fixture.handler http.ResponseWriter.fresh fixture.bearing
      = http.Error http.ResponseWriter.fresh "Unauthorized" 401) ∧
    (fixture.consoleServerEmpty.authenticate
        fixture.decodeJSON (fixture.decodeTo (fixture.tokenOf fixture.fresh))
        fixture.now fixture.handler http.ResponseWriter.fresh fixture.bearing
      = http.Error http.ResponseWriter.fresh "Unauthorized" 401) ∧
    (http.Error http.ResponseWriter.fresh "Unauthorized" 401).status = some 401 ∧
    (http.Error http.ResponseWriter.fresh "Unauthorized" 401).body
      = bytesOf "Unauthorized" ++ [10] :=
  ⟨(console_answers_unauthorized fixture.decodeJSON (fixture.decodeTo (fixture.tokenOf fixture.fresh))
      fixture.consoleServer fixture.now fixture.handler http.ResponseWriter.fresh
      fixture.bare (Or.inl rfl)).1,
    (console_answers_unauthorized fixture.decodeJSON fixture.decodeFails
      fixture.consoleServer fixture.now fixture.handler http.ResponseWriter.fresh
      fixture.bearing (Or.inr (Or.inl (by simp [fixture.decodeFails])))).1,
    (console_answers_unauthorized fixture.decodeJSON (fixture.decodeTo (fixture.tampered fixture.fresh))
      fixture.consoleServer fixture.now fixture.handler http.ResponseWriter.fresh
      fixture.bearing (Or.inr (Or.inr (Or.inl
        ⟨fixture.tampered fixture.fresh, rfl,
         fixture_tampered_ne fixture.fresh fixture_fresh_serialises⟩)))).1,
    (console_answers_unauthorized fixture.decodeJSON (fixture.decodeTo fixture.garbled)
      fixture.consoleServer fixture.now fixture.handler http.ResponseWriter.fresh
      fixture.bearing (Or.inr (Or.inr (Or.inr (Or.inl
        ⟨fixture.garbled, _, rfl, fixture_garbled_payload⟩))))).1,
    (console_answers_unauthorized fixture.decodeJSON (fixture.decodeTo (fixture.tokenOf fixture.fresh))
      fixture.consoleServerEmpty fixture.now fixture.handler http.ResponseWriter.fresh
      fixture.bearing (Or.inr (Or.inr (Or.inr (Or.inr (Or.inl
        ⟨fixture.tokenOf fixture.fresh, fixture.fresh, rfl,
         fixture_tokenOf_signature fixture.fresh fixture_fresh_serialises,
         fixture_fresh_payload, Or.inr (by decide),
         by simp [fixture.consoleServerEmpty, fixture.consoleEmpty]⟩)))))).1,
    (console_answers_unauthorized fixture.decodeJSON (fixture.decodeTo (fixture.tokenOf fixture.fresh))
      fixture.consoleServer fixture.now fixture.handler http.ResponseWriter.fresh
      fixture.bare (Or.inl rfl)).2⟩

/-- The console middleware serves every request whose `Authorization` field decodes to a
validly signed token with claims that expired before the current time: the handler runs,
on the request with the claims in its context, whatever the store of clients holds. -/
theorem console_serves_expired (decodeJSON : List Byte → Except GoError auth.Claims)
    (decode : List Byte → auth.Token × Option GoError) (srv : server.Server)
    (now : time.Time) (handler : http.Handler) (w : http.ResponseWriter) (r : http.Request)
    (t : auth.Token) (c : auth.Claims)
    (hne : (r.HeaderGet "Authorization").length ≠ 0)
    (hdec : decode (r.HeaderGet "Authorization") = (t, none))
    (hsig : t.Signature = hmac.Sum srv.auth.signer.secret (base64.EncodeToString t.Payload))
    (hc : auth.FromJSON decodeJSON t.Payload = .ok c) (hz : c.ExpiresAt.IsZero = false)
    (hb : c.ExpiresAt.Before now = true) :
    srv.authenticate decodeJSON decode now handler w r
      = handler w (r.Clone (auth.SetClaims
          (auth.SetToken r.ctx (r.HeaderGet "Authorization")) c)) := by
  have hA : srv.auth.Authorize decodeJSON decode now
      (auth.SetToken r.ctx (r.HeaderGet "Authorization")) = (c, none) := by
    rw [consoleauth_Authorize_signed decodeJSON decode srv.auth now _
      (r.HeaderGet "Authorization") t c rfl hdec hsig hc,
      consoleauth_authorize_expired srv.auth now c hz hb]
  rw [authenticate_eq, hA]
  exact if_neg (fun h => h.elim hne (fun h2 => h2 rfl))

/-- C17 (the code departs from it). At a console server whose store holds no client, the
request that carries the validly signed token of claims that expired one second before the
current time is not answered with 401: the middleware invokes the wrapped handler, with
the claims in the context of the request, and the response is the one of the handler,
status 200 and the body `served`. The principal of the claims is unknown: the look-up of
the client fails. The unexpired token of the same principal gets the reply 401 with the
body `Unauthorized` there. -/
theorem console_serves_expired_token_of_unknown_principal :
    fixture.consoleServerEmpty.auth.clients.db.rows = [] ∧
    (fixture.consoleServerEmpty.auth.clients.db.Get fixture.expired.ID).2.isSome = true ∧
    fixture.expired.ExpiresAt.IsZero = false ∧
    fixture.expired.ExpiresAt.Before fixture.now = true ∧
    fixture.consoleServerEmpty.authenticate fixture.decodeJSON
        (fixture.decodeTo (fixture.tokenOf fixture.expired)) fixture.now fixture.handler
        http.ResponseWriter.fresh fixture.bearing
      = fixture.handler http.ResponseWriter.fresh
          (fixture.bearing.Clone (auth.SetClaims
            (auth.SetToken fixture.bearing.ctx (bytesOf "token")) fixture.expired)) ∧
    (fixture.consoleServerEmpty.authenticate fixture.decodeJSON
        (fixture.decodeTo (fixture.tokenOf fixture.expired)) fixture.now fixture.handler
        http.ResponseWriter.fresh fixture.bearing).status = some 200 ∧
    (fixture.consoleServerEmpty.authenticate fixture.decodeJSON
        (fixture.decodeTo (fixture.tokenOf fixture.expired)) fixture.now fixture.handler
        http.ResponseWriter.fresh fixture.bearing).body = bytesOf "served" ∧
    fixture.consoleServerEmpty.authenticate fixture.decodeJSON
        (fixture.decodeTo (fixture.tokenOf fixture.fresh)) fixture.now fixture.handler
        http.ResponseWriter.fresh fixture.bearing
      = http.Error http.ResponseWriter.fresh "Unauthorized" 401 ∧
    (http.Error http.ResponseWriter.fresh "Unauthorized" 401).status = some 401 ∧
    (http.Error http.ResponseWriter.fresh "Unauthorized" 401).body
      = bytesOf "Unauthorized" ++ [10] := by
  have hserve := console_serves_expired fixture.decodeJSON
    (fixture.decodeTo (fixture.tokenOf fixture.expired)) fixture.consoleServerEmpty
    fixture.now fixture.handler http.ResponseWriter.fresh fixture.bearing
    (fixture.tokenOf fixture.expired) fixture.expired (by decide) rfl
    (fixture_tokenOf_signature _ fixture_expired_serialises) fixture_expired_payload rfl
    (by decide)
  have hrefuse := console_answers_unauthorized fixture.decodeJSON
    (fixture.decodeTo (fixture.tokenOf fixture.fresh)) fixture.consoleServerEmpty
    fixture.now fixture.handler http.ResponseWriter.fresh fixture.bearing
    (Or.inr (Or.inr (Or.inr (Or.inr (Or.inl
      ⟨fixture.tokenOf fixture.fresh, fixture.fresh, rfl,
       fixture_tokenOf_signature fixture.fresh fixture_fresh_serialises,
       fixture_fresh_payload, Or.inr (by decide),
       by simp [fixture.consoleServerEmpty, fixture.consoleEmpty]⟩)))))
  refine ⟨rfl, rfl, rfl, by decide, hserve, ?_, ?_, hrefuse.1, hrefuse.2.1, hrefuse.2.2⟩
  · rw [hserve]
    rfl
  · rw [hserve]
    rfl
/-! ## Removal and registration -/

/-- A search among the elements that pass a filter, for a property that implies the
filter, is the search in the whole list. -/
theorem find?_filter_of_imp {α : Type} (p q : α → Bool) (l : List α)
    (h : ∀ a, p a = true → q a = true) : (l.filter q).find? p = l.find? p := by
  induction l with
  | nil => rfl
  | cons a t ih =>
    by_cases hq : q a = true
    · rw [List.filter_cons_of_pos hq]
      by_cases hp : p a = true
      · rw [List.find?_cons_of_pos _ hp, List.find?_cons_of_pos _ hp]
      · rw [List.find?_cons_of_neg _ hp, List.find?_cons_of_neg _ hp, ih]
    · rw [List.filter_cons_of_neg hq]
      have hp : ¬ p a = true := fun hp => hq (h a hp)
      rw [List.find?_cons_of_neg _ hp, ih]

/-- A search among the elements that pass a filter, for a property that excludes the
filter, finds nothing. -/
theorem find?_filter_of_not {α : Type} (p q : α → Bool) (l : List α)
    (h : ∀ a, p a = true → q a = false) : (l.filter q).find? p = none := by
  rw [List.find?_eq_none]
  intro a ha hp
  rw [List.mem_filter] at ha
  rw [h a hp] at ha
  exact absurd ha.2 (by simp)

/-- C21. After `managersdb.Remove` of an ID, which returns no error, `Get` of that ID
returns the zero manager and an error of the class `ErrNoManager`, and `Get` of every
other ID returns what it returned before; likewise for `clientsdb.Delete`, with the zero
client and the class `clients.ErrNotExist`. -/
theorem Get_after_Remove (managersTable : database.managersdb)
    (clientsTable : database.clientsdb) (id other : uuid.UUID) (hne : other ≠ id) :
    (managersTable.Remove id).2 = none ∧
    (managersTable.Remove id).1.Get id
      = (managers.Manager.zero, some (errs.wrap managers.ErrNoManager database.ErrNoRows)) ∧
    errs.Has managers.ErrNoManager ((managersTable.Remove id).1.Get id).2 = true ∧
    (managersTable.Remove id).1.Get other = managersTable.Get other ∧
    (clientsTable.Delete id).2 = none ∧
    (clientsTable.Delete id).1.Get id
      = (clients.Client.zero, some (errs.wrap clients.ErrNotExist database.ErrNoRows)) ∧
    errs.Has clients.ErrNotExist ((clientsTable.Delete id).1.Get id).2 = true ∧
    (clientsTable.Delete id).1.Get other = clientsTable.Get other := by
  have hm : (managersTable.Remove id).1.Get id
      = (managers.Manager.zero, some (errs.wrap managers.ErrNoManager database.ErrNoRows)) := by
    apply managersdb_Get_missing
    intro r hr
    simp only [database.managersdb.Remove, List.mem_filter, Bool.not_eq_true',
      decide_eq_false_iff_not] at hr
    exact hr.2
  have hc : (clientsTable.Delete id).1.Get id
      = (clients.Client.zero, some (errs.wrap clients.ErrNotExist database.ErrNoRows)) := by
    apply clientsdb_Get_missing
    intro r hr
    simp only [database.clientsdb.Delete, List.mem_filter, Bool.not_eq_true',
      decide_eq_false_iff_not] at hr
    exact hr.2
  refine ⟨rfl, hm, by rw [hm]; rfl, ?_, rfl, hc, by rw [hc]; rfl, ?_⟩
  · unfold database.managersdb.Get database.managersdb.Remove
    simp only
    rw [find?_filter_of_imp]
    intro a ha
    simp only [decide_eq_true_eq] at ha
    simp [ha, hne]
  · unfold database.clientsdb.Get database.clientsdb.Delete
    simp only
    rw [find?_filter_of_imp]
    intro a ha
    simp only [decide_eq_true_eq] at ha
    simp [ha, hne]

/-- Witness of C21: the first manager and the first client are removed from the tables
of two. -/
theorem Get_after_Remove_witness :
    (fixture.twoManagers.Remove fixture.id).2 = none ∧
    (fixture.twoManagers.Remove fixture.id).1.Get fixture.id
      = (managers.Manager.zero, some (errs.wrap managers.ErrNoManager database.ErrNoRows)) ∧
    errs.Has managers.ErrNoManager
      ((fixture.twoManagers.Remove fixture.id).1.Get fixture.id).2 = true ∧
    (fixture.twoManagers.Remove fixture.id).1.Get fixture.id2
      = fixture.twoManagers.Get fixture.id2 ∧
    (fixture.twoClients.Delete fixture.id).2 = none ∧
    (fixture.twoClients.Delete fixture.id).1.Get fixture.id
      = (clients.Client.zero, some (errs.wrap clients.ErrNotExist database.ErrNoRows)) ∧
    errs.Has clients.ErrNotExist
      ((fixture.twoClients.Delete fixture.id).1.Get fixture.id).2 = true ∧
    (fixture.twoClients.Delete fixture.id).1.Get fixture.id2
      = fixture.twoClients.Get fixture.id2 :=
  Get_after_Remove fixture.twoManagers fixture.twoClients fixture.id fixture.id2
    (by decide)

/-- The two tables hold both IDs before the removal. -/
theorem fixture_two_tables_hold_both :
    (fixture.twoManagers.Get fixture.id).2 = none ∧
    (fixture.twoManagers.Get fixture.id2).2 = none ∧
    (fixture.twoClients.Get fixture.id).2 = none ∧
    (fixture.twoClients.Get fixture.id2).2 = none := by
  decide
/-- The row of a query by ID over a clients table followed by one more row. -/
theorem clientsdb_Get_append (rows : List database.ClientRow) (row : database.ClientRow)
    (id : uuid.UUID) (h : ∀ r ∈ rows, r.id ≠ id) :
    (database.clientsdb.mk (rows ++ [row])).Get id = (database.clientsdb.mk [row]).Get id := by
  unfold database.clientsdb.Get
  simp only [List.find?_append]
  have hf : rows.find? (fun r => decide (r.id = id)) = none := by
    rw [List.find?_eq_none]
    intro r hr
    simpa using h r hr
  rw [hf]
  rfl

/-- C22. For a phone that no row has, `Register`, drawing an ID that no row has, returns
that ID and no error; `Get` of the ID then succeeds with the ID, the phone, and empty
names and email, and `GetByPhone` of the phone returns a client with that ID. -/
theorem Register_then_Get_and_GetByPhone (db : database.clientsdb) (id : uuid.UUID)
    (now : time.Time) (phone : List Byte)
    (hphone : ∀ r ∈ db.rows, r.phone ≠ phone) (hid : ∀ r ∈ db.rows, r.id ≠ id) :
    (db.Register id now phone).2 = (id, none) ∧
    (db.Register id now phone).1.Get id
      = ({ ID := id, Email := [], Phone := phone, FirstName := [], LastName := [],
           CreatedAt := { sec := 0, nsec := 0, offset := 0 } }, none) ∧
    (db.Register id now phone).1.GetByPhone phone
      = ({ ID := id, Email := [], Phone := phone, FirstName := [], LastName := [],
           CreatedAt := { sec := 0, nsec := 0, offset := 0 } }, none) := by
  have hany : db.rows.any (fun r => decide (r.id = id) || decide (r.phone = phone))
      = false := by
    rw [List.any_eq_false]
    intro r hr
    simp [hid r hr, hphone r hr]
  have hreg : db.Register id now phone
      = ({ rows := db.rows ++
            [{ id := id, email := [], phone := phone, first_name := [], last_name := [],
               created_at := now.UTC }] }, id, none) := by
    unfold database.clientsdb.Register
    simp only [hany]
    rfl
  rw [hreg]
  refine ⟨rfl, ?_, ?_⟩
  · rw [clientsdb_Get_append _ _ _ hid]
    simp [database.clientsdb.Get]
  · apply (clientsdb_GetByPhone_found _ phone
      { id := id, email := [], phone := phone, first_name := [], last_name := [],
        created_at := now.UTC } ?_).trans rfl
    simp only [List.find?_append]
    have hf : db.rows.find? (fun r => decide (r.phone = phone)) = none := by
      rw [List.find?_eq_none]
      intro r hr
      simpa using hphone r hr
    rw [hf]
    simp

/-- Witness of C22: the phone `228` is registered in the empty table, as in
`TestAccounts`. -/
theorem Register_then_Get_and_GetByPhone_witness :
    ((database.clientsdb.mk []).Register fixture.newID fixture.now (bytesOf "228")).2
      = (fixture.newID, none) ∧
    ((database.clientsdb.mk []).Register fixture.newID fixture.now (bytesOf "228")).1.Get
        fixture.newID
      = ({ ID := fixture.newID, Email := [], Phone := bytesOf "228", FirstName := [],
           LastName := [], CreatedAt := { sec := 0, nsec := 0, offset := 0 } }, none) ∧
    ((database.clientsdb.mk []).Register fixture.newID fixture.now
        (bytesOf "228")).1.GetByPhone (bytesOf "228")
      = ({ ID := fixture.newID, Email := [], Phone := bytesOf "228", FirstName := [],
           LastName := [], CreatedAt := { sec := 0, nsec := 0, offset := 0 } }, none) :=
  Register_then_Get_and_GetByPhone { rows := [] } fixture.newID fixture.now (bytesOf "228")
    (by simp) (by simp)
/-! ## Closing the peer -/

/-- With a console endpoint set, `Peer.Close` closes it, returns its error, and leaves the
admin portal endpoint as it was. -/
theorem Peer_Close_of_console (peer : cleanmasters.Peer) (endpoint : server.Server)
    (consoleErr adminErr : Option GoError) (h : peer.Console.Endpoint = some endpoint) :
    (peer.Close consoleErr adminErr).1.Console.Endpoint
      = some { endpoint with server := { closed := true } } ∧
    (peer.Close consoleErr adminErr).1.AdminPortal = peer.AdminPortal ∧
    (peer.Close consoleErr adminErr).2 = errs.Wrap server.Error consoleErr := by
  unfold cleanmasters.Peer.Close
  rw [h]
  exact ⟨rfl, rfl, rfl⟩

/-- C24 (the code departs from it). On a peer whose console endpoint and admin portal
endpoint are both set, `Close` returns no error, the `http.Server` of the console endpoint
is closed, and the `http.Server` of the admin portal endpoint is not: `Close` of the admin
portal endpoint is not called. -/
theorem Peer_Close_leaves_the_admin_portal_open :
    (fixture.peer.Close none none).2 = none ∧
    ((fixture.peer.Close none none).1.Console.Endpoint.map
      (fun endpoint => endpoint.server.closed)) = some true ∧
    ((fixture.peer.Close none none).1.AdminPortal.Endpoint.map
      (fun endpoint => endpoint.server.closed)) = some false := by
  obtain ⟨h1, h2, h3⟩ := Peer_Close_of_console fixture.peer fixture.consoleServer none none rfl
  refine ⟨h3, ?_, ?_⟩
  · rw [h1]
    rfl
  · rw [h2]
    rfl

/-! ## The expiry at the current time -/

/-- A time is not before itself, whatever the zones. -/
theorem Before_irrefl (t u : time.Time) (hs : t.sec = u.sec) (hn : t.nsec = u.nsec) :
    t.Before u = false := by
  simp [time.Time.Before, hs, hn]

set_option maxRecDepth 100000 in
/-- The claims `due` serialise. -/
theorem fixture_due_serialises : fixture.due.JSON.2 = none := by
  rfl

set_option maxRecDepth 100000 in
/-- The payload of the token of `due` decodes to `due`. -/
theorem fixture_due_payload :
    auth.FromJSON fixture.decodeJSON (fixture.tokenOf fixture.due).Payload = .ok fixture.due := by
  rfl

/-- C25, as stated, fails. The validly signed token of claims that expire exactly at the
current time, 2020-09-13T12:26:40Z, is accepted: `Authorize` of the admin service and of
the console service return the claims and a nil error. -/
theorem Authorize_accepts_expiry_equal_to_now :
    fixture.due.ExpiresAt.IsZero = false ∧
    fixture.due.ExpiresAt = fixture.now ∧
    fixture.admin.Authorize fixture.decodeJSON (fixture.decodeTo (fixture.tokenOf fixture.due)) fixture.now
        fixture.ctx = (fixture.due, none) ∧
    fixture.console.Authorize fixture.decodeJSON (fixture.decodeTo (fixture.tokenOf fixture.due)) fixture.now
        fixture.ctx = (fixture.due, none) := by
  have h := Authorize_passes_live_known fixture.decodeJSON (fixture.decodeTo (fixture.tokenOf fixture.due))
    fixture.admin fixture.console fixture.now fixture.ctx (bytesOf "token")
    (fixture.tokenOf fixture.due) fixture.due rfl rfl fixture_due_payload
    (Or.inr (Before_irrefl _ _ rfl rfl))
  exact ⟨by decide, rfl,
    h.1 (fixture_tokenOf_signature _ fixture_due_serialises) ⟨_, List.mem_singleton.mpr rfl, rfl⟩,
    h.2 (fixture_tokenOf_signature _ fixture_due_serialises) ⟨_, List.mem_singleton.mpr rfl, rfl⟩⟩

/-- C25, amended. A validly signed token whose expiry is exactly the current time is not
expired for `Authorize`: the token of an existing principal is accepted, with its claims,
and the token of an unknown principal is rejected with an error and the zero claims. In
both `authorize` functions the test of the expiry is `ExpiresAt.Before(now)`, which is
false at equality: for claims whose expiry is zero, equal to the current time or after it,
`authorize` returns the result of the look-up of the principal, `nil` when a row has the
ID and the wrapped error of the look-up otherwise. -/
theorem Authorize_at_expiry_equal_to_now
    (decodeJSON : List Byte → Except GoError auth.Claims)
    (decode : List Byte → auth.Token × Option GoError) (admin : adminauth.Service)
    (console : consoleauth.Service) (now : time.Time) (ctx : auth.Context) (raw : List Byte)
    (t : auth.Token) (c : auth.Claims)
    (hctx : ctx.token = some raw) (hdec : decode raw = (t, none))
    (hc : auth.FromJSON decodeJSON t.Payload = .ok c)
    (hsec : c.ExpiresAt.sec = now.sec) (hnsec : c.ExpiresAt.nsec = now.nsec) :
    (t.Signature = hmac.Sum admin.signer.secret (base64.EncodeToString t.Payload) →
      ((∃ r ∈ admin.managers.db.rows, r.id = c.ID) →
        admin.Authorize decodeJSON decode now ctx = (c, none)) ∧
      ((∀ r ∈ admin.managers.db.rows, r.id ≠ c.ID) →
        (admin.Authorize decodeJSON decode now ctx).1 = auth.Claims.zero ∧
        (admin.Authorize decodeJSON decode now ctx).2 ≠ none)) ∧
    (t.Signature = hmac.Sum console.signer.secret (base64.EncodeToString t.Payload) →
      ((∃ r ∈ console.clients.db.rows, r.id = c.ID) →
        console.Authorize decodeJSON decode now ctx = (c, none)) ∧
      ((∀ r ∈ console.clients.db.rows, r.id ≠ c.ID) →
        (console.Authorize decodeJSON decode now ctx).1 = auth.Claims.zero ∧
        (console.Authorize decodeJSON decode now ctx).2 ≠ none)) ∧
    c.ExpiresAt.Before now = false ∧
    (∀ claims : auth.Claims,
      claims.ExpiresAt.IsZero = true ∨ claims.ExpiresAt.Before now = false →
      admin.authorize now claims
        = errs.Wrap adminauth.Error
            (errs.Wrap managers.Error (admin.managers.db.Get claims.ID).2) ∧
      console.authorize now claims
        = errs.Wrap consoleauth.Error
            (errs.Wrap clients.Error (console.clients.db.Get claims.ID).2) ∧
      ((∃ r ∈ admin.managers.db.rows, r.id = claims.ID) →
        admin.authorize now claims = none) ∧
      ((∀ r ∈ admin.managers.db.rows, r.id ≠ claims.ID) →
        (admin.authorize now claims).isSome = true) ∧
      ((∃ r ∈ console.clients.db.rows, r.id = claims.ID) →
        console.authorize now claims = none) ∧
      ((∀ r ∈ console.clients.db.rows, r.id ≠ claims.ID) →
        (console.authorize now claims).isSome = true)) := by
  have hbefore : c.ExpiresAt.Before now = false := Before_irrefl _ _ hsec hnsec
  have hlive : c.ExpiresAt.IsZero = true ∨ c.ExpiresAt.Before now = false := Or.inr hbefore
  have hpass := Authorize_passes_live_known decodeJSON decode admin console now ctx raw t c
    hctx hdec hc hlive
  have hrej := Authorize_rejects_unknown_principal_of_live_token decodeJSON decode admin
    console now ctx raw t c hctx hdec hc hlive
  refine ⟨fun hsig => ⟨hpass.1 hsig, hrej.1 hsig⟩, fun hsig => ⟨hpass.2 hsig, hrej.2 hsig⟩,
    hbefore, ?_⟩
  intro claims hl
  have ha := adminauth_authorize_live admin now claims hl
  have hk := consoleauth_authorize_live console now claims hl
  refine ⟨ha, hk, ?_, ?_, ?_, ?_⟩
  · intro hrow
    rw [ha, managersdb_Get_found _ _ hrow]
    rfl
  · intro hrow
    rw [ha, managersdb_Get_missing _ _ hrow]
    rfl
  · intro hrow
    rw [hk, clientsdb_Get_found _ _ hrow]
    rfl
  · intro hrow
    rw [hk, clientsdb_Get_missing _ _ hrow]
    rfl

/-- Witness of the amended C25: the token of `due` at `now`, at the services whose stores
hold the principal. -/
theorem Authorize_at_expiry_equal_to_now_witness :
    fixture.admin.Authorize fixture.decodeJSON (fixture.decodeTo (fixture.tokenOf fixture.due)) fixture.now
        fixture.ctx = (fixture.due, none) ∧
    fixture.console.Authorize fixture.decodeJSON (fixture.decodeTo (fixture.tokenOf fixture.due)) fixture.now
        fixture.ctx = (fixture.due, none) :=
  ⟨((Authorize_at_expiry_equal_to_now fixture.decodeJSON (fixture.decodeTo (fixture.tokenOf fixture.due))
      fixture.admin fixture.console fixture.now fixture.ctx (bytesOf "token")
      (fixture.tokenOf fixture.due) fixture.due rfl rfl fixture_due_payload rfl rfl).1
      (fixture_tokenOf_signature _ fixture_due_serialises)).1
      ⟨_, List.mem_singleton.mpr rfl, rfl⟩,
   ((Authorize_at_expiry_equal_to_now fixture.decodeJSON (fixture.decodeTo (fixture.tokenOf fixture.due))
      fixture.admin fixture.console fixture.now fixture.ctx (bytesOf "token")
      (fixture.tokenOf fixture.due) fixture.due rfl rfl fixture_due_payload rfl rfl).2.1
      (fixture_tokenOf_signature _ fixture_due_serialises)).1
      ⟨_, List.mem_singleton.mpr rfl, rfl⟩⟩
/-! ## Quoting a schema name -/

/-- The loop of `strings.Replace` on a one-byte `old`, with fuel for every byte: each byte
equal to `old` becomes `new`, the other bytes stay. -/
theorem replaceLoop_single (c : Byte) (new : List Byte) :
    ∀ (fuel : Nat) (s : List Byte), s.length ≤ fuel →
      strings.replaceLoop fuel s [c] new = s.flatMap (fun x => if x = c then new else [x]) := by
  intro fuel
  induction fuel with
  | zero =>
    intro s hs
    have : s = [] := List.length_eq_zero.mp (Nat.le_zero.mp hs)
    subst this
    rfl
  | succ fuel ih =>
    intro s hs
    cases s with
    | nil => rfl
    | cons x rest =>
      have hrest : rest.length ≤ fuel := by
        simp only [List.length_cons] at hs
        omega
      by_cases hx : x = c
      · subst hx
        simp [strings.replaceLoop, List.isPrefixOf, ih rest hrest, List.flatMap_cons]
      · have hcx : ¬ c = x := fun h => hx h.symm
        simp [strings.replaceLoop, List.isPrefixOf, ih rest hrest, List.flatMap_cons, hx, hcx]

/-- Removing one byte with `strings.Replace` is a filter. -/
theorem Replace_remove (c : Byte) (s : List Byte) :
    strings.Replace s [c] [] = s.filter (fun x => x != c) := by
  have h : strings.Replace s [c] [] = strings.replaceLoop s.length s [c] [] := by
    simp [strings.Replace]
  rw [h, replaceLoop_single c [] s.length s (Nat.le_refl _)]
  clear h
  induction s with
  | nil => rfl
  | cons x rest ih =>
    by_cases hx : x = c
    · subst hx
      simpa [List.flatMap_cons] using ih
    · simp [List.flatMap_cons, hx, List.filter_cons, ih]

/-- Doubling one byte with `strings.Replace`. -/
theorem Replace_double (c : Byte) (s : List Byte) :
    strings.Replace s [c] [c, c] = s.flatMap (fun x => if x = c then [c, c] else [x]) := by
  have h : strings.Replace s [c] [c, c] = strings.replaceLoop s.length s [c] [c, c] := by
    simp [strings.Replace]
  rw [h, replaceLoop_single c [c, c] s.length s (Nat.le_refl _)]

/-- The result of `QuoteSchema` in closed form. -/
theorem QuoteSchema_eq (ident : List Byte) :
    tempdb.QuoteSchema ident = [34] ++ tempdb.doubled ident ++ [34] := by
  unfold tempdb.QuoteSchema tempdb.doubled
  simp only [Replace_remove, Replace_double]

/-- Doubling the quotes keeps a string free of NUL bytes. -/
theorem doubled_no_NUL (ident : List Byte) : ∀ c ∈ tempdb.doubled ident, c ≠ 0 := by
  intro c hc
  unfold tempdb.doubled at hc
  rw [List.mem_flatMap] at hc
  obtain ⟨x, hx, hcx⟩ := hc
  have hx0 : x ≠ 0 := by simpa using (List.mem_filter.mp hx).2
  by_cases h34 : x = 34
  · rw [if_pos h34] at hcx
    have : c = 34 := by simpa using hcx
    rw [this]
    decide
  · rw [if_neg h34] at hcx
    have : c = x := by simpa using hcx
    rw [this]
    exact hx0

/-- Un-doubling reads a pair of double quotes as one. -/
theorem undouble_pair (l : List Byte) :
    tempdb.undouble (34 :: 34 :: l) = (tempdb.undouble l).map (fun r => 34 :: r) := by
  simp [tempdb.undouble]

/-- Un-doubling keeps a byte other than the double quote. -/
theorem undouble_other (x : Byte) (l : List Byte) (hx : x ≠ 34) :
    tempdb.undouble (x :: l) = (tempdb.undouble l).map (fun r => x :: r) := by
  rw [tempdb.undouble.eq_def]
  simp [hx]

/-- Un-doubling after doubling gives the string back. -/
theorem undouble_flatMap (s : List Byte) :
    tempdb.undouble (s.flatMap (fun c => if c = 34 then [34, 34] else [c])) = some s := by
  induction s with
  | nil => rfl
  | cons x rest ih =>
    by_cases hx : x = 34
    · subst hx
      rw [List.flatMap_cons, if_pos rfl, List.cons_append, List.cons_append, List.nil_append,
        undouble_pair, ih]
      rfl
    · rw [List.flatMap_cons, if_neg hx, List.cons_append, List.nil_append,
        undouble_other x _ hx, ih]
      rfl

/-- C26. For every identifier, `QuoteSchema` returns a double quote, the identifier with
its NUL bytes removed and every double quote doubled, and a double quote: the result
starts and ends with a double quote, holds no NUL byte, and un-doubling the part between
the outer quotes succeeds (no double quote is unpaired) and gives the identifier without
its NUL bytes. -/
theorem QuoteSchema_quotes_the_identifier (ident : List Byte) :
    tempdb.QuoteSchema ident = [34] ++ tempdb.doubled ident ++ [34] ∧
    (tempdb.QuoteSchema ident).head? = some 34 ∧
    (tempdb.QuoteSchema ident).getLast? = some 34 ∧
    2 ≤ (tempdb.QuoteSchema ident).length ∧
    (∀ c ∈ tempdb.QuoteSchema ident, c ≠ 0) ∧
    tempdb.doubled ident
      = (ident.filter (fun c => c != 0)).flatMap (fun c => if c = 34 then [34, 34] else [c]) ∧
    tempdb.undouble (tempdb.doubled ident) = some (ident.filter (fun c => c != 0)) := by
  have h := QuoteSchema_eq ident
  refine ⟨h, ?_, ?_, ?_, ?_, rfl, undouble_flatMap _⟩
  · rw [h]
    rfl
  · rw [h, List.getLast?_append]
    rfl
  · rw [h]
    simp
  · intro c hc
    rw [h] at hc
    simp only [List.mem_append, List.mem_singleton] at hc
    rcases hc with (hc | hc) | hc
    · rw [hc]
      decide
    · exact doubled_no_NUL ident c hc
    · rw [hc]
      decide
/-! ## The managers service -/

/-- After `managersdb.Update` of a manager, `Get` of its ID returns the new names, email
and password hash, and the creation time of the row that `Get` found before. -/
theorem managersdb_Get_after_Update (db : database.managersdb) (m : managers.Manager)
    (r0 : database.ManagerRow)
    (h : db.rows.find? (fun r => decide (r.id = m.ID)) = some r0) :
    (db.Update m).1.Get m.ID
      = ({ ID := m.ID, PasswordHash := m.PasswordHash, FirstName := m.FirstName,
           LastName := m.LastName, Email := m.Email, CreatedAt := r0.created_at }, none) := by
  unfold database.managersdb.Update database.managersdb.Get
  simp only
  rw [List.find?_append,
    find?_filter_of_not (fun r => decide (r.id = m.ID)) (fun r => !decide (r.id = m.ID))
      db.rows (fun a ha => by simp [ha]),
    List.find?_map]
  have hcomp : ((fun r : database.ManagerRow => decide (r.id = m.ID)) ∘
      (fun r : database.ManagerRow =>
        { r with password_hash := m.PasswordHash, first_name := m.FirstName,
                 last_name := m.LastName, email := m.Email }))
      = (fun r : database.ManagerRow => decide (r.id = m.ID)) := rfl
  rw [hcomp,
    find?_filter_of_imp (fun r => decide (r.id = m.ID)) (fun r => decide (r.id = m.ID))
      db.rows (fun _ ha => ha), h]
  rfl

/-- After `managersdb.Update` of a manager, `Get` of another ID returns what it returned
before. -/
theorem managersdb_Get_other_after_Update (db : database.managersdb) (m : managers.Manager)
    (other : uuid.UUID) (hne : other ≠ m.ID) :
    (db.Update m).1.Get other = db.Get other := by
  unfold database.managersdb.Update database.managersdb.Get
  simp only
  have hrest : (db.rows.filter (fun r => !decide (r.id = m.ID))).find?
      (fun r => decide (r.id = other)) = db.rows.find? (fun r => decide (r.id = other)) :=
    find?_filter_of_imp _ _ db.rows (fun a ha => by
      have : a.id = other := of_decide_eq_true ha
      simp [this, hne])
  have hwritten : ((db.rows.filter (fun r => decide (r.id = m.ID))).map
      (fun r : database.ManagerRow =>
        { r with password_hash := m.PasswordHash, first_name := m.FirstName,
                 last_name := m.LastName, email := m.Email })).find?
      (fun r => decide (r.id = other)) = none := by
    rw [List.find?_eq_none]
    intro a ha
    rw [List.mem_map] at ha
    obtain ⟨b, hb, hab⟩ := ha
    have hbid : b.id = m.ID := of_decide_eq_true (List.mem_filter.mp hb).2
    have haid : a.id = m.ID := by
      rw [← hab]
      exact hbid
    simp [haid, Ne.symm hne]
  rw [List.find?_append, hrest, hwritten, Option.or_none]

/-- A successful `managersdb.Get` returns the row it found. -/
theorem managersdb_Get_ok_inv (db : database.managersdb) (id : uuid.UUID)
    (manager : managers.Manager) (h : db.Get id = (manager, none)) :
    ∃ r0, db.rows.find? (fun r => decide (r.id = id)) = some r0 ∧
      manager = { ID := id, PasswordHash := r0.password_hash, FirstName := r0.first_name,
                  LastName := r0.last_name, Email := r0.email, CreatedAt := r0.created_at } := by
  unfold database.managersdb.Get at h
  cases hf : db.rows.find? (fun r => decide (r.id = id)) with
  | none =>
    rw [hf] at h
    exact absurd (congrArg Prod.snd h) (by simp [errs.Wrap])
  | some r0 =>
    rw [hf] at h
    exact ⟨r0, rfl, (congrArg Prod.fst h).symm⟩

/-- Method `Service.Update` on a manager that `Get` finds: the manager read, with the names
and the email of the fields, is what `managersdb.Update` gets. -/
theorem managers_Update_of_found (service : managers.Service) (id : uuid.UUID)
    (fields : managers.ManagerUpdateFields) (manager : managers.Manager)
    (h : service.db.Get id = (manager, none)) :
    service.Update id fields
      = ({ db := (service.db.Update
            { manager with LastName := fields.LastName, FirstName := fields.FirstName,
                           Email := fields.Email }).1 }, none) := by
  unfold managers.Service.Update
  rw [h]
  rfl

/-- Method `Service.Update` on an ID that `Get` does not find: the error of `Get`, wrapped,
and the service as it was. -/
theorem managers_Update_of_missing (service : managers.Service) (id : uuid.UUID)
    (fields : managers.ManagerUpdateFields) (manager : managers.Manager) (err : GoError)
    (h : service.db.Get id = (manager, some err)) :
    service.Update id fields = (service, errs.Wrap managers.Error (some err)) := by
  unfold managers.Service.Update
  rw [h]

/-- C28. For every manager that `Get` reads and every value of the update fields,
`Service.Update` returns no error and hands `managersdb.Update` the manager read with the
first name, last name and email of the fields: its ID, password hash and creation time
are those read, whatever the password of the fields is. After the update `Get` of the ID
returns exactly that manager, and `Get` of every other ID returns what it did. When `Get`
finds no manager of the ID, `Service.Update` returns the error of `Get` wrapped in the
class of the service, and the table is the one before: `managersdb.Update` is on the
other branch only. -/
theorem managers_Update_changes_names_and_email (service : managers.Service)
    (id : uuid.UUID) (fields : managers.ManagerUpdateFields) :
    (∀ manager, service.db.Get id = (manager, none) →
      (service.Update id fields).2 = none ∧
      (service.Update id fields).1.db
        = (service.db.Update
            { ID := manager.ID, PasswordHash := manager.PasswordHash,
              CreatedAt := manager.CreatedAt, FirstName := fields.FirstName,
              LastName := fields.LastName, Email := fields.Email }).1 ∧
      (service.Update id fields).1.db.Get id
        = ({ ID := manager.ID, PasswordHash := manager.PasswordHash,
             CreatedAt := manager.CreatedAt, FirstName := fields.FirstName,
             LastName := fields.LastName, Email := fields.Email }, none) ∧
      (∀ other, other ≠ id → (service.Update id fields).1.db.Get other = service.db.Get other) ∧
      (∀ password, service.Update id { fields with Password := password }
        = service.Update id fields)) ∧
    (∀ manager err, service.db.Get id = (manager, some err) →
      service.Update id fields = (service, errs.Wrap managers.Error (some err)) ∧
      errs.Has managers.Error (service.Update id fields).2 = true) ∧
    ((∀ r ∈ service.db.rows, r.id ≠ id) →
      (service.Update id fields).1 = service ∧
      errs.Has managers.ErrNoManager (service.Update id fields).2 = true) := by
  refine ⟨?_, ?_, ?_⟩
  · intro manager h
    obtain ⟨r0, hf, hm⟩ := managersdb_Get_ok_inv service.db id manager h
    have hu := managers_Update_of_found service id fields manager h
    have hid : manager.ID = id := by rw [hm]
    have hcreated : manager.CreatedAt = r0.created_at := by rw [hm]
    refine ⟨by rw [hu], by rw [hu], ?_, ?_, ?_⟩
    · rw [hu]
      have hg := managersdb_Get_after_Update service.db
        { manager with LastName := fields.LastName, FirstName := fields.FirstName,
                       Email := fields.Email } r0 (by rw [← hf, hid])
      rw [hid] at hg ⊢
      rw [hcreated]
      exact hg
    · intro other hne
      rw [hu]
      exact managersdb_Get_other_after_Update service.db _ other (by
        show other ≠ manager.ID
        rw [hid]
        exact hne)
    · intro password
      rfl
  · intro manager err h
    have hu := managers_Update_of_missing service id fields manager err h
    refine ⟨hu, ?_⟩
    rw [hu]
    simp only [errs.Wrap, errs.wrap, errs.Has]
    split
    · rename_i hhead
      obtain ⟨ys, hys⟩ := List.head?_eq_some_iff.mp hhead
      simp [hys]
    · simp
  · intro hnone
    have hf : service.db.rows.find? (fun r => decide (r.id = id)) = none := by
      rw [List.find?_eq_none]
      intro r hr
      simpa using hnone r hr
    have hg : service.db.Get id
        = (managers.Manager.zero,
           errs.Wrap managers.ErrNoManager (some database.ErrNoRows)) := by
      unfold database.managersdb.Get
      rw [hf]
    have hu : service.Update id fields
        = (service, errs.Wrap managers.Error
            (errs.Wrap managers.ErrNoManager (some database.ErrNoRows))) := by
      unfold managers.Service.Update
      rw [hg]
      rfl
    rw [hu]
    exact ⟨rfl, (by decide : errs.Has managers.ErrNoManager (errs.Wrap managers.Error
      (errs.Wrap managers.ErrNoManager (some database.ErrNoRows))) = true)⟩

set_option maxRecDepth 100000 in
/-- The table of two managers finds the first manager by ID. -/
theorem fixture_twoManagers_Get :
    fixture.managersService.db.Get fixture.id = (fixture.manager, none) := by
  rfl

set_option maxRecDepth 100000 in
/-- The table of two managers has no row of the ID `newID`. -/
theorem fixture_twoManagers_fresh :
    ∀ r ∈ fixture.managersService.db.rows, r.id ≠ fixture.newID := by
  decide

/-- Witness of C28: the first manager of the table of two, updated with fields that carry
a password, and an update of an ID that the table does not hold. -/
theorem managers_Update_changes_names_and_email_witness :
    (fixture.managersService.Update fixture.id fixture.fields).1.db.Get fixture.id
      = ({ ID := fixture.id, PasswordHash := bytesOf "qwerty123", CreatedAt := fixture.now,
           FirstName := bytesOf "QWERTT", LastName := bytesOf "Maslanov",
           Email := bytesOf "new@qwe.com" }, none) ∧
    (fixture.managersService.Update fixture.newID fixture.fields).1 = fixture.managersService :=
  ⟨((managers_Update_changes_names_and_email fixture.managersService fixture.id
      fixture.fields).1 fixture.manager fixture_twoManagers_Get).2.2.1,
   ((managers_Update_changes_names_and_email fixture.managersService fixture.newID
      fixture.fields).2.2 fixture_twoManagers_fresh).1⟩
/-- Method `managersdb.Add` of a manager whose ID or normalized email is in a row fails and
leaves the table. -/
theorem managersdb_Add_taken (mapUpper : List Byte → List Byte) (db : database.managersdb)
    (now : time.Time) (m : managers.Manager)
    (h : ∃ r ∈ db.rows,
      r.id = m.ID ∨ r.email_normalized = database.normalizeEmail mapUpper m.Email) :
    db.Add mapUpper now m
      = (db, errs.Wrap database.ErrManagersDB (some database.ErrDuplicateKey)) := by
  unfold database.managersdb.Add
  dsimp only
  rw [if_pos]
  obtain ⟨r, hr, h⟩ := h
  exact List.any_eq_true.mpr ⟨r, hr, by simpa using h⟩

/-- Method `managersdb.Add` of a manager whose ID and normalized email are in no row
appends its row. -/
theorem managersdb_Add_free (mapUpper : List Byte → List Byte) (db : database.managersdb)
    (now : time.Time) (m : managers.Manager)
    (h : ∀ r ∈ db.rows,
      r.id ≠ m.ID ∧ r.email_normalized ≠ database.normalizeEmail mapUpper m.Email) :
    db.Add mapUpper now m
      = ({ rows := db.rows ++
            [{ id := m.ID, password_hash := m.PasswordHash, first_name := m.FirstName,
               last_name := m.LastName, email := m.Email,
               email_normalized := database.normalizeEmail mapUpper m.Email,
               created_at := now.UTC }] }, none) := by
  unfold database.managersdb.Add
  dsimp only
  rw [if_neg]
  · rfl
  · intro hany
    obtain ⟨r, hr, hh⟩ := List.any_eq_true.mp hany
    simp only [Bool.or_eq_true, decide_eq_true_eq] at hh
    rcases hh with hh | hh
    · exact (h r hr).1 hh
    · exact (h r hr).2 hh

/-- Method `Service.Create` with a non-empty password that is hashed: the result is that
of `managersdb.Add` of the new manager. -/
theorem managers_Create_of_hash (mapUpper : List Byte → List Byte)
    (GenerateFromPassword : List Byte → List Byte × Option GoError)
    (service : managers.Service) (now : time.Time) (id : uuid.UUID)
    (password firstName lastName email passwordHash : List Byte)
    (hp : password ≠ []) (hg : GenerateFromPassword password = (passwordHash, none)) :
    service.Create mapUpper GenerateFromPassword now id password firstName lastName email
      = ({ db := (service.db.Add mapUpper now
                    { ID := id, FirstName := firstName, LastName := lastName,
                      Email := email, PasswordHash := passwordHash,
                      CreatedAt := now.UTC }).1 },
         errs.Wrap managers.Error
           (service.db.Add mapUpper now
              { ID := id, FirstName := firstName, LastName := lastName, Email := email,
                PasswordHash := passwordHash, CreatedAt := now.UTC }).2) := by
  unfold managers.Service.Create
  rw [if_neg hp, hg]

set_option maxRecDepth 100000 in
/-- The first row of the table of two managers has the normalized email of `AM@qwe.com`. -/
theorem fixture_email_taken :
    ∃ r ∈ fixture.managersService.db.rows,
      r.id = fixture.newID ∨
      r.email_normalized
        = database.normalizeEmail fixture.mapUpper (bytesOf "AM@qwe.com") := by
  decide

/-- C29, as stated, fails. `Service.Create` with the non-empty password `qwerty123`, a
fresh ID and the email `AM@qwe.com`, over a table that holds a manager of the email
`am@qwe.com`, adds no manager: it returns an error of the class of the service and the
table is the one before. -/
theorem Create_with_a_taken_email_adds_no_manager :
    (fixture.managersService.Create fixture.mapUpper fixture.generate fixture.now
        fixture.newID (bytesOf "qwerty123") (bytesOf "Caslan") (bytesOf "Daslan")
        (bytesOf "AM@qwe.com")).1 = fixture.managersService ∧
    errs.Has managers.Error
      (fixture.managersService.Create fixture.mapUpper fixture.generate fixture.now
        fixture.newID (bytesOf "qwerty123") (bytesOf "Caslan") (bytesOf "Daslan")
        (bytesOf "AM@qwe.com")).2 = true ∧
    errs.Has managers.ValidationError
      (fixture.managersService.Create fixture.mapUpper fixture.generate fixture.now
        fixture.newID (bytesOf "qwerty123") (bytesOf "Caslan") (bytesOf "Daslan")
        (bytesOf "AM@qwe.com")).2 = false := by
  have h := managers_Create_of_hash fixture.mapUpper fixture.generate fixture.managersService
    fixture.now fixture.newID (bytesOf "qwerty123") (bytesOf "Caslan") (bytesOf "Daslan")
    (bytesOf "AM@qwe.com") (bytesOf "qwerty123") (by decide) rfl
  rw [managersdb_Add_taken fixture.mapUpper fixture.managersService.db fixture.now _
    fixture_email_taken] at h
  rw [h]
  exact ⟨rfl, by decide, by decide⟩

/-- C29, amended. `Service.Create` with an empty password returns an error of the class
`ValidationError` and the service as it was, for every first name, last name and email:
`Add` is on the other branch only. With a non-empty password that `bcrypt` hashes, and an
ID and a normalized email that no row of the table has, it returns no error and the table
is the one before followed by exactly one row, which carries the given first name, last
name and email, the hash and the current time in UTC; when a row has the ID or the
normalized email, it returns an error and the table is the one before. -/
theorem Create_adds_one_manager_when_free (mapUpper : List Byte → List Byte)
    (GenerateFromPassword : List Byte → List Byte × Option GoError)
    (service : managers.Service) (now : time.Time) (id : uuid.UUID)
    (password firstName lastName email : List Byte) :
    (password = [] →
      service.Create mapUpper GenerateFromPassword now id password firstName lastName email
        = (service, some (errs.New managers.ValidationError "password is incorrect")) ∧
      errs.Has managers.ValidationError
        (service.Create mapUpper GenerateFromPassword now id password firstName lastName
          email).2 = true) ∧
    (∀ passwordHash, password ≠ [] → GenerateFromPassword password = (passwordHash, none) →
      ((∀ r ∈ service.db.rows,
          r.id ≠ id ∧ r.email_normalized ≠ database.normalizeEmail mapUpper email) →
        service.Create mapUpper GenerateFromPassword now id password firstName lastName email
          = ({ db := { rows := service.db.rows ++
                [{ id := id, password_hash := passwordHash, first_name := firstName,
                   last_name := lastName, email := email,
                   email_normalized := database.normalizeEmail mapUpper email,
                   created_at := now.UTC }] } }, none)) ∧
      ((∃ r ∈ service.db.rows,
          r.id = id ∨ r.email_normalized = database.normalizeEmail mapUpper email) →
        (service.Create mapUpper GenerateFromPassword now id password firstName lastName
          email).1 = service ∧
        errs.Has managers.Error
          (service.Create mapUpper GenerateFromPassword now id password firstName lastName
            email).2 = true)) := by
  refine ⟨?_, ?_⟩
  · intro hp
    have h : service.Create mapUpper GenerateFromPassword now id password firstName lastName
        email = (service, some (errs.New managers.ValidationError "password is incorrect")) := by
      unfold managers.Service.Create
      rw [if_pos hp]
    rw [h]
    exact ⟨rfl, (by decide : errs.Has managers.ValidationError
      (some (errs.New managers.ValidationError "password is incorrect")) = true)⟩
  · intro passwordHash hp hg
    have h := managers_Create_of_hash mapUpper GenerateFromPassword service now id password
      firstName lastName email passwordHash hp hg
    refine ⟨?_, ?_⟩
    · intro hfree
      rw [h, managersdb_Add_free mapUpper service.db now _ hfree]
      rfl
    · intro htaken
      rw [h, managersdb_Add_taken mapUpper service.db now _ htaken]
      exact ⟨rfl, (by decide : errs.Has managers.Error (errs.Wrap managers.Error
        (errs.Wrap database.ErrManagersDB (some database.ErrDuplicateKey))) = true)⟩

set_option maxRecDepth 100000 in
/-- No row of the table of two managers has the ID `newID` or the normalized email of
`cd@qwe.com`. -/
theorem fixture_email_free :
    ∀ r ∈ fixture.managersService.db.rows,
      r.id ≠ fixture.newID ∧
      r.email_normalized
        ≠ database.normalizeEmail fixture.mapUpper (bytesOf "cd@qwe.com") := by
  decide

/-- Witness of the amended C29: an empty password, and a third manager added to the table
of two. -/
theorem Create_adds_one_manager_when_free_witness :
    errs.Has managers.ValidationError
      (fixture.managersService.Create fixture.mapUpper fixture.generate fixture.now
        fixture.newID [] (bytesOf "Caslan") (bytesOf "Daslan") (bytesOf "cd@qwe.com")).2
      = true ∧
    fixture.managersService.Create fixture.mapUpper fixture.generate fixture.now
        fixture.newID (bytesOf "qwerty123") (bytesOf "Caslan") (bytesOf "Daslan")
        (bytesOf "cd@qwe.com")
      = ({ db := { rows := fixture.managersService.db.rows ++
            [{ id := fixture.newID, password_hash := bytesOf "qwerty123",
               first_name := bytesOf "Caslan", last_name := bytesOf "Daslan",
               email := bytesOf "cd@qwe.com",
               email_normalized :=
                 database.normalizeEmail fixture.mapUpper (bytesOf "cd@qwe.com"),
               created_at := fixture.now.UTC }] } }, none) :=
  ⟨((Create_adds_one_manager_when_free fixture.mapUpper fixture.generate
      fixture.managersService fixture.now fixture.newID [] (bytesOf "Caslan")
      (bytesOf "Daslan") (bytesOf "cd@qwe.com")).1 rfl).2,
   ((Create_adds_one_manager_when_free fixture.mapUpper fixture.generate
      fixture.managersService fixture.now fixture.newID (bytesOf "qwerty123")
      (bytesOf "Caslan") (bytesOf "Daslan") (bytesOf "cd@qwe.com")).2
      (bytesOf "qwerty123") (by decide) rfl).1 fixture_email_free⟩
/-! ## The controllers -/

/-- Method `Auth.Authorize` on a `POST` request whose form is parsed and has no value of
`email`: the first element of an empty slice is read, and the handler panics, whatever the
writer and the other fields are. -/
theorem Authorize_panics_without_email (mapUpper : List Byte → List Byte)
    (CompareHashAndPassword : List Byte → List Byte → Option GoError)
    (TokenString : auth.Token → List Byte)
    (Execute : http.ResponseWriter → http.ResponseWriter × Option GoError)
    (controller : adminportalweb.Auth) (now : time.Time) (w : http.ResponseWriter)
    (r : http.Request) (hm : r.Method = http.MethodPost) (hf : r.formErr = none)
    (he : r.FormValues "email" = []) :
    controller.Authorize mapUpper CompareHashAndPassword TokenString Execute now w r
      = .panicked "runtime error: index out of range [0] with length 0" := by
  unfold adminportalweb.Auth.Authorize
  simp only [hm, hf, he]
  rw [if_neg (by decide)]
  exact if_pos trivial

/-- Method `Auth.Authorize` on a `POST` request whose form is parsed and has a value of
`email` and none of `password`: the handler panics. -/
theorem Authorize_panics_without_password (mapUpper : List Byte → List Byte)
    (CompareHashAndPassword : List Byte → List Byte → Option GoError)
    (TokenString : auth.Token → List Byte)
    (Execute : http.ResponseWriter → http.ResponseWriter × Option GoError)
    (controller : adminportalweb.Auth) (now : time.Time) (w : http.ResponseWriter)
    (r : http.Request) (hm : r.Method = http.MethodPost) (hf : r.formErr = none)
    (email0 : List Byte) (rest : List (List Byte))
    (he : r.FormValues "email" = email0 :: rest) (hp : r.FormValues "password" = []) :
    controller.Authorize mapUpper CompareHashAndPassword TokenString Execute now w r
      = .panicked "runtime error: index out of range [0] with length 0" := by
  unfold adminportalweb.Auth.Authorize
  simp only [hm, hf, he, hp]
  rw [if_neg (by decide)]
  exact if_pos trivial

/-- C30 (the code departs from it). On a `POST` request whose form lacks the field
`email`, and on one whose form lacks the field `password`, the handler of `/authorize`
reads element 0 of an empty slice of form values and panics: it does not return, and it
has written no status and no body. -/
theorem Authorize_panics_on_a_form_without_a_field :
    fixture.authController.Authorize fixture.mapUpper fixture.compare fixture.tokenString
        fixture.execute fixture.now http.ResponseWriter.fresh fixture.postWithoutEmail
      = .panicked "runtime error: index out of range [0] with length 0" ∧
    fixture.authController.Authorize fixture.mapUpper fixture.compare fixture.tokenString
        fixture.execute fixture.now http.ResponseWriter.fresh fixture.postWithoutPassword
      = .panicked "runtime error: index out of range [0] with length 0" ∧
    fixture.postWithoutEmail.FormValues "email" = [] ∧
    fixture.postWithoutPassword.FormValues "password" = [] :=
  ⟨Authorize_panics_without_email _ _ _ _ _ _ _ _ rfl rfl (by decide),
   Authorize_panics_without_password _ _ _ _ _ _ _ _ rfl rfl (bytesOf "am@qwe.com") []
     (by decide) (by decide),
   by decide, by decide⟩

/-- Method `clientsdb.Update` leaves the rows of the other IDs, in their order. -/
theorem clientsdb_Update_keeps_others (db : database.clientsdb) (client : clients.Client) :
    (db.Update client).1.rows.filter (fun r => !decide (r.id = client.ID))
      = db.rows.filter (fun r => !decide (r.id = client.ID)) := by
  unfold database.clientsdb.Update
  dsimp only
  split
  · rfl
  · show List.filter _ (_ ++ _) = _
    rw [List.filter_append, List.filter_filter]
    have hw : List.filter (fun r : database.ClientRow => !decide (r.id = client.ID))
        ((db.rows.filter (fun r => decide (r.id = client.ID))).map
          (fun r => { r with phone := client.Phone, first_name := client.FirstName,
                             last_name := client.LastName, email := client.Email })) = [] := by
      rw [List.filter_eq_nil_iff]
      intro a ha
      rw [List.mem_map] at ha
      obtain ⟨b, hb, hab⟩ := ha
      have hbid : b.id = client.ID := of_decide_eq_true (List.mem_filter.mp hb).2
      have haid : a.id = client.ID := by
        rw [← hab]
        exact hbid
      simp [haid]
    rw [hw, List.append_nil]
    congr 1
    funext r
    simp

/-- Method `clients.Service.Update` leaves the rows of the other IDs, in their order. -/
theorem clients_Update_keeps_others (service : clients.Service) (client : clients.Client) :
    (service.Update client).1.db.rows.filter (fun r => !decide (r.id = client.ID))
      = service.db.rows.filter (fun r => !decide (r.id = client.ID)) := by
  unfold clients.Service.Update
  split
  · rfl
  · exact clientsdb_Update_keeps_others service.db client

/-- Method `UpdatePersonalData` with claims in the context and a body that decodes: the
service after the call is the service after `Update` of the client of the claims. -/
theorem UpdatePersonalData_of_claims
    (decode : List Byte → server.UpdateClientRequest × Option GoError)
    (controller : server.Clients) (w : http.ResponseWriter) (r : http.Request)
    (claims : auth.Claims) (request : server.UpdateClientRequest)
    (hc : auth.GetClaims r.ctx = (claims, none)) (hd : decode r.Body = (request, none)) :
    (controller.UpdatePersonalData decode w r).1.clients
      = (controller.clients.Update
          { ID := claims.ID, FirstName := request.FirstName, LastName := request.LastName,
            Email := request.Email, Phone := request.Phone,
            CreatedAt := { sec := 0, nsec := 0, offset := 0 } }).1 := by
  unfold server.Clients.UpdatePersonalData
  simp only [hc, hd]
  split <;> simp_all

/-- Method `UpdatePersonalData` with claims in the context and a body that does not
decode: status 400, and the controller as it was. -/
theorem UpdatePersonalData_of_bad_body
    (decode : List Byte → server.UpdateClientRequest × Option GoError)
    (controller : server.Clients) (w : http.ResponseWriter) (r : http.Request)
    (claims : auth.Claims) (request : server.UpdateClientRequest) (err : GoError)
    (hc : auth.GetClaims r.ctx = (claims, none)) (hd : decode r.Body = (request, some err)) :
    controller.UpdatePersonalData decode w r
      = (controller,
         server.Clients.serveError (w.Add "Content-Type" (bytesOf "application/json"))
           http.StatusBadRequest (errs.wrap server.ErrClients err)) := by
  unfold server.Clients.UpdatePersonalData
  simp only [hc, hd]

/-- Method `UpdatePersonalData` without claims in the context: status 401, and the
controller as it was. -/
theorem UpdatePersonalData_without_claims
    (decode : List Byte → server.UpdateClientRequest × Option GoError)
    (controller : server.Clients) (w : http.ResponseWriter) (r : http.Request)
    (claims : auth.Claims) (err : GoError) (hc : auth.GetClaims r.ctx = (claims, some err)) :
    controller.UpdatePersonalData decode w r
      = (controller,
         server.Clients.serveError (w.Add "Content-Type" (bytesOf "application/json"))
           http.StatusUnauthorized (errs.wrap server.ErrClients err)) := by
  unfold server.Clients.UpdatePersonalData
  simp only [hc]

/-- The status that `serveError` leaves on a writer with no status yet. -/
theorem serveError_status (w : http.ResponseWriter) (status : Nat) (err : GoError)
    (hw : w.status = none) : (server.Clients.serveError w status err).status = some status := by
  simp [server.Clients.serveError, http.ResponseWriter.Write, http.ResponseWriter.WriteHeader,
    hw]

/-- C27. For every request body, every decoding of it and every claims value in the
context, `UpdatePersonalData` passes to `clients.Service.Update` a client whose ID is the
ID of the claims, with the names, email and phone of the decoded request: the service
after the call is the service after that `Update`. Whatever the body is, the rows of the
other IDs are the rows before, in their order, and a body that does not decode leaves the
controller as it was. When the context holds no claims, the controller is as it was,
`Update` being on the other branch only, and the response is `serveError` with the status
401, which a writer with no status yet then has. -/
theorem UpdatePersonalData_updates_the_client_of_the_claims
    (decode : List Byte → server.UpdateClientRequest × Option GoError)
    (controller : server.Clients) (w : http.ResponseWriter) (r : http.Request) :
    (∀ claims, auth.GetClaims r.ctx = (claims, none) →
      (∀ request, decode r.Body = (request, none) →
        (controller.UpdatePersonalData decode w r).1.clients
          = (controller.clients.Update
              { ID := claims.ID, FirstName := request.FirstName,
                LastName := request.LastName, Email := request.Email,
                Phone := request.Phone,
                CreatedAt := { sec := 0, nsec := 0, offset := 0 } }).1) ∧
      (∀ request err, decode r.Body = (request, some err) →
        (controller.UpdatePersonalData decode w r).1.clients = controller.clients) ∧
      (controller.UpdatePersonalData decode w r).1.clients.db.rows.filter
          (fun row => !decide (row.id = claims.ID))
        = controller.clients.db.rows.filter (fun row => !decide (row.id = claims.ID))) ∧
    (∀ claims err, auth.GetClaims r.ctx = (claims, some err) →
      (controller.UpdatePersonalData decode w r).1.clients = controller.clients ∧
      (controller.UpdatePersonalData decode w r).2
        = server.Clients.serveError (w.Add "Content-Type" (bytesOf "application/json"))
            http.StatusUnauthorized (errs.wrap server.ErrClients err) ∧
      (w.status = none →
        (controller.UpdatePersonalData decode w r).2.status = some 401)) := by
  refine ⟨?_, ?_⟩
  · intro claims hc
    refine ⟨fun request hd => UpdatePersonalData_of_claims decode controller w r claims
      request hc hd, ?_, ?_⟩
    · intro request err hd
      rw [UpdatePersonalData_of_bad_body decode controller w r claims request err hc hd]
    · cases hd : decode r.Body with
      | mk request e =>
        cases e with
        | none =>
          rw [UpdatePersonalData_of_claims decode controller w r claims request hc hd]
          exact clients_Update_keeps_others controller.clients
            { ID := claims.ID, FirstName := request.FirstName, LastName := request.LastName,
              Email := request.Email, Phone := request.Phone,
              CreatedAt := { sec := 0, nsec := 0, offset := 0 } }
        | some err =>
          rw [UpdatePersonalData_of_bad_body decode controller w r claims request err hc hd]
  · intro claims err hc
    have h := UpdatePersonalData_without_claims decode controller w r claims err hc
    refine ⟨by rw [h], by rw [h], ?_⟩
    intro hw
    rw [h]
    exact serveError_status _ _ _ hw

set_option maxRecDepth 100000 in
/-- The request `authorized` carries the claims `fresh`, and the request `bare` none. -/
theorem fixture_request_claims (body : List Byte) :
    auth.GetClaims (fixture.authorized body).ctx = (fixture.fresh, none) ∧
    auth.GetClaims fixture.bare.ctx
      = (auth.Claims.zero,
         some (errs.New auth.Error "could not get auth or error from context")) :=
  ⟨rfl, rfl⟩

/-- Witness of C27: a request of the principal with a body, and a request without claims. -/
theorem UpdatePersonalData_updates_the_client_of_the_claims_witness :
    (fixture.controller.UpdatePersonalData fixture.decodeBody http.ResponseWriter.fresh
        (fixture.authorized (bytesOf "Aslanbek"))).1.clients
      = (fixture.controller.clients.Update
          { ID := fixture.fresh.ID, FirstName := bytesOf "Aslanbek",
            LastName := bytesOf "Maslanovich", Email := bytesOf "new_poshta_am@qwe.com",
            Phone := bytesOf "5051228",
            CreatedAt := { sec := 0, nsec := 0, offset := 0 } }).1 ∧
    (fixture.controller.UpdatePersonalData fixture.decodeBody http.ResponseWriter.fresh
        fixture.bare).2.status = some 401 :=
  ⟨((UpdatePersonalData_updates_the_client_of_the_claims fixture.decodeBody
      fixture.controller http.ResponseWriter.fresh
      (fixture.authorized (bytesOf "Aslanbek"))).1 fixture.fresh
      (fixture_request_claims _).1).1 _ rfl,
   ((UpdatePersonalData_updates_the_client_of_the_claims fixture.decodeBody
      fixture.controller http.ResponseWriter.fresh fixture.bare).2 auth.Claims.zero _
      (fixture_request_claims []).2).2.2 rfl⟩
/-! ## The auth cookie -/

/-- The serialization of the cookie of `SetToken` with a valid name: the name, the
sanitized token, the sanitized path when there is one, the expiry when its year is valid,
`HttpOnly` and `SameSite=Strict`. -/
theorem Cookie_String_of_SetToken (name path : List Byte) (expires : time.Time)
    (token : List Byte) (hname : http.isCookieNameValid name = true) :
    http.Cookie.String
        { Name := name, Value := token, Path := path, Expires := expires, HttpOnly := true,
          SameSite := http.SameSiteStrictMode }
      = name ++ [61] ++ http.sanitizeCookieValue token
          ++ (if path.length > 0 then
                bytesOf "; Path=" ++ http.sanitizeCookiePath path
              else [])
          ++ (if http.validCookieExpires expires then
                bytesOf "; Expires=" ++ expires.UTC.AppendTimeFormat []
              else [])
          ++ bytesOf "; HttpOnly; SameSite=Strict" := by
  unfold http.Cookie.String
  have h34 : ¬ http.SameSiteStrictMode = 4 := by decide
  have h32 : ¬ http.SameSiteStrictMode = 2 := by decide
  have h33 : http.SameSiteStrictMode = 3 := rfl
  have happ : bytesOf "; HttpOnly; SameSite=Strict"
      = bytesOf "; HttpOnly" ++ bytesOf "; SameSite=Strict" := by decide
  simp only [hname, Bool.not_true, Bool.false_eq_true, if_false, if_true, if_neg h34,
    if_neg h32, if_pos h33, happ]
  by_cases hp : path.length > 0 <;> by_cases he : http.validCookieExpires expires = true <;>
    simp only [hp, he, if_true, if_false, List.append_assoc, List.append_nil, List.nil_append,
      Bool.false_eq_true]

/-- Method `Cookie.SetToken` with a valid cookie name: one `Set-Cookie` field is added,
with the serialization of the cookie. -/
theorem SetToken_eq (cookieAuth : auth.Cookie) (w : http.ResponseWriter) (now : time.Time)
    (token : List Byte) (hname : http.isCookieNameValid cookieAuth.settings.Name = true) :
    cookieAuth.SetToken w now token
      = w.Add "Set-Cookie"
          (cookieAuth.settings.Name ++ [61] ++ http.sanitizeCookieValue token
            ++ (if cookieAuth.settings.Path.length > 0 then
                  bytesOf "; Path=" ++ http.sanitizeCookiePath cookieAuth.settings.Path
                else [])
            ++ (if http.validCookieExpires (now.Add auth.cookieDuration) then
                  bytesOf "; Expires="
                    ++ (now.Add auth.cookieDuration).UTC.AppendTimeFormat []
                else [])
            ++ bytesOf "; HttpOnly; SameSite=Strict") := by
  unfold auth.Cookie.SetToken http.SetCookie
  rw [Cookie_String_of_SetToken _ _ _ _ hname]
  dsimp only
  rw [if_pos]
  intro h
  have hlen := congrArg List.length h
  rw [List.length_append] at hlen
  have h17 : (bytesOf "; HttpOnly; SameSite=Strict").length = 27 := by decide
  rw [h17, List.length_nil] at hlen
  omega

/-- Method `Cookie.SetToken` with an invalid cookie name: no field is added. -/
theorem SetToken_of_invalid_name (cookieAuth : auth.Cookie) (w : http.ResponseWriter)
    (now : time.Time) (token : List Byte)
    (hname : http.isCookieNameValid cookieAuth.settings.Name = false) :
    cookieAuth.SetToken w now token = w := by
  unfold auth.Cookie.SetToken http.SetCookie http.Cookie.String
  simp [hname]

/-- The valid bytes of a string of valid bytes are the string. -/
theorem sanitizeOrWarn_of_all (valid : Byte → Bool) (v : List Byte)
    (h : v.all valid = true) : http.sanitizeOrWarn valid v = v := by
  unfold http.sanitizeOrWarn
  rw [if_pos h]

/-- The result of `sanitizeCookieValue` on valid bytes: the value, in double quotes when
it has a space or a comma. -/
theorem sanitizeCookieValue_of_all (v : List Byte)
    (h : v.all http.validCookieValueByte = true) :
    http.sanitizeCookieValue v
      = if v.contains 32 || v.contains 44 then [34] ++ v ++ [34] else v := by
  unfold http.sanitizeCookieValue
  rw [sanitizeOrWarn_of_all _ _ h]
  dsimp only
  split
  · rename_i hlen
    have : v = [] := List.length_eq_zero.mp hlen
    subst this
    rfl
  · rfl

set_option maxRecDepth 100000 in
/-- The cookie that the portal sets for the token `a;b` at `now`. -/
theorem fixture_cookie_of_semicolon :
    fixture.portal.cookieAuth.SetToken http.ResponseWriter.fresh fixture.now (bytesOf "a;b")
      = http.ResponseWriter.fresh.Add "Set-Cookie"
          (bytesOf ("cleanmasters_manager_cookie=ab; Path=/; " ++
            "Expires=Mon, 14 Sep 2020 12:26:40 GMT; HttpOnly; SameSite=Strict")) := by
  decide

set_option maxRecDepth 100000 in
/-- The cookie that the portal sets for the token `ab` at `now`. -/
theorem fixture_cookie_of_plain :
    fixture.portal.cookieAuth.SetToken http.ResponseWriter.fresh fixture.now (bytesOf "ab")
      = http.ResponseWriter.fresh.Add "Set-Cookie"
          (bytesOf ("cleanmasters_manager_cookie=ab; Path=/; " ++
            "Expires=Mon, 14 Sep 2020 12:26:40 GMT; HttpOnly; SameSite=Strict")) := by
  decide

set_option maxRecDepth 100000 in
/-- The cookie name of the portal is valid, its path is not empty and has valid bytes, and
the year of the expiry of a cookie set at `now` is valid. -/
theorem fixture_cookie_settings_valid :
    http.isCookieNameValid fixture.portal.cookieAuth.settings.Name = true ∧
    0 < fixture.portal.cookieAuth.settings.Path.length ∧
    fixture.portal.cookieAuth.settings.Path.all http.validCookiePathByte = true ∧
    (bytesOf "abc-_=").all http.validCookieValueByte = true ∧
    (fixture.now.Add auth.cookieDuration).Year ≥ 1601 := by
  decide

/-- C23, as stated, fails. For the token `a;b` the admin portal emits, at
2020-09-13T12:26:40Z, the cookie `cleanmasters_manager_cookie=ab`: the value of the cookie
is not the token, and it is the cookie emitted for the token `ab`. -/
theorem SetToken_of_a_token_with_a_semicolon :
    (fixture.portal.cookieAuth.SetToken http.ResponseWriter.fresh fixture.now
        (bytesOf "a;b")).header
      = [("Set-Cookie",
          bytesOf ("cleanmasters_manager_cookie=ab; Path=/; " ++
            "Expires=Mon, 14 Sep 2020 12:26:40 GMT; HttpOnly; SameSite=Strict"))] ∧
    fixture.portal.cookieAuth.SetToken http.ResponseWriter.fresh fixture.now (bytesOf "a;b")
      = fixture.portal.cookieAuth.SetToken http.ResponseWriter.fresh fixture.now
          (bytesOf "ab") := by
  rw [fixture_cookie_of_semicolon, fixture_cookie_of_plain]
  exact ⟨rfl, rfl⟩

/-- C23, amended. For a cookie name that is a token of RFC 7230, a non-empty path of
printable ASCII bytes (0x20 to 0x7e) other than the semicolon, a token of bytes that a
cookie value may hold (printable ASCII, 0x20 to 0x7e, other than the double quote, the
semicolon and the backslash) and an expiry in the year 1601 or later, `Cookie.SetToken` at the time `now` adds exactly one `Set-Cookie`
field to the response and leaves the rest of it: the cookie has the configured name, the
token as its value (in double quotes when the token holds a space or a comma), the
configured path, the expiry `now` plus 24 hours at the resolution of a second in GMT,
`HttpOnly` and `SameSite=Strict`. The path of the admin portal is `/`. -/
theorem SetToken_emits_the_cookie_of_a_valid_token (cookieAuth : auth.Cookie)
    (w : http.ResponseWriter) (now : time.Time) (token : List Byte)
    (hname : http.isCookieNameValid cookieAuth.settings.Name = true)
    (hpath : 0 < cookieAuth.settings.Path.length)
    (hpathBytes : cookieAuth.settings.Path.all http.validCookiePathByte = true)
    (htoken : token.all http.validCookieValueByte = true)
    (hyear : (now.Add auth.cookieDuration).Year ≥ 1601) :
    cookieAuth.SetToken w now token
      = { w with header := w.header ++
          [("Set-Cookie",
            cookieAuth.settings.Name ++ [61]
              ++ (if token.contains 32 || token.contains 44 then [34] ++ token ++ [34]
                  else token)
              ++ (bytesOf "; Path=" ++ cookieAuth.settings.Path)
              ++ (bytesOf "; Expires="
                  ++ (now.Add (time.Hour * 24)).UTC.AppendTimeFormat [])
              ++ bytesOf "; HttpOnly; SameSite=Strict")] } ∧
    now.Add (time.Hour * 24)
      = { sec := time.wrap64 (now.sec + 86400), nsec := now.nsec, offset := now.offset } ∧
    (∀ authService clients managers,
      (adminportalweb.NewServer authService clients managers).cookieAuth.settings.Path
        = bytesOf "/") := by
  refine ⟨?_, Add_24_hours now, fun _ _ _ => rfl⟩
  have hvalid : http.validCookieExpires (now.Add auth.cookieDuration) = true := by
    unfold http.validCookieExpires
    exact decide_eq_true hyear
  rw [SetToken_eq cookieAuth w now token hname, sanitizeCookieValue_of_all token htoken,
    if_pos hpath, if_pos hvalid]
  unfold http.sanitizeCookiePath
  rw [sanitizeOrWarn_of_all _ _ hpathBytes]
  rfl

/-- Witness of the amended C23: the cookie of the admin portal for the token `abc-_=` at
`now`. -/
theorem SetToken_emits_the_cookie_of_a_valid_token_witness :
    fixture.portal.cookieAuth.SetToken http.ResponseWriter.fresh fixture.now
        (bytesOf "abc-_=")
      = { http.ResponseWriter.fresh with header := http.ResponseWriter.fresh.header ++
          [("Set-Cookie",
            fixture.portal.cookieAuth.settings.Name ++ [61]
              ++ (if (bytesOf "abc-_=").contains 32 || (bytesOf "abc-_=").contains 44 then
                    [34] ++ bytesOf "abc-_=" ++ [34]
                  else bytesOf "abc-_=")
              ++ (bytesOf "; Path=" ++ fixture.portal.cookieAuth.settings.Path)
              ++ (bytesOf "; Expires="
                  ++ (fixture.now.Add (time.Hour * 24)).UTC.AppendTimeFormat [])
              ++ bytesOf "; HttpOnly; SameSite=Strict")] } :=
  (SetToken_emits_the_cookie_of_a_valid_token fixture.portal.cookieAuth
    http.ResponseWriter.fresh fixture.now (bytesOf "abc-_=")
    fixture_cookie_settings_valid.1 fixture_cookie_settings_valid.2.1
    fixture_cookie_settings_valid.2.2.1 fixture_cookie_settings_valid.2.2.2.1
    fixture_cookie_settings_valid.2.2.2.2).1
